import Mathlib

/-!
# FireworkDance: the particle animator, the fragment stage, the matrix utilities, the
seed generator and start-up

A shallow embedding of `src/FireworkDance.cpp`.

Numbers.  The program computes in `float`.  Two readings of the arithmetic are used.

* Exact.  Every `float` is an element of a linearly ordered field `α` with a floor
  function (`ℚ` when a definition is evaluated, `ℝ` when a square root is needed), and
  `+ - * /` are the exact field operations.  Where `float` division by zero gives an
  infinity or NaN, the field gives `x / 0 = 0`; a statement that depends on a quotient
  therefore says whether its denominator is zero.  This reading serves the matrix
  utilities, the layout of the particle buffer, start-up, and the statements on the
  vertex shader's branch and gravity formula, which do not depend on rounding.

* Binary32 (namespaces `F32` and `Binary32`).  Every `float` is a rational number that
  binary32 represents, and every operation is the exact operation followed by
  `F32.rnd`: round to nearest, ties to even, 24 significant bits, gradual underflow
  below `2^-126`.  Overflow, infinities and NaN are not modelled, and no operations are
  fused.  This reading serves every statement on a range, a period or an equality of
  values that the shaders or the seed generator compute, where rounding decides.

Library functions whose values are not arithmetic operations (`sin`, `sqrt`, `tan`) are
arguments of the definitions that call them.
-/

namespace FireworkDance

/-! ## Vectors -/

/-- A GLSL `vec3` / a C++ `std::array<float, 3>`. -/
@[ext]
structure Vec3 (α : Type) where
  x : α
  y : α
  z : α
deriving DecidableEq, Repr

/-- A GLSL `vec4`. -/
@[ext]
structure Vec4 (α : Type) where
  x : α
  y : α
  z : α
  w : α
deriving DecidableEq, Repr

namespace Vec3

variable {α : Type} [LinearOrderedField α]

/-- GLSL `vec3 + vec3`. -/
def add (a b : Vec3 α) : Vec3 α := ⟨a.x + b.x, a.y + b.y, a.z + b.z⟩

/-- GLSL `vec3 - vec3`. -/
def sub (a b : Vec3 α) : Vec3 α := ⟨a.x - b.x, a.y - b.y, a.z - b.z⟩

/-- GLSL `vec3 + float`: the scalar is added to every component. -/
def addScalar (a : Vec3 α) (s : α) : Vec3 α := ⟨a.x + s, a.y + s, a.z + s⟩

/-- GLSL `vec3 * float`. -/
def scale (a : Vec3 α) (s : α) : Vec3 α := ⟨a.x * s, a.y * s, a.z * s⟩

/-- GLSL `dot(a, b)`. -/
def dot (a b : Vec3 α) : α := a.x * b.x + a.y * b.y + a.z * b.z

end Vec3

/-! ## The 4x4 matrix utilities -/

/-- `using mat4 = std::array<float, 16>;` -/
abbrev mat4 (α : Type) := Fin 16 → α

namespace mat4

variable {α : Type} [LinearOrderedField α]

/-- The array holding the sixteen given elements at the indices 0 to 15. -/
def ofElems (m0 m1 m2 m3 m4 m5 m6 m7 m8 m9 m10 m11 m12 m13 m14 m15 : α) : mat4 α :=
  fun i =>
    match i.val with
    | 0 => m0 | 1 => m1 | 2 => m2 | 3 => m3
    | 4 => m4 | 5 => m5 | 6 => m6 | 7 => m7
    | 8 => m8 | 9 => m9 | 10 => m10 | 11 => m11
    | 12 => m12 | 13 => m13 | 14 => m14 | _ => m15

/-- Column-major storage: the index of the element in row `r` and column `c` is `4*c + r`. -/
def idx (r c : Fin 4) : Fin 16 := ⟨4 * c.val + r.val, by omega⟩

/-- GLSL `mat4 * vec4` for a matrix uploaded column-major (`glUniformMatrix4fv` with
`transpose = GL_FALSE`): component `r` of the result is `Σ c, m[4*c + r] * v[c]`. -/
def mulVec (m : mat4 α) (v : Vec4 α) : Vec4 α :=
  ⟨m 0 * v.x + m 4 * v.y + m 8 * v.z + m 12 * v.w,
   m 1 * v.x + m 5 * v.y + m 9 * v.z + m 13 * v.w,
   m 2 * v.x + m 6 * v.y + m 10 * v.z + m 14 * v.w,
   m 3 * v.x + m 7 * v.y + m 11 * v.z + m 15 * v.w⟩

end mat4

section Matrices

variable {α : Type} [LinearOrderedField α]

/-- `mat4 create_identity()`. -/
def create_identity : mat4 α :=
  mat4.ofElems
    1 0 0 0
    0 1 0 0
    0 0 1 0
    0 0 0 1

/-- `void perspective(mat4& out, float fovy_rad, float aspect, float near, float far)`.
The library function `std::tan` is the argument `tan`. -/
def perspective (tan : α → α) (fovy_rad aspect near far : α) : mat4 α :=
  let f := 1.0 / tan (fovy_rad / 2.0)
  let nf := 1.0 / (near - far)
  mat4.ofElems
    (f / aspect) 0.0 0.0 0.0
    0.0 f 0.0 0.0
    0.0 0.0 ((far + near) * nf) (-1.0)
    0.0 0.0 ((2.0 * far * near) * nf) 0.0

/-- `void lookAt(mat4& out, eye, center, up)`.
The library function `std::sqrt` is the argument `sqrt`. -/
def lookAt (sqrt : α → α) (eye center up : Vec3 α) : mat4 α :=
  let eyex := eye.x; let eyey := eye.y; let eyez := eye.z
  let upx := up.x; let upy := up.y; let upz := up.z
  let centerx := center.x; let centery := center.y; let centerz := center.z

  let z0 := eyex - centerx; let z1 := eyey - centery; let z2 := eyez - centerz
  let len := 1.0 / sqrt (z0 * z0 + z1 * z1 + z2 * z2)
  let z0 := z0 * len; let z1 := z1 * len; let z2 := z2 * len

  let x0 := upy * z2 - upz * z1
  let x1 := upz * z0 - upx * z2
  let x2 := upx * z1 - upy * z0
  let len := 1.0 / sqrt (x0 * x0 + x1 * x1 + x2 * x2)
  let x0 := x0 * len; let x1 := x1 * len; let x2 := x2 * len

  let y0 := z1 * x2 - z2 * x1
  let y1 := z2 * x0 - z0 * x2
  let y2 := z0 * x1 - z1 * x0
  let len := 1.0 / sqrt (y0 * y0 + y1 * y1 + y2 * y2)
  let y0 := y0 * len; let y1 := y1 * len; let y2 := y2 * len

  mat4.ofElems
    x0 x1 x2 0
    y0 y1 y2 0
    z0 z1 z2 0
    (-(x0 * eyex + x1 * eyey + x2 * eyez))
    (-(y0 * eyex + y1 * eyey + y2 * eyez))
    (-(z0 * eyex + z1 * eyey + z2 * eyez))
    1.0

/-- `void multiply(mat4& out, const mat4& a, const mat4& b)`. -/
def multiply (a b : mat4 α) : mat4 α :=
  let a00 := a 0; let a01 := a 1; let a02 := a 2; let a03 := a 3
  let a10 := a 4; let a11 := a 5; let a12 := a 6; let a13 := a 7
  let a20 := a 8; let a21 := a 9; let a22 := a 10; let a23 := a 11
  let a30 := a 12; let a31 := a 13; let a32 := a 14; let a33 := a 15

  -- Column 0
  let b0 := b 0; let b1 := b 1; let b2 := b 2; let b3 := b 3
  let out0 := b0 * a00 + b1 * a10 + b2 * a20 + b3 * a30
  let out1 := b0 * a01 + b1 * a11 + b2 * a21 + b3 * a31
  let out2 := b0 * a02 + b1 * a12 + b2 * a22 + b3 * a32
  let out3 := b0 * a03 + b1 * a13 + b2 * a23 + b3 * a33

  -- Column 1
  let b0 := b 4; let b1 := b 5; let b2 := b 6; let b3 := b 7
  let out4 := b0 * a00 + b1 * a10 + b2 * a20 + b3 * a30
  let out5 := b0 * a01 + b1 * a11 + b2 * a21 + b3 * a31
  let out6 := b0 * a02 + b1 * a12 + b2 * a22 + b3 * a32
  let out7 := b0 * a03 + b1 * a13 + b2 * a23 + b3 * a33

  -- Column 2
  let b0 := b 8; let b1 := b 9; let b2 := b 10; let b3 := b 11
  let out8 := b0 * a00 + b1 * a10 + b2 * a20 + b3 * a30
  let out9 := b0 * a01 + b1 * a11 + b2 * a21 + b3 * a31
  let out10 := b0 * a02 + b1 * a12 + b2 * a22 + b3 * a32
  let out11 := b0 * a03 + b1 * a13 + b2 * a23 + b3 * a33

  -- Column 3
  let b0 := b 12; let b1 := b 13; let b2 := b 14; let b3 := b 15
  let out12 := b0 * a00 + b1 * a10 + b2 * a20 + b3 * a30
  let out13 := b0 * a01 + b1 * a11 + b2 * a21 + b3 * a31
  let out14 := b0 * a02 + b1 * a12 + b2 * a22 + b3 * a32
  let out15 := b0 * a03 + b1 * a13 + b2 * a23 + b3 * a33

  mat4.ofElems
    out0 out1 out2 out3
    out4 out5 out6 out7
    out8 out9 out10 out11
    out12 out13 out14 out15

/-- `void setupMatrices(int width, int height, GLint uniformLoc)`: the matrix handed to
`glUniformMatrix4fv`.  `pi` is the constant `M_PI`. -/
def setupMatrices (tan sqrt : α → α) (pi : α) (width height : ℤ) : mat4 α :=
  let aspect := (width : α) / (height : α)
  let projectionMatrix := perspective tan (45.0 * (pi / 180.0)) aspect 0.1 100.0
  let viewMatrix := lookAt sqrt ⟨0.0, 0.0, 5.0⟩ ⟨0.0, 0.0, 0.0⟩ ⟨0.0, 1.0, 0.0⟩
  multiply projectionMatrix viewMatrix

end Matrices

/-! ## The particle seed generator (step 7 of the C++ `main`) -/

namespace SeedGenerator

variable {α : Type} [LinearOrderedField α]

/-- `const int NUM_EXPLOSIONS = 10;` -/
def NUM_EXPLOSIONS : ℕ := 10

/-- `const int PARTICLES_PER_EXPLOSION = 500;` -/
def PARTICLES_PER_EXPLOSION : ℕ := 500

/-- `const int NUM_PARTICLES = NUM_EXPLOSIONS * PARTICLES_PER_EXPLOSION;` -/
def NUM_PARTICLES : ℕ := NUM_EXPLOSIONS * PARTICLES_PER_EXPLOSION

/-- `const int ATTRIB_SIZE = 10;` -/
def ATTRIB_SIZE : ℕ := 10

/-- The expression `static_cast<float>(rand()) / RAND_MAX`.  `r` is the value of
`static_cast<float>(rand())` and `RAND_MAX` the value of the constant of `<cstdlib>`
as the division sees it, that is converted to `float`; both are whole numbers, and
`r ≤ RAND_MAX` because the conversion is monotone. -/
def frand (RAND_MAX r : ℕ) : α := (r : α) / (RAND_MAX : α)

/-- The seven per-group values drawn at the top of the outer loop. -/
structure GroupSeed (α : Type) where
  originX : α
  originY : α
  originZ : α
  startTime : α
  r_seed : α
  g_seed : α
  b_seed : α

/-- The per-group draws of the outer loop body.  `rand k` is the result of the `k`-th
call of `rand()` (counted from 0) and `n` the number of calls made so far. -/
def groupSeed (RAND_MAX : ℕ) (rand : ℕ → ℕ) (n : ℕ) : GroupSeed α :=
  { originX := (frand RAND_MAX (rand n) * 6.0) - 3.0
    originY := (frand RAND_MAX (rand (n + 1)) * 4.0) - 2.0
    originZ := (frand RAND_MAX (rand (n + 2)) * -3.0) - 2.0
    startTime := frand RAND_MAX (rand (n + 3)) * 5.0
    r_seed := frand RAND_MAX (rand (n + 4))
    g_seed := frand RAND_MAX (rand (n + 5))
    b_seed := frand RAND_MAX (rand (n + 6)) }

/-- The three components drawn for one particle: `x_dir`, `y_dir`, `z_dir`. -/
def rawDirection (RAND_MAX : ℕ) (rand : ℕ → ℕ) (n : ℕ) : Vec3 α :=
  ⟨frand RAND_MAX (rand n) * 2.0 - 1.0,
   frand RAND_MAX (rand (n + 1)) * 2.0 - 1.0,
   frand RAND_MAX (rand (n + 2)) * 2.0 - 1.0⟩

/-- `float len = std::sqrt(x_dir*x_dir + y_dir*y_dir + z_dir*z_dir);` -/
def dirLen (sqrt : α → α) (d : Vec3 α) : α :=
  sqrt (d.x * d.x + d.y * d.y + d.z * d.z)

/-- The direction stored in slots 3..5 of a record:
`x_dir / len`, `y_dir / len`, `z_dir / len`. -/
def storedDirection (sqrt : α → α) (RAND_MAX : ℕ) (rand : ℕ → ℕ) (n : ℕ) : Vec3 α :=
  let d := rawDirection RAND_MAX rand n
  let len := dirLen sqrt d
  ⟨d.x / len, d.y / len, d.z / len⟩

/-- The state of the generation loops: the number of `rand()` calls made so far and
the contents of `particleData`. -/
structure GenState (α : Type) where
  calls : ℕ
  particleData : List α

/-- One iteration of the inner loop `for (int j = 0; j < PARTICLES_PER_EXPLOSION; j++)`. -/
def particleStep (sqrt : α → α) (RAND_MAX : ℕ) (rand : ℕ → ℕ) (g : GroupSeed α) (i : ℕ)
    (st : GenState α) (j : ℕ) : GenState α :=
  let offset := (i * PARTICLES_PER_EXPLOSION + j) * ATTRIB_SIZE
  let dir := storedDirection sqrt RAND_MAX rand st.calls
  let particleData := st.particleData
  -- a_origin (Location 0)
  let particleData := particleData.set (offset + 0) g.originX
  let particleData := particleData.set (offset + 1) g.originY
  let particleData := particleData.set (offset + 2) g.originZ
  -- a_direction (Location 1)
  let particleData := particleData.set (offset + 3) dir.x
  let particleData := particleData.set (offset + 4) dir.y
  let particleData := particleData.set (offset + 5) dir.z
  -- a_color (Location 2)
  let particleData := particleData.set (offset + 6) g.r_seed
  let particleData := particleData.set (offset + 7) g.g_seed
  let particleData := particleData.set (offset + 8) g.b_seed
  -- a_startTime (Location 3)
  let particleData := particleData.set (offset + 9) g.startTime
  { calls := st.calls + 3, particleData := particleData }

/-- One iteration of the outer loop `for (int i = 0; i < NUM_EXPLOSIONS; i++)`. -/
def groupStep (sqrt : α → α) (RAND_MAX : ℕ) (rand : ℕ → ℕ) (st : GenState α) (i : ℕ) :
    GenState α :=
  let g : GroupSeed α := groupSeed RAND_MAX rand st.calls
  (List.range PARTICLES_PER_EXPLOSION).foldl (particleStep sqrt RAND_MAX rand g i)
    { calls := st.calls + 7, particleData := st.particleData }

/-- Step 7 of `main`: `particleData` after both loops, starting from
`std::vector<float> particleData(NUM_PARTICLES * ATTRIB_SIZE)`, which is all zeros. -/
def generateParticleData (sqrt : α → α) (RAND_MAX : ℕ) (rand : ℕ → ℕ) : List α :=
  ((List.range NUM_EXPLOSIONS).foldl (groupStep sqrt RAND_MAX rand)
    { calls := 0, particleData := List.replicate (NUM_PARTICLES * ATTRIB_SIZE) 0 }).particleData

/-- The value a record holds in slot `s`, after the layout
`origin(3), direction(3), color(3), startTime(1)`, for the group values `g` and the
direction `dir`. -/
def recordSlot {α : Type} (g : GroupSeed α) (dir : Vec3 α) (s : ℕ) : α :=
  match s with
  | 0 => g.originX
  | 1 => g.originY
  | 2 => g.originZ
  | 3 => dir.x
  | 4 => dir.y
  | 5 => dir.z
  | 6 => g.r_seed
  | 7 => g.g_seed
  | 8 => g.b_seed
  | _ => g.startTime

end SeedGenerator

/-! ## GLSL built-ins -/

section Builtins

variable {α : Type} [LinearOrderedField α] [FloorRing α]

/-- GLSL `floor(x)`, returned as a float. -/
def glsl_floor (x : α) : α := ((⌊x⌋ : ℤ) : α)

/-- GLSL `mod(x, y)`, defined by the GLSL specification as `x - y * floor(x / y)`. -/
def glsl_mod (x y : α) : α := x - y * glsl_floor (x / y)

/-- GLSL `fract(x)`, defined by the GLSL specification as `x - floor(x)`. -/
def glsl_fract (x : α) : α := x - glsl_floor x

end Builtins

/-! ## The vertex shader (`vertexShaderSource`) -/

namespace VertexShader

variable {α : Type} [LinearOrderedField α] [FloorRing α]

/-- `const float SPEED = 1.1;` -/
def SPEED : α := 1.1

/-- `const float MAX_LIFETIME = 5.0;` -/
def MAX_LIFETIME : α := 5.0

/-- `const float TOTAL_LIFETIME = 7.0;` -/
def TOTAL_LIFETIME : α := 7.0

/-- `const float GRAVITY_ACCEL = 0.8;` -/
def GRAVITY_ACCEL : α := 0.8

/-- `const float GRAVITY_DELAY = 1.5;` -/
def GRAVITY_DELAY : α := 1.5

/-- `const float CAMERA_Z = 5.0;` -/
def CAMERA_Z : α := 5.0

/-- `vec3 hash3(vec3 v)`:
`fract(sin(vec3(dot(v, c1), dot(v, c2), dot(v, c3))) * 43758.5453123)`.
The built-in `sin` is the argument `sin`. -/
def hash3 (sin : α → α) (v : Vec3 α) : Vec3 α :=
  ⟨glsl_fract (sin (Vec3.dot v ⟨127.1, 311.7, 74.7⟩) * 43758.5453123),
   glsl_fract (sin (Vec3.dot v ⟨269.5, 183.3, 246.1⟩) * 43758.5453123),
   glsl_fract (sin (Vec3.dot v ⟨113.5, 271.9, 124.6⟩) * 43758.5453123)⟩

/-- The per-vertex inputs of the shader: the four attributes of one particle record. -/
structure Attribs (α : Type) where
  a_origin : Vec3 α
  a_direction : Vec3 α
  a_color : Vec3 α
  a_startTime : α

/-- What one run of the shader writes.  `gl_Position` is always written; the other
three outputs are `none` when the shader returns before assigning them. -/
structure Outputs (α : Type) where
  gl_Position : Vec4 α
  gl_PointSize : Option α
  v_color : Option (Vec3 α)
  v_alpha : Option α

/-- Step 1: `float time_since_start = u_time - a_startTime;` -/
def time_since_start (u_time a_startTime : α) : α := u_time - a_startTime

/-- Step 2: `float loop_count = floor(time_since_start / TOTAL_LIFETIME);` -/
def loop_count (u_time a_startTime : α) : α :=
  glsl_floor (time_since_start u_time a_startTime / TOTAL_LIFETIME)

/-- Step 3: `float localTime = mod(time_since_start, TOTAL_LIFETIME);` -/
def localTime (u_time a_startTime : α) : α :=
  glsl_mod (time_since_start u_time a_startTime) TOTAL_LIFETIME

/-- Step 5: `new_origin`, the hash of `a_origin + loop_count` mapped to world space. -/
def new_origin (sin : α → α) (a_origin : Vec3 α) (loop_count : α) : Vec3 α :=
  let loop_seed_origin := Vec3.addScalar a_origin loop_count
  let hash_origin := hash3 sin loop_seed_origin
  ⟨(hash_origin.x * 6.0) - 3.0,
   (hash_origin.y * 4.0) - 2.0,
   (hash_origin.z * -3.0) - 2.0⟩

/-- Step 6: `new_color`, the hash of `a_color + loop_count`. -/
def new_color (sin : α → α) (a_color : Vec3 α) (loop_count : α) : Vec3 α :=
  let loop_seed_color := Vec3.addScalar a_color loop_count
  hash3 sin loop_seed_color

/-- Step 7: `float explosion_distance = localTime * SPEED;` -/
def explosion_distance (localTime : α) : α := localTime * SPEED

/-- Step 8: `vec3 explosion_pos = a_direction * explosion_distance;` -/
def explosion_pos (a_direction : Vec3 α) (localTime : α) : Vec3 α :=
  Vec3.scale a_direction (explosion_distance localTime)

/-- Step 9: `gravity_offset`, zero until `GRAVITY_DELAY` and quadratic afterwards. -/
def gravity_offset (localTime : α) : α :=
  if localTime > GRAVITY_DELAY then
    let gravity_time := localTime - GRAVITY_DELAY
    0.5 * GRAVITY_ACCEL * (gravity_time * gravity_time)
  else 0.0

/-- Step 10: `vec3 position = new_origin + explosion_pos - vec3(0.0, gravity_offset, 0.0);` -/
def position (sin : α → α) (a : Attribs α) (u_time : α) : Vec3 α :=
  let lt := localTime u_time a.a_startTime
  Vec3.sub
    (Vec3.add (new_origin sin a.a_origin (loop_count u_time a.a_startTime))
      (explosion_pos a.a_direction lt))
    ⟨0.0, gravity_offset lt, 0.0⟩

/-- Step 12: `v_alpha = 1.0 - (localTime / MAX_LIFETIME);` -/
def alpha (localTime : α) : α := 1.0 - (localTime / MAX_LIFETIME)

/-- Step 13: `float camera_dist = CAMERA_Z - position.z;` -/
def camera_dist (position : Vec3 α) : α := CAMERA_Z - position.z

/-- Step 13: `gl_PointSize = (50.0 * (localTime * 0.2)) / camera_dist;` -/
def pointSize (localTime : α) (position : Vec3 α) : α :=
  (50.0 * (localTime * 0.2)) / camera_dist position

/-- The value written to `gl_Position` in the wait period: `vec4(0.0, 0.0, 0.0, -1.0)`. -/
def hiddenPosition : Vec4 α := ⟨0.0, 0.0, 0.0, -1.0⟩

/-- The shader's `void main()`: steps 1 to 14, with the early return of step 4. -/
def main (sin : α → α) (u_projViewMatrix : mat4 α) (a : Attribs α) (u_time : α) :
    Outputs α :=
  let lt := localTime u_time a.a_startTime
  if lt > MAX_LIFETIME then
    { gl_Position := hiddenPosition, gl_PointSize := none, v_color := none, v_alpha := none }
  else
    let pos := position sin a u_time
    { gl_Position := mat4.mulVec u_projViewMatrix ⟨pos.x, pos.y, pos.z, 1.0⟩,
      gl_PointSize := some (pointSize lt pos),
      v_color := some (new_color sin a.a_color (loop_count u_time a.a_startTime)),
      v_alpha := some (alpha lt) }

/-- The shader took the early return of step 4: only the sentinel position was written. -/
def Outputs.isHidden (o : Outputs α) : Prop :=
  o.gl_Position = hiddenPosition ∧ o.gl_PointSize = none ∧ o.v_color = none ∧ o.v_alpha = none

end VertexShader

/-! ## The fragment shader's `vec2` -/

/-- A GLSL `vec2`. -/
@[ext]
structure Vec2 (α : Type) where
  x : α
  y : α
deriving DecidableEq, Repr

/-! ## Start-up and shutdown of the C++ `main` -/

namespace App

/-- What the calls to GLFW, GLAD and OpenGL return during one run: these are the inputs
of `main`. -/
structure Environment where
  /-- `glfwInit()` returned true. -/
  glfwInitOk : Bool
  /-- `glfwCreateWindow(...)` returned a non-null window. -/
  windowCreated : Bool
  /-- `gladLoadGLLoader(...)` returned true. -/
  gladLoaded : Bool
  /-- `GL_COMPILE_STATUS` of the vertex shader. -/
  vertexCompiled : Bool
  /-- `GL_COMPILE_STATUS` of the fragment shader. -/
  fragmentCompiled : Bool
  /-- `GL_LINK_STATUS` of the program. -/
  linked : Bool
  /-- The name returned by `glCreateShader(GL_VERTEX_SHADER)`. -/
  vertexName : ℕ
  /-- The name returned by `glCreateShader(GL_FRAGMENT_SHADER)`. -/
  fragmentName : ℕ
  /-- The name returned by `glCreateProgram()`. -/
  programName : ℕ
  /-- The number of times `glfwWindowShouldClose(window)` returns false. -/
  frames : ℕ

/-- The messages the program writes to `std::cerr`. -/
inductive Message where
  | failedToInitializeGLFW
  | failedToCreateWindow
  | failedToInitializeGLAD
  | shaderCompilationFailed
  | programLinkingFailed
deriving DecidableEq, Repr

/-- `unsigned int compileShader(GLenum type, const char* source)`: the returned name and
the messages written.  `compiled` is the compile status, `name` the shader name. -/
def compileShader (compiled : Bool) (name : ℕ) : ℕ × List Message :=
  if !compiled then
    (0, [Message.shaderCompilationFailed])
  else
    (name, [])

/-- `unsigned int createProgram(const char* vsSource, const char* fsSource)`: the returned
name and the messages written. -/
def createProgram (env : Environment) : ℕ × List Message :=
  let vertex := compileShader env.vertexCompiled env.vertexName
  let fragment := compileShader env.fragmentCompiled env.fragmentName
  if vertex.1 = 0 ∨ fragment.1 = 0 then
    (0, vertex.2 ++ fragment.2)
  else
    let ID := env.programName
    if !env.linked then
      (0, vertex.2 ++ fragment.2 ++ [Message.programLinkingFailed])
    else
      (ID, vertex.2 ++ fragment.2)

/-- What one run of `main` does, as far as start-up is concerned. -/
structure Run where
  /-- The value returned by `main`. -/
  exitCode : ℤ
  /-- The messages written to `std::cerr`, in order. -/
  stderr : List Message
  /-- The argument of `glUseProgram` in step 5, when that step is reached. -/
  usedProgram : Option ℕ
  /-- The render loop (step 10) was reached. -/
  renderLoopEntered : Bool
  /-- The number of iterations of the render loop. -/
  framesDrawn : ℕ
deriving DecidableEq, Repr

/-- `int main()`: steps 1 to 5 (start-up), step 10 (the render loop, which runs while
`glfwWindowShouldClose` is false) and the final `return 0`. -/
def main (env : Environment) : Run :=
  -- 1. Initialize GLFW
  if !env.glfwInitOk then
    { exitCode := -1, stderr := [Message.failedToInitializeGLFW], usedProgram := none,
      renderLoopEntered := false, framesDrawn := 0 }
  -- 2. Create Window
  else if !env.windowCreated then
    { exitCode := -1, stderr := [Message.failedToCreateWindow], usedProgram := none,
      renderLoopEntered := false, framesDrawn := 0 }
  -- 3. Load GLAD
  else if !env.gladLoaded then
    { exitCode := -1, stderr := [Message.failedToInitializeGLAD], usedProgram := none,
      renderLoopEntered := false, framesDrawn := 0 }
  else
    -- 5. Compile and Link Shaders
    let shaderProgram := createProgram env
    -- 10. Render Loop, 11. Cleanup
    { exitCode := 0, stderr := shaderProgram.2, usedProgram := some shaderProgram.1,
      renderLoopEntered := true, framesDrawn := env.frames }

end App

/-! ## Binary32 arithmetic -/

namespace F32

/-- Round a rational to the nearest integer, ties to the even one. -/
def rne (y : ℚ) : ℤ :=
  if y - ⌊y⌋ < 1 / 2 then ⌊y⌋
  else if 1 / 2 < y - ⌊y⌋ then ⌊y⌋ + 1
  else if ⌊y⌋ % 2 = 0 then ⌊y⌋ else ⌊y⌋ + 1

/-- The binary exponent used for a magnitude `a`: `⌊log₂ a⌋`, and `-126` in the
subnormal range. -/
def expo (a : ℚ) : ℤ := max (Int.log 2 a) (-126)

/-- The spacing of binary32 numbers around a magnitude `a` (24 significant bits). -/
def quantum (a : ℚ) : ℚ := (2 : ℚ) ^ (expo a - 23)

/-- Rounding of a magnitude `a ≥ 0`. -/
def roundAbs (a : ℚ) : ℚ := (rne (a / quantum a) : ℚ) * quantum a

/-- Rounding to binary32: nearest, ties to even, gradual underflow, no overflow. -/
def rnd (x : ℚ) : ℚ := if 0 ≤ x then roundAbs x else -roundAbs (-x)

/-- `a + b` rounded to binary32. -/
def add (a b : ℚ) : ℚ := rnd (a + b)

/-- `a - b` rounded to binary32. -/
def sub (a b : ℚ) : ℚ := rnd (a - b)

/-- `a * b` rounded to binary32. -/
def mul (a b : ℚ) : ℚ := rnd (a * b)

/-- `a / b` rounded to binary32. -/
def div (a b : ℚ) : ℚ := rnd (a / b)

/-- GLSL `floor(x)`: exact, the floor of a binary32 number is a binary32 number. -/
def floor (x : ℚ) : ℚ := ((⌊x⌋ : ℤ) : ℚ)

/-- GLSL `mod(x, y) = x - y * floor(x / y)`, every operation rounded. -/
def mod (x y : ℚ) : ℚ := sub x (mul y (floor (div x y)))

/-- GLSL `fract(x) = x - floor(x)`, rounded. -/
def fract (x : ℚ) : ℚ := sub x (floor x)

end F32

/-! ## The shaders and the group draws in binary32

The same code as above, with every `float` operation rounded by `F32.rnd`: a literal
such as `1.1` is the nearest binary32 number, and `a + b`, `a - b`, `a * b`, `a / b`
are `F32.add`, `F32.sub`, `F32.mul`, `F32.div`.  The GLSL built-ins `mod`, `fract` and
`smoothstep` are the formulas of the GLSL specification with each operation rounded;
no operations are fused.  The values of `sin` and `sqrt` remain arguments. -/

namespace Binary32

namespace VertexShader

open F32

/-- `const float SPEED = 1.1;` -/
def SPEED : ℚ := rnd 1.1

/-- `const float MAX_LIFETIME = 5.0;` -/
def MAX_LIFETIME : ℚ := rnd 5.0

/-- `const float TOTAL_LIFETIME = 7.0;` -/
def TOTAL_LIFETIME : ℚ := rnd 7.0

/-- `const float GRAVITY_ACCEL = 0.8;` -/
def GRAVITY_ACCEL : ℚ := rnd 0.8

/-- `const float GRAVITY_DELAY = 1.5;` -/
def GRAVITY_DELAY : ℚ := rnd 1.5

/-- `const float CAMERA_Z = 5.0;` -/
def CAMERA_Z : ℚ := rnd 5.0

/-- GLSL `dot(a, b)` on `vec3`, summed from left to right. -/
def dot (a b : Vec3 ℚ) : ℚ := add (add (mul a.x b.x) (mul a.y b.y)) (mul a.z b.z)

/-- `vec3 hash3(vec3 v)`.  The argument `sin` gives the binary32 value the built-in
returns. -/
def hash3 (sin : ℚ → ℚ) (v : Vec3 ℚ) : Vec3 ℚ :=
  ⟨fract (mul (sin (dot v ⟨rnd 127.1, rnd 311.7, rnd 74.7⟩)) (rnd 43758.5453123)),
   fract (mul (sin (dot v ⟨rnd 269.5, rnd 183.3, rnd 246.1⟩)) (rnd 43758.5453123)),
   fract (mul (sin (dot v ⟨rnd 113.5, rnd 271.9, rnd 124.6⟩)) (rnd 43758.5453123))⟩

/-- Step 1: `float time_since_start = u_time - a_startTime;` -/
def time_since_start (u_time a_startTime : ℚ) : ℚ := sub u_time a_startTime

/-- Step 2: `float loop_count = floor(time_since_start / TOTAL_LIFETIME);` -/
def loop_count (u_time a_startTime : ℚ) : ℚ :=
  floor (div (time_since_start u_time a_startTime) TOTAL_LIFETIME)

/-- Step 3: `float localTime = mod(time_since_start, TOTAL_LIFETIME);` -/
def localTime (u_time a_startTime : ℚ) : ℚ :=
  mod (time_since_start u_time a_startTime) TOTAL_LIFETIME

/-- Steps 5 and 6: `a_origin + loop_count`, the scalar added to every component. -/
def loop_seed (a : Vec3 ℚ) (loop_count : ℚ) : Vec3 ℚ :=
  ⟨add a.x loop_count, add a.y loop_count, add a.z loop_count⟩

/-- Step 5: `new_origin`. -/
def new_origin (sin : ℚ → ℚ) (a_origin : Vec3 ℚ) (loop_count : ℚ) : Vec3 ℚ :=
  let loop_seed_origin := loop_seed a_origin loop_count
  let hash_origin := hash3 sin loop_seed_origin
  ⟨sub (mul hash_origin.x (rnd 6.0)) (rnd 3.0),
   sub (mul hash_origin.y (rnd 4.0)) (rnd 2.0),
   sub (mul hash_origin.z (rnd (-3.0))) (rnd 2.0)⟩

/-- Step 6: `new_color`. -/
def new_color (sin : ℚ → ℚ) (a_color : Vec3 ℚ) (loop_count : ℚ) : Vec3 ℚ :=
  let loop_seed_color := loop_seed a_color loop_count
  hash3 sin loop_seed_color

/-- Step 7: `float explosion_distance = localTime * SPEED;` -/
def explosion_distance (localTime : ℚ) : ℚ := mul localTime SPEED

/-- Step 8: `vec3 explosion_pos = a_direction * explosion_distance;` -/
def explosion_pos (a_direction : Vec3 ℚ) (localTime : ℚ) : Vec3 ℚ :=
  ⟨mul a_direction.x (explosion_distance localTime),
   mul a_direction.y (explosion_distance localTime),
   mul a_direction.z (explosion_distance localTime)⟩

/-- Step 9: `gravity_offset`. -/
def gravity_offset (localTime : ℚ) : ℚ :=
  if localTime > GRAVITY_DELAY then
    let gravity_time := sub localTime GRAVITY_DELAY
    mul (mul (rnd 0.5) GRAVITY_ACCEL) (mul gravity_time gravity_time)
  else rnd 0.0

/-- Step 10, from its parts:
`new_origin + explosion_pos - vec3(0.0, gravity_offset, 0.0)`. -/
def combine (new_origin explosion_pos : Vec3 ℚ) (gravity_offset : ℚ) : Vec3 ℚ :=
  ⟨sub (add new_origin.x explosion_pos.x) (rnd 0.0),
   sub (add new_origin.y explosion_pos.y) gravity_offset,
   sub (add new_origin.z explosion_pos.z) (rnd 0.0)⟩

/-- Step 10: `vec3 position`. -/
def position (sin : ℚ → ℚ) (a : FireworkDance.VertexShader.Attribs ℚ) (u_time : ℚ) :
    Vec3 ℚ :=
  let lt := localTime u_time a.a_startTime
  combine (new_origin sin a.a_origin (loop_count u_time a.a_startTime))
    (explosion_pos a.a_direction lt) (gravity_offset lt)

/-- Step 12: `v_alpha = 1.0 - (localTime / MAX_LIFETIME);` -/
def alpha (localTime : ℚ) : ℚ := sub (rnd 1.0) (div localTime MAX_LIFETIME)

/-- Step 13: `float camera_dist = CAMERA_Z - position.z;` -/
def camera_dist (position : Vec3 ℚ) : ℚ := sub CAMERA_Z position.z

/-- Step 13: the numerator `50.0 * (localTime * 0.2)`. -/
def pointSizeNumerator (localTime : ℚ) : ℚ := mul (rnd 50.0) (mul localTime (rnd 0.2))

/-- Step 13: `gl_PointSize = (50.0 * (localTime * 0.2)) / camera_dist;` -/
def pointSize (localTime : ℚ) (position : Vec3 ℚ) : ℚ :=
  div (pointSizeNumerator localTime) (camera_dist position)

/-- GLSL `mat4 * vec4`, column-major, each row summed from left to right. -/
def mulVec (m : mat4 ℚ) (v : Vec4 ℚ) : Vec4 ℚ :=
  ⟨add (add (add (mul (m 0) v.x) (mul (m 4) v.y)) (mul (m 8) v.z)) (mul (m 12) v.w),
   add (add (add (mul (m 1) v.x) (mul (m 5) v.y)) (mul (m 9) v.z)) (mul (m 13) v.w),
   add (add (add (mul (m 2) v.x) (mul (m 6) v.y)) (mul (m 10) v.z)) (mul (m 14) v.w),
   add (add (add (mul (m 3) v.x) (mul (m 7) v.y)) (mul (m 11) v.z)) (mul (m 15) v.w)⟩

/-- The value written to `gl_Position` in the wait period: `vec4(0.0, 0.0, 0.0, -1.0)`. -/
def hiddenPosition : Vec4 ℚ := ⟨rnd 0.0, rnd 0.0, rnd 0.0, rnd (-1.0)⟩

/-- The shader's `void main()`. -/
def main (sin : ℚ → ℚ) (u_projViewMatrix : mat4 ℚ) (a : FireworkDance.VertexShader.Attribs ℚ)
    (u_time : ℚ) : FireworkDance.VertexShader.Outputs ℚ :=
  let lt := localTime u_time a.a_startTime
  if lt > MAX_LIFETIME then
    { gl_Position := hiddenPosition, gl_PointSize := none, v_color := none, v_alpha := none }
  else
    let pos := position sin a u_time
    { gl_Position := mulVec u_projViewMatrix ⟨pos.x, pos.y, pos.z, rnd 1.0⟩,
      gl_PointSize := some (pointSize lt pos),
      v_color := some (new_color sin a.a_color (loop_count u_time a.a_startTime)),
      v_alpha := some (alpha lt) }

/-- The shader took the early return of step 4: only the sentinel position was written. -/
def isHidden (o : FireworkDance.VertexShader.Outputs ℚ) : Prop :=
  o.gl_Position = hiddenPosition ∧ o.gl_PointSize = none ∧ o.v_color = none ∧ o.v_alpha = none

end VertexShader

namespace FragmentShader

open F32

/-- GLSL `clamp(x, minVal, maxVal)`, defined as `min(max(x, minVal), maxVal)`. -/
def glsl_clamp (x minVal maxVal : ℚ) : ℚ := min (max x minVal) maxVal

/-- GLSL `smoothstep(edge0, edge1, x)`:
`t = clamp((x - edge0) / (edge1 - edge0), 0.0, 1.0); return t * t * (3.0 - 2.0 * t);`. -/
def glsl_smoothstep (edge0 edge1 x : ℚ) : ℚ :=
  let t := glsl_clamp (div (sub x edge0) (sub edge1 edge0)) (rnd 0.0) (rnd 1.0)
  mul (mul t t) (sub (rnd 3.0) (mul (rnd 2.0) t))

/-- GLSL `distance(p0, p1)` on `vec2`, that is `length(p0 - p1)`.  The argument `sqrt`
gives the binary32 value of the square root. -/
def glsl_distance (sqrt : ℚ → ℚ) (p0 p1 : Vec2 ℚ) : ℚ :=
  sqrt (add (mul (sub p0.x p1.x) (sub p0.x p1.x)) (mul (sub p0.y p1.y) (sub p0.y p1.y)))

/-- `float circle_alpha = 1.0 - smoothstep(0.45, 0.5, dist);` -/
def circle_alpha (dist : ℚ) : ℚ := sub (rnd 1.0) (glsl_smoothstep (rnd 0.45) (rnd 0.5) dist)

/-- `float final_alpha = v_alpha * circle_alpha;` -/
def final_alpha (v_alpha dist : ℚ) : ℚ := mul v_alpha (circle_alpha dist)

/-- The part of `void main()` after `dist` is known: `none` is `discard`, `some c` is
the value written to `FragColor`. -/
def shade (dist : ℚ) (v_color : Vec3 ℚ) (v_alpha : ℚ) : Option (Vec4 ℚ) :=
  if final_alpha v_alpha dist < rnd 0.01 then
    none
  else
    some ⟨v_color.x, v_color.y, v_color.z, final_alpha v_alpha dist⟩

/-- The fragment shader's `void main()`. -/
def main (sqrt : ℚ → ℚ) (gl_PointCoord : Vec2 ℚ) (v_color : Vec3 ℚ) (v_alpha : ℚ) :
    Option (Vec4 ℚ) :=
  let dist := glsl_distance sqrt gl_PointCoord ⟨rnd 0.5, rnd 0.5⟩
  shade dist v_color v_alpha

end FragmentShader

namespace SeedGenerator

open F32

/-- The expression `static_cast<float>(rand()) / RAND_MAX`: the draw `r` and the
constant `RAND_MAX` are both converted to `float`, then divided. -/
def frand (RAND_MAX r : ℕ) : ℚ := div (rnd (r : ℚ)) (rnd (RAND_MAX : ℚ))

/-- The per-group draws of the outer loop body.  `rand k` is the result of the `k`-th
call of `rand()` (counted from 0) and `n` the number of calls made so far. -/
def groupSeed (RAND_MAX : ℕ) (rand : ℕ → ℕ) (n : ℕ) : FireworkDance.SeedGenerator.GroupSeed ℚ :=
  { originX := sub (mul (frand RAND_MAX (rand n)) (rnd 6.0)) (rnd 3.0)
    originY := sub (mul (frand RAND_MAX (rand (n + 1))) (rnd 4.0)) (rnd 2.0)
    originZ := sub (mul (frand RAND_MAX (rand (n + 2))) (rnd (-3.0))) (rnd 2.0)
    startTime := mul (frand RAND_MAX (rand (n + 3))) (rnd 5.0)
    r_seed := frand RAND_MAX (rand (n + 4))
    g_seed := frand RAND_MAX (rand (n + 5))
    b_seed := frand RAND_MAX (rand (n + 6)) }

end SeedGenerator

end Binary32

/-! ## Facts about the GLSL built-ins -/

section BuiltinFacts

variable {α : Type} [LinearOrderedField α] [FloorRing α]

theorem glsl_mod_eq_self (x y : α) (hy : 0 < y) (h0 : 0 ≤ x) (h1 : x < y) :
    glsl_mod x y = x := by
  have hfl : ⌊x / y⌋ = 0 := by
    rw [Int.floor_eq_iff]
    constructor
    · simpa using div_nonneg h0 hy.le
    · simpa using (div_lt_one hy).2 h1
  simp [glsl_mod, glsl_floor, hfl]

end BuiltinFacts

/-! ## The animator -/

namespace VertexShader

section NoFloor

variable {α : Type} [LinearOrderedField α]

theorem gravity_offset_of_le (x : α) (h : x ≤ 1.5) : gravity_offset x = 0 := by
  have h' : ¬ x > GRAVITY_DELAY := not_lt.2 h
  unfold gravity_offset
  rw [if_neg h']
  norm_num

theorem gravity_offset_of_gt (x : α) (h : 1.5 < x) :
    gravity_offset x = 0.5 * 0.8 * ((x - 1.5) * (x - 1.5)) := by
  have h' : x > GRAVITY_DELAY := h
  unfold gravity_offset
  rw [if_pos h']
  rfl

/-- C3: the gravity offset is exactly 0 for every `localTime ≤ 1.5 = GRAVITY_DELAY`,
equals `0.5 * 0.8 * (localTime - 1.5)^2` for `localTime > 1.5`, and is strictly
increasing in `localTime` on `(1.5, 5.0]`. -/
theorem C3_gravity_offset (x y : α) :
    (GRAVITY_DELAY : α) = 1.5
      ∧ (x ≤ 1.5 → gravity_offset x = 0)
      ∧ (1.5 < x → gravity_offset x = 0.5 * 0.8 * (x - 1.5) ^ 2)
      ∧ (1.5 < x → x < y → y ≤ 5.0 → gravity_offset x < gravity_offset y) := by
  refine ⟨rfl, ?_, ?_, ?_⟩
  · intro h
    rw [gravity_offset_of_le x h]
  · intro h
    rw [gravity_offset_of_gt x h]
    ring
  · intro hx hxy _
    rw [gravity_offset_of_gt x hx, gravity_offset_of_gt y (lt_trans hx hxy)]
    have hx0 : (0 : α) < x - 1.5 := by linarith
    have hxy0 : x - 1.5 < y - 1.5 := by linarith
    have hmul : (x - 1.5) * (x - 1.5) < (y - 1.5) * (y - 1.5) :=
      mul_lt_mul'' hxy0 hxy0 hx0.le hx0.le
    have hc : (0 : α) < 0.5 * 0.8 := by norm_num
    exact mul_lt_mul_of_pos_left hmul hc

/-- C3 at local times 1, 2 and 3: the offset is 0 at 1, 0.1 at 2 and 0.9 at 3. -/
theorem C3_gravity_offset_witness :
    gravity_offset (1 : ℚ) = 0 ∧ gravity_offset (2 : ℚ) = 0.1 ∧ gravity_offset (3 : ℚ) = 0.9
      ∧ gravity_offset (2 : ℚ) < gravity_offset (3 : ℚ) :=
  ⟨(C3_gravity_offset (1 : ℚ) 1).2.1 (by norm_num),
    by rw [(C3_gravity_offset (2 : ℚ) 3).2.2.1 (by norm_num)]; norm_num,
    by rw [(C3_gravity_offset (3 : ℚ) 3).2.2.1 (by norm_num)]; norm_num,
    (C3_gravity_offset (2 : ℚ) 3).2.2.2 (by norm_num) (by norm_num) (by norm_num)⟩

end NoFloor

variable {α : Type} [LinearOrderedField α] [FloorRing α]

theorem localTime_first_loop (t s : α) (h0 : s ≤ t) (h1 : t - s < 7.0) :
    localTime t s = t - s := by
  unfold localTime time_since_start
  apply glsl_mod_eq_self
  · norm_num [TOTAL_LIFETIME]
  · linarith
  · simpa [TOTAL_LIFETIME] using h1

theorem main_isHidden_iff (sin : α → α) (m : mat4 α) (a : Attribs α) (t : α) :
    (main sin m a t).isHidden ↔ localTime t a.a_startTime > MAX_LIFETIME := by
  unfold main
  by_cases h : localTime t a.a_startTime > MAX_LIFETIME
  · simp [h, Outputs.isHidden]
  · simp [h, Outputs.isHidden]

/-- C2: for every seed and every global time the shader takes the early return (it
writes `gl_Position = (0,0,0,-1)` and no colour, alpha or point size) if and only if
`localTime > 5.0 = MAX_LIFETIME`; with start time 0 the particle is still visible at
global time 5.0 and hidden at every global time in `(5.0, 7.0)`, for instance 5.01. -/
theorem C2_hidden_iff (sin : α → α) (m : mat4 α) (a : Attribs α) (t : α) :
    ((main sin m a t).isHidden ↔ localTime t a.a_startTime > 5.0)
      ∧ (hiddenPosition : Vec4 α) = ⟨0, 0, 0, -1⟩
      ∧ (MAX_LIFETIME : α) = 5.0
      ∧ ¬ (main sin m { a with a_startTime := 0 } 5.0).isHidden
      ∧ (5.0 < t → t < 7.0 → (main sin m { a with a_startTime := 0 } t).isHidden)
      ∧ (main sin m { a with a_startTime := 0 } 5.01).isHidden := by
  have hfirst : ∀ u : α, 0 ≤ u → u < 7.0 → localTime u 0 = u := by
    intro u h0 h1
    have := localTime_first_loop u 0 h0 (by simpa using h1)
    simpa using this
  refine ⟨?_, ?_, rfl, ?_, ?_, ?_⟩
  · simpa [MAX_LIFETIME] using main_isHidden_iff sin m a t
  · simp only [hiddenPosition]
    norm_num
  · rw [main_isHidden_iff]
    simp only [hfirst 5.0 (by norm_num) (by norm_num), MAX_LIFETIME]
    norm_num
  · intro h5 h7
    rw [main_isHidden_iff]
    simp only [hfirst t (by linarith [show (0:α) < 5.0 by norm_num]) h7, MAX_LIFETIME]
    exact h5
  · rw [main_isHidden_iff]
    simp only [hfirst 5.01 (by norm_num) (by norm_num), MAX_LIFETIME]
    norm_num

/-- C2 on a concrete seed (identity matrix, start time 0): hidden at global time 6,
visible at global time 5. -/
theorem C2_hidden_iff_witness :
    (5.0 : ℚ) < 6 ∧ (6 : ℚ) < 7.0
      ∧ (main (fun x => x) create_identity
          ({ a_origin := ⟨1, 2, 3⟩, a_direction := ⟨0, 1, 0⟩, a_color := ⟨0, 0, 0⟩,
             a_startTime := 0 } : Attribs ℚ) 6).isHidden :=
  ⟨by norm_num, by norm_num,
    (C2_hidden_iff (fun x => x) create_identity
      ({ a_origin := ⟨1, 2, 3⟩, a_direction := ⟨0, 1, 0⟩, a_color := ⟨0, 0, 0⟩,
         a_startTime := 0 } : Attribs ℚ) 6).2.2.2.2.1 (by norm_num) (by norm_num)⟩

end VertexShader

/-! ## The matrix utilities -/

section MatrixFacts

variable {α : Type} [LinearOrderedField α]

theorem fin4_val_three : ((3 : Fin 4) : ℕ) = 3 := rfl

/-- C7: for all 4x4 matrices `a` and `b` stored column-major (the element in row `r` and
column `c` at index `4*c + r`), `multiply` yields the matrix product `a × b`:
`out[4*c + r] = Σ k in 0..3, a[4*k + r] * b[4*c + k]` for every `r`, `c` in `0..3`. -/
theorem C7_multiply_is_product (a b : mat4 α) (r c : Fin 4) :
    multiply a b (mat4.idx r c) = ∑ k : Fin 4, a (mat4.idx r k) * b (mat4.idx k c) := by
  rw [Fin.sum_univ_four]
  fin_cases r <;> fin_cases c <;>
    simp [multiply, mat4.idx, mat4.ofElems, fin4_val_three] <;> ring

end MatrixFacts

theorem sqrt_twentyfive : Real.sqrt 25 = 5 := by
  rw [show (25 : ℝ) = 5 ^ 2 by norm_num]
  exact Real.sqrt_sq (by norm_num)

/-- C8, the code at `eye = (5,0,0)`, `center = (0,0,0)`, `up = (0,1,0)` (eye and center
differ, up is not parallel to `eye - center`): the matrix built by `lookAt`, applied to
`(eye, 1)`, gives `(0, 0, -10, 1)` and not the view-space origin `(0, 0, 0, 1)`. -/
theorem C8_lookAt_misplaces_eye :
    mat4.mulVec (lookAt Real.sqrt ⟨5, 0, 0⟩ ⟨0, 0, 0⟩ ⟨0, 1, 0⟩) ⟨5, 0, 0, 1⟩
        = (⟨0, 0, -10, 1⟩ : Vec4 ℝ)
      ∧ mat4.mulVec (lookAt Real.sqrt ⟨5, 0, 0⟩ ⟨0, 0, 0⟩ ⟨0, 1, 0⟩) ⟨5, 0, 0, 1⟩
        ≠ (⟨0, 0, 0, 1⟩ : Vec4 ℝ) := by
  have h : mat4.mulVec (lookAt Real.sqrt ⟨5, 0, 0⟩ ⟨0, 0, 0⟩ ⟨0, 1, 0⟩) ⟨5, 0, 0, 1⟩
      = (⟨0, 0, -10, 1⟩ : Vec4 ℝ) := by
    norm_num [lookAt, mat4.mulVec, mat4.ofElems, sqrt_twentyfive]
  refine ⟨h, ?_⟩
  rw [h]
  intro hne
  have := congrArg Vec4.z hne
  norm_num at this

/-! ## The seed generator -/

namespace SeedGenerator

/-- Unit length of the stored direction whenever `len` is not zero and is a square root
of the sum of squares of the drawn components. -/
theorem storedDirection_unit {α : Type} [LinearOrderedField α] (sqrt : α → α)
    (RAND_MAX : ℕ) (rand : ℕ → ℕ) (n : ℕ)
    (hne : dirLen sqrt (rawDirection RAND_MAX rand n : Vec3 α) ≠ 0)
    (hsqrt : dirLen sqrt (rawDirection RAND_MAX rand n : Vec3 α)
        * dirLen sqrt (rawDirection RAND_MAX rand n)
      = Vec3.dot (rawDirection RAND_MAX rand n) (rawDirection RAND_MAX rand n)) :
    Vec3.dot (storedDirection sqrt RAND_MAX rand n : Vec3 α)
      (storedDirection sqrt RAND_MAX rand n) = 1 := by
  simp only [storedDirection, Vec3.dot] at hsqrt ⊢
  field_simp
  linarith

/-- C10, the code on the degenerate draw.  With glibc, `RAND_MAX = 2147483647` becomes
`2147483648.0f` in the division and `rand() = 1073741824` becomes `1073741824.0f`; three
such draws in a row give `x_dir = y_dir = z_dir = 0`, hence `len = 0`: the three
quotients stored in slots 3..5 have a zero denominator (`0 / 0`, NaN in `float`) and
the stored vector does not have unit length.  The code has no special case for it. -/
theorem C10_zero_direction_unguarded :
    (rawDirection (2147483648 : ℕ) (fun _ => 1073741824) 0 : Vec3 ℝ) = ⟨0, 0, 0⟩
      ∧ dirLen Real.sqrt (rawDirection (2147483648 : ℕ) (fun _ => 1073741824) 0 : Vec3 ℝ) = 0
      ∧ Vec3.dot
          (storedDirection Real.sqrt (2147483648 : ℕ) (fun _ => 1073741824) 0 : Vec3 ℝ)
          (storedDirection Real.sqrt (2147483648 : ℕ) (fun _ => 1073741824) 0) ≠ 1 := by
  have h : (rawDirection (2147483648 : ℕ) (fun _ => 1073741824) 0 : Vec3 ℝ) = ⟨0, 0, 0⟩ := by
    norm_num [rawDirection, frand]
  refine ⟨h, ?_, ?_⟩
  · rw [h]
    simp [dirLen]
  · simp only [storedDirection]
    rw [h]
    simp [dirLen, Vec3.dot]

end SeedGenerator

/-! ## The camera and the projection -/

section CameraFacts

theorem lookAt_camera_eq :
    lookAt Real.sqrt ⟨0.0, 0.0, 5.0⟩ ⟨0.0, 0.0, 0.0⟩ ⟨0.0, 1.0, 0.0⟩
      = mat4.ofElems (1 : ℝ) 0 0 0 0 1 0 0 0 0 1 0 0 0 (-5) 1 := by
  unfold lookAt
  norm_num [sqrt_twentyfive]

theorem lookAt_camera (i : Fin 16) :
    lookAt Real.sqrt ⟨0.0, 0.0, 5.0⟩ ⟨0.0, 0.0, 0.0⟩ ⟨0.0, 1.0, 0.0⟩ i
      = if i = 14 then (-5 : ℝ) else create_identity i := by
  rw [lookAt_camera_eq]
  fin_cases i <;> simp [create_identity, mat4.ofElems]

/-- C17: for the camera configured in `setupMatrices` (eye `(0,0,5)`, center `(0,0,0)`,
up `(0,1,0)`) `lookAt` yields the identity matrix except for `out[14] = -5`, and for
every width and height (in particular positive ones) the combined matrix
`multiply(perspective, view)` maps every world point `(x,y,z,1)` to a clip position
whose `w` is `5 - z`, which is the `camera_dist = CAMERA_Z - position.z` of the
animator. -/
theorem C17_camera_distance (tan : ℝ → ℝ) (pi : ℝ) (width height : ℤ) (x y z : ℝ) :
    (∀ i : Fin 16,
        lookAt Real.sqrt ⟨0.0, 0.0, 5.0⟩ ⟨0.0, 0.0, 0.0⟩ ⟨0.0, 1.0, 0.0⟩ i
          = if i = 14 then (-5 : ℝ) else create_identity i)
      ∧ setupMatrices tan Real.sqrt pi width height
          = multiply (perspective tan (45.0 * (pi / 180.0)) ((width : ℝ) / (height : ℝ)) 0.1 100.0)
              (lookAt Real.sqrt ⟨0.0, 0.0, 5.0⟩ ⟨0.0, 0.0, 0.0⟩ ⟨0.0, 1.0, 0.0⟩)
      ∧ (mat4.mulVec (setupMatrices tan Real.sqrt pi width height) ⟨x, y, z, 1⟩).w = 5 - z
      ∧ (mat4.mulVec (setupMatrices tan Real.sqrt pi width height) ⟨x, y, z, 1⟩).w
          = VertexShader.camera_dist (⟨x, y, z⟩ : Vec3 ℝ) := by
  have hw : (mat4.mulVec (setupMatrices tan Real.sqrt pi width height) ⟨x, y, z, 1⟩).w
      = 5 - z := by
    simp only [setupMatrices]
    rw [lookAt_camera_eq]
    norm_num [mat4.mulVec, multiply, perspective, mat4.ofElems]
    ring
  refine ⟨lookAt_camera, rfl, hw, ?_⟩
  rw [hw]
  norm_num [VertexShader.camera_dist, VertexShader.CAMERA_Z]

end CameraFacts

section PerspectiveFacts

variable {α : Type} [LinearOrderedField α]

end PerspectiveFacts

/-! ## Start-up failures -/

namespace App

/-- A failure of one of the three checked steps (GLFW initialisation, window creation,
GLAD loading) ends `main` with exit code -1 before the render loop. -/
theorem main_checked_failure (env : Environment)
    (h : env.glfwInitOk = false ∨ env.windowCreated = false ∨ env.gladLoaded = false) :
    (main env).exitCode = -1 ∧ (main env).renderLoopEntered = false := by
  unfold main
  rcases h with h | h | h
  · simp [h]
  · cases h1 : env.glfwInitOk <;> simp [h]
  · cases h1 : env.glfwInitOk <;> cases h2 : env.windowCreated <;> simp [h]

/-- Whenever a shader fails to compile or the program fails to link, `createProgram`
returns 0. -/
theorem createProgram_failure (env : Environment)
    (h : env.vertexCompiled = false ∨ env.fragmentCompiled = false ∨ env.linked = false) :
    (createProgram env).1 = 0 := by
  unfold createProgram compileShader
  rcases h with h | h | h
  · simp [h]
  · simp [h]
  · simp only [h]
    split_ifs <;> simp_all

/-- Once the three checked steps succeed, `main` enters the render loop and returns 0,
whatever `createProgram` returned. -/
theorem main_ignores_createProgram (env : Environment)
    (h1 : env.glfwInitOk = true) (h2 : env.windowCreated = true) (h3 : env.gladLoaded = true) :
    (main env).exitCode = 0 ∧ (main env).renderLoopEntered = true
      ∧ (main env).usedProgram = some (createProgram env).1 := by
  unfold main
  simp [h1, h2, h3]

/-- C13, the code when the vertex shader does not compile (every other step succeeds),
and when only the link fails: `createProgram` returns 0 and logs the failure, and `main`
passes that 0 to `glUseProgram`, enters the render loop and returns 0, not -1. -/
theorem C13_shader_failure_not_fatal :
    (createProgram
        { glfwInitOk := true, windowCreated := true, gladLoaded := true,
          vertexCompiled := false, fragmentCompiled := true, linked := true,
          vertexName := 1, fragmentName := 2, programName := 3, frames := 1 }).1 = 0
      ∧ main
        { glfwInitOk := true, windowCreated := true, gladLoaded := true,
          vertexCompiled := false, fragmentCompiled := true, linked := true,
          vertexName := 1, fragmentName := 2, programName := 3, frames := 1 }
        = { exitCode := 0, stderr := [Message.shaderCompilationFailed],
            usedProgram := some 0, renderLoopEntered := true, framesDrawn := 1 }
      ∧ main
        { glfwInitOk := true, windowCreated := true, gladLoaded := true,
          vertexCompiled := true, fragmentCompiled := true, linked := false,
          vertexName := 1, fragmentName := 2, programName := 3, frames := 1 }
        = { exitCode := 0, stderr := [Message.programLinkingFailed],
            usedProgram := some 0, renderLoopEntered := true, framesDrawn := 1 } := by
  refine ⟨?_, ?_, ?_⟩
  · decide
  · decide
  · decide

end App

/-! ## The generation loops -/

namespace SeedGenerator

section LoopFacts

variable {α : Type} [LinearOrderedField α]

theorem particleStep_calls (sqrt : α → α) (RAND_MAX : ℕ) (rand : ℕ → ℕ) (g : GroupSeed α)
    (i j : ℕ) (st : GenState α) :
    (particleStep sqrt RAND_MAX rand g i st j).calls = st.calls + 3 := rfl

theorem particleStep_length (sqrt : α → α) (RAND_MAX : ℕ) (rand : ℕ → ℕ) (g : GroupSeed α)
    (i j : ℕ) (st : GenState α) :
    (particleStep sqrt RAND_MAX rand g i st j).particleData.length
      = st.particleData.length := by
  simp [particleStep]

theorem particleStep_getElem (sqrt : α → α) (RAND_MAX : ℕ) (rand : ℕ → ℕ) (g : GroupSeed α)
    (i j : ℕ) (st : GenState α) (p : ℕ)
    (hlen : (i * 500 + j) * 10 + 10 ≤ st.particleData.length) :
    (particleStep sqrt RAND_MAX rand g i st j).particleData[p]?
      = if (i * 500 + j) * 10 ≤ p ∧ p < (i * 500 + j) * 10 + 10 then
          some (recordSlot g (storedDirection sqrt RAND_MAX rand st.calls)
            (p - (i * 500 + j) * 10))
        else st.particleData[p]? := by
  simp only [particleStep, PARTICLES_PER_EXPLOSION, ATTRIB_SIZE]
  generalize (i * 500 + j) * 10 = off at hlen ⊢
  by_cases hp : off ≤ p ∧ p < off + 10
  · rw [if_pos hp]
    obtain ⟨s, hs, rfl⟩ : ∃ s, s < 10 ∧ p = off + s := ⟨p - off, by omega, by omega⟩
    have hsub : off + s - off = s := by omega
    rw [hsub]
    simp only [List.getElem?_set, List.length_set]
    interval_cases s <;> simp [recordSlot] <;> omega
  · rw [if_neg hp]
    simp only [List.getElem?_set, List.length_set]
    have h0 : ¬ off + 0 = p := by omega
    have h1 : ¬ off + 1 = p := by omega
    have h2 : ¬ off + 2 = p := by omega
    have h3 : ¬ off + 3 = p := by omega
    have h4 : ¬ off + 4 = p := by omega
    have h5 : ¬ off + 5 = p := by omega
    have h6 : ¬ off + 6 = p := by omega
    have h7 : ¬ off + 7 = p := by omega
    have h8 : ¬ off + 8 = p := by omega
    have h9 : ¬ off + 9 = p := by omega
    simp only [h0, h1, h2, h3, h4, h5, h6, h7, h8, h9, if_false]

theorem particleLoop_spec (sqrt : α → α) (RAND_MAX : ℕ) (rand : ℕ → ℕ) (g : GroupSeed α)
    (i n : ℕ) (st : GenState α) (hlen : (i * 500 + n) * 10 ≤ st.particleData.length) :
    ((List.range n).foldl (particleStep sqrt RAND_MAX rand g i) st).calls = st.calls + 3 * n
      ∧ ((List.range n).foldl (particleStep sqrt RAND_MAX rand g i) st).particleData.length
          = st.particleData.length
      ∧ ∀ p, ((List.range n).foldl (particleStep sqrt RAND_MAX rand g i) st).particleData[p]?
          = if i * 5000 ≤ p ∧ p < (i * 500 + n) * 10 then
              some (recordSlot g
                (storedDirection sqrt RAND_MAX rand (st.calls + 3 * (p / 10 - i * 500)))
                (p % 10))
            else st.particleData[p]? := by
  induction n with
  | zero =>
    refine ⟨rfl, rfl, ?_⟩
    intro p
    have : ¬ (i * 5000 ≤ p ∧ p < (i * 500 + 0) * 10) := by omega
    rw [if_neg this]
    rfl
  | succ n ih =>
    obtain ⟨hc, hl, hg⟩ := ih (by omega)
    rw [List.range_succ, List.foldl_append]
    simp only [List.foldl_cons, List.foldl_nil]
    refine ⟨?_, ?_, ?_⟩
    · rw [particleStep_calls, hc]
      ring
    · rw [particleStep_length, hl]
    · intro p
      rw [particleStep_getElem _ _ _ _ _ _ _ _ (by rw [hl]; omega), hg p, hc]
      by_cases h1 : (i * 500 + n) * 10 ≤ p ∧ p < (i * 500 + n) * 10 + 10
      · have h2 : i * 5000 ≤ p ∧ p < (i * 500 + (n + 1)) * 10 := by omega
        rw [if_pos h1, if_pos h2]
        have e1 : p / 10 - i * 500 = n := by omega
        have e2 : p - (i * 500 + n) * 10 = p % 10 := by omega
        rw [e1, e2]
      · rw [if_neg h1]
        by_cases h3 : i * 5000 ≤ p ∧ p < (i * 500 + n) * 10
        · have h2 : i * 5000 ≤ p ∧ p < (i * 500 + (n + 1)) * 10 := by omega
          rw [if_pos h3, if_pos h2]
        · have h2 : ¬ (i * 5000 ≤ p ∧ p < (i * 500 + (n + 1)) * 10) := by omega
          rw [if_neg h3, if_neg h2]

theorem groupStep_spec (sqrt : α → α) (RAND_MAX : ℕ) (rand : ℕ → ℕ) (i : ℕ)
    (st : GenState α) (hlen : (i + 1) * 5000 ≤ st.particleData.length) :
    (groupStep sqrt RAND_MAX rand st i).calls = st.calls + 1507
      ∧ (groupStep sqrt RAND_MAX rand st i).particleData.length = st.particleData.length
      ∧ ∀ p, (groupStep sqrt RAND_MAX rand st i).particleData[p]?
          = if i * 5000 ≤ p ∧ p < (i + 1) * 5000 then
              some (recordSlot (groupSeed RAND_MAX rand st.calls)
                (storedDirection sqrt RAND_MAX rand (st.calls + 7 + 3 * (p / 10 - i * 500)))
                (p % 10))
            else st.particleData[p]? := by
  have h := particleLoop_spec sqrt RAND_MAX rand (groupSeed RAND_MAX rand st.calls) i 500
    { calls := st.calls + 7, particleData := st.particleData } (by simp only; omega)
  obtain ⟨hc, hl, hg⟩ := h
  simp only [groupStep, PARTICLES_PER_EXPLOSION]
  refine ⟨by rw [hc], hl, ?_⟩
  intro p
  rw [hg p]
  have e : (i * 500 + 500) * 10 = (i + 1) * 5000 := by ring
  rw [e]

theorem generate_spec (sqrt : α → α) (RAND_MAX : ℕ) (rand : ℕ → ℕ) (m : ℕ) (hm : m ≤ 10) :
    ((List.range m).foldl (groupStep sqrt RAND_MAX rand)
        { calls := 0, particleData := List.replicate 50000 (0 : α) }).calls = 1507 * m
      ∧ ((List.range m).foldl (groupStep sqrt RAND_MAX rand)
        { calls := 0, particleData := List.replicate 50000 (0 : α) }).particleData.length
          = 50000
      ∧ ∀ p, ((List.range m).foldl (groupStep sqrt RAND_MAX rand)
        { calls := 0, particleData := List.replicate 50000 (0 : α) }).particleData[p]?
          = if p < m * 5000 then
              some (recordSlot (groupSeed RAND_MAX rand (1507 * (p / 5000)))
                (storedDirection sqrt RAND_MAX rand
                  (1507 * (p / 5000) + 7 + 3 * (p / 10 - p / 5000 * 500)))
                (p % 10))
            else (List.replicate 50000 (0 : α))[p]? := by
  induction m with
  | zero =>
    simp only [List.range_zero, List.foldl_nil, List.length_replicate]
    refine ⟨trivial, trivial, ?_⟩
    intro p
    have h : ¬ p < 0 * 5000 := by omega
    rw [if_neg h]
  | succ m ih =>
    obtain ⟨hc, hl, hg⟩ := ih (by omega)
    rw [List.range_succ, List.foldl_append]
    simp only [List.foldl_cons, List.foldl_nil]
    obtain ⟨hc2, hl2, hg2⟩ := groupStep_spec sqrt RAND_MAX rand m
      ((List.range m).foldl (groupStep sqrt RAND_MAX rand)
        { calls := 0, particleData := List.replicate 50000 (0 : α) }) (by rw [hl]; omega)
    refine ⟨by rw [hc2, hc]; ring, by rw [hl2, hl], ?_⟩
    intro p
    rw [hg2 p, hg p, hc]
    by_cases h1 : m * 5000 ≤ p ∧ p < (m + 1) * 5000
    · have h2 : p < (m + 1) * 5000 := h1.2
      have e : p / 5000 = m := by omega
      rw [if_pos h1, if_pos h2, e]
    · rw [if_neg h1]
      by_cases h3 : p < m * 5000
      · have h2 : p < (m + 1) * 5000 := by omega
        rw [if_pos h3, if_pos h2]
      · have h2 : ¬ p < (m + 1) * 5000 := by omega
        rw [if_neg h3, if_neg h2]

theorem generateParticleData_eq (sqrt : α → α) (RAND_MAX : ℕ) (rand : ℕ → ℕ) :
    generateParticleData sqrt RAND_MAX rand
      = ((List.range 10).foldl (groupStep sqrt RAND_MAX rand)
          { calls := 0, particleData := List.replicate 50000 (0 : α) }).particleData := rfl

theorem generateParticleData_getElem (sqrt : α → α) (RAND_MAX : ℕ) (rand : ℕ → ℕ)
    (i j s : ℕ) (hi : i < 10) (hj : j < 500) (hs : s < 10) :
    (generateParticleData sqrt RAND_MAX rand)[10 * (i * 500 + j) + s]?
      = some (recordSlot (groupSeed RAND_MAX rand (1507 * i))
          (storedDirection sqrt RAND_MAX rand (1507 * i + 7 + 3 * j)) s) := by
  rw [generateParticleData_eq, (generate_spec sqrt RAND_MAX rand 10 le_rfl).2.2]
  have h : 10 * (i * 500 + j) + s < 10 * 5000 := by omega
  have e1 : (10 * (i * 500 + j) + s) / 5000 = i := by omega
  have e2 : (10 * (i * 500 + j) + s) / 10 - i * 500 = j := by omega
  have e3 : (10 * (i * 500 + j) + s) % 10 = s := by omega
  rw [if_pos h, e1, e2, e3]

/-- C11: for every sequence of `rand()` results the seed generator fills exactly
`NUM_EXPLOSIONS * PARTICLES_PER_EXPLOSION = 5000` records of 10 floats: the buffer has
50000 elements, every index below 50000 is slot `s` of exactly one record `i*500 + j`
(at offset `10*(i*500 + j)`), that element holds the value record `(i, j)` writes to
slot `s`, and any two records `j`, `k` of one group `i` hold the same origin (slots
0..2), colour (slots 6..8) and start time (slot 9). -/
theorem C11_particle_records (sqrt : α → α) (RAND_MAX : ℕ) (rand : ℕ → ℕ) :
    NUM_EXPLOSIONS * PARTICLES_PER_EXPLOSION = 5000
      ∧ ATTRIB_SIZE = 10
      ∧ (generateParticleData sqrt RAND_MAX rand).length = 50000
      ∧ (∀ p < 50000, ∃ i j s, i < 10 ∧ j < 500 ∧ s < 10 ∧ p = 10 * (i * 500 + j) + s
          ∧ ∀ i2 j2 s2, i2 < 10 → j2 < 500 → s2 < 10 → p = 10 * (i2 * 500 + j2) + s2 →
              i2 = i ∧ j2 = j ∧ s2 = s)
      ∧ (∀ i < 10, ∀ j < 500, ∀ s < 10,
          (generateParticleData sqrt RAND_MAX rand)[10 * (i * 500 + j) + s]?
            = some (recordSlot (groupSeed RAND_MAX rand (1507 * i))
                (storedDirection sqrt RAND_MAX rand (1507 * i + 7 + 3 * j)) s))
      ∧ (∀ i < 10, ∀ j < 500, ∀ k < 500, ∀ s < 10, s ≠ 3 → s ≠ 4 → s ≠ 5 →
          (generateParticleData sqrt RAND_MAX rand)[10 * (i * 500 + j) + s]?
            = (generateParticleData sqrt RAND_MAX rand)[10 * (i * 500 + k) + s]?) := by
  refine ⟨rfl, rfl, ?_, ?_, ?_, ?_⟩
  · rw [generateParticleData_eq]
    exact (generate_spec sqrt RAND_MAX rand 10 le_rfl).2.1
  · intro p hp
    refine ⟨p / 5000, p / 10 % 500, p % 10, by omega, by omega, by omega, by omega, ?_⟩
    intro i2 j2 s2 h1 h2 h3 h4
    omega
  · intro i hi j hj s hs
    exact generateParticleData_getElem sqrt RAND_MAX rand i j s hi hj hs
  · intro i hi j hj k hk s hs h3 h4 h5
    rw [generateParticleData_getElem sqrt RAND_MAX rand i j s hi hj hs,
      generateParticleData_getElem sqrt RAND_MAX rand i k s hi hk hs]
    interval_cases s <;> first | rfl | omega

/-- C11 on a concrete run (`RAND_MAX = 32767`, the `n`-th call of `rand()` returning
`n % 32768`): slot 9 of record 2 of group 1 holds the start time of group 1, and it
equals slot 9 of record 7 of group 1. -/
theorem C11_particle_records_witness :
    (generateParticleData (fun x : ℚ => x) 32767 (fun n => n % 32768))[10 * (1 * 500 + 2) + 9]?
        = some (groupSeed (32767 : ℕ) (fun n => n % 32768) 1507 : GroupSeed ℚ).startTime
      ∧ (generateParticleData (fun x : ℚ => x) 32767 (fun n => n % 32768))[10 * (1 * 500 + 2) + 9]?
        = (generateParticleData (fun x : ℚ => x) 32767
            (fun n => n % 32768))[10 * (1 * 500 + 7) + 9]? :=
  ⟨(C11_particle_records (fun x : ℚ => x) 32767 (fun n => n % 32768)).2.2.2.2.1
      1 (by norm_num) 2 (by norm_num) 9 (by norm_num),
    (C11_particle_records (fun x : ℚ => x) 32767 (fun n => n % 32768)).2.2.2.2.2
      1 (by norm_num) 2 (by norm_num) 7 (by norm_num) 9 (by norm_num)
      (by norm_num) (by norm_num) (by norm_num)⟩

end LoopFacts

end SeedGenerator

/-! ## Facts about binary32 rounding -/

namespace F32

theorem floor_le_rne (y : ℚ) : ⌊y⌋ ≤ rne y := by
  unfold rne
  split_ifs <;> omega

theorem rne_le_floor_add_one (y : ℚ) : rne y ≤ ⌊y⌋ + 1 := by
  unfold rne
  split_ifs <;> omega

theorem rne_intCast (n : ℤ) : rne (n : ℚ) = n := by
  unfold rne
  simp

theorem abs_rne_sub_le (y : ℚ) : |(rne y : ℚ) - y| ≤ 1 / 2 := by
  have h1 := Int.floor_le y
  have h2 := Int.lt_floor_add_one y
  unfold rne
  rw [abs_le]
  split_ifs with h3 h4 h5
  · constructor <;> linarith
  · push_cast
    constructor <;> linarith
  · have : y - ⌊y⌋ = 1 / 2 := le_antisymm (not_lt.1 h4) (not_lt.1 h3)
    constructor <;> linarith
  · have : y - ⌊y⌋ = 1 / 2 := le_antisymm (not_lt.1 h4) (not_lt.1 h3)
    push_cast
    constructor <;> linarith

theorem rne_mono {y z : ℚ} (h : y ≤ z) : rne y ≤ rne z := by
  have hf : ⌊y⌋ ≤ ⌊z⌋ := Int.floor_le_floor h
  rcases lt_or_eq_of_le hf with hlt | heq
  · calc rne y ≤ ⌊y⌋ + 1 := rne_le_floor_add_one y
      _ ≤ ⌊z⌋ := hlt
      _ ≤ rne z := floor_le_rne z
  · have hfr : y - ⌊y⌋ ≤ z - ⌊z⌋ := by
      rw [heq]
      linarith
    unfold rne
    rw [heq] at hfr ⊢
    split_ifs <;> first | omega | (exfalso; linarith)

theorem rne_nonneg {y : ℚ} (h : 0 ≤ y) : 0 ≤ rne y :=
  le_trans (Int.floor_nonneg.2 h) (floor_le_rne y)

theorem quantum_pos (a : ℚ) : 0 < quantum a := by
  unfold quantum
  positivity

theorem expo_ge (a : ℚ) : -126 ≤ expo a := le_max_right _ _

theorem lt_zpow_expo_succ (a : ℚ) : a < (2 : ℚ) ^ (expo a + 1) := by
  have h1 : a < ((2 : ℕ) : ℚ) ^ (Int.log 2 a + 1) := Int.lt_zpow_succ_log_self (by norm_num) a
  have h2 : ((2 : ℕ) : ℚ) ^ (Int.log 2 a + 1) ≤ (2 : ℚ) ^ (expo a + 1) := by
    push_cast
    apply zpow_le_zpow_right₀ (by norm_num)
    unfold expo
    have := le_max_left (Int.log 2 a) (-126)
    omega
  linarith

theorem expo_le_of_lt {a : ℚ} {E : ℤ} (ha : 0 < a) (hE : -126 ≤ E)
    (h : a < (2 : ℚ) ^ (E + 1)) : expo a ≤ E := by
  unfold expo
  apply max_le _ hE
  have : Int.log 2 a < E + 1 := by
    rw [← Int.lt_zpow_iff_log_lt (by norm_num) ha]
    exact_mod_cast h
  omega

theorem zpow_expo_le {a : ℚ} (ha : 0 < a) (h : -126 < expo a) : (2 : ℚ) ^ expo a ≤ a := by
  have he : expo a = Int.log 2 a := by
    unfold expo at h ⊢
    rcases le_total (Int.log 2 a) (-126) with h1 | h1
    · rw [max_eq_right h1] at h
      omega
    · exact max_eq_left h1
  rw [he]
  have := Int.zpow_log_le_self (b := 2) (r := a) (by norm_num) ha
  exact_mod_cast this

theorem expo_mono {a b : ℚ} (ha : 0 < a) (h : a ≤ b) : expo a ≤ expo b := by
  unfold expo
  exact max_le_max (Int.log_mono_right ha h) le_rfl

theorem expo_eq_of_bounds {a : ℚ} {E : ℤ} (hE : -126 ≤ E) (hlo : (2 : ℚ) ^ E ≤ a)
    (hhi : a < (2 : ℚ) ^ (E + 1)) : expo a = E := by
  have ha : 0 < a := lt_of_lt_of_le (by positivity) hlo
  apply le_antisymm (expo_le_of_lt ha hE hhi)
  have : E ≤ Int.log 2 a := by
    rw [← Int.zpow_le_iff_le_log (by norm_num) ha]
    exact_mod_cast hlo
  exact le_trans this (le_max_left _ _)

theorem expo_eq_of_small {a : ℚ} (ha : 0 < a) (hhi : a < (2 : ℚ) ^ (-125 : ℤ)) :
    expo a = -126 :=
  le_antisymm (expo_le_of_lt ha le_rfl (by simpa using hhi)) (expo_ge a)

theorem quantum_mul_top (a : ℚ) : 16777216 * quantum a = (2 : ℚ) ^ (expo a + 1) := by
  unfold quantum
  rw [show (16777216 : ℚ) = (2 : ℚ) ^ (24 : ℤ) by norm_num, ← zpow_add₀ (by norm_num)]
  congr 1
  ring

theorem quantum_mul_bot (a : ℚ) : 8388608 * quantum a = (2 : ℚ) ^ expo a := by
  unfold quantum
  rw [show (8388608 : ℚ) = (2 : ℚ) ^ (23 : ℤ) by norm_num, ← zpow_add₀ (by norm_num)]
  congr 1
  ring

theorem roundAbs_nonneg {a : ℚ} (ha : 0 ≤ a) : 0 ≤ roundAbs a := by
  unfold roundAbs
  have hq := quantum_pos a
  have : (0 : ℚ) ≤ (rne (a / quantum a) : ℚ) := by
    exact_mod_cast rne_nonneg (div_nonneg ha hq.le)
  positivity

theorem roundAbs_zero : roundAbs 0 = 0 := by
  unfold roundAbs
  simp [rne]

theorem roundAbs_le_zpow {a : ℚ} : roundAbs a ≤ (2 : ℚ) ^ (expo a + 1) := by
  unfold roundAbs
  have hq := quantum_pos a
  have h1 : a / quantum a ≤ ((16777216 : ℤ) : ℚ) := by
    rw [div_le_iff₀ hq]
    push_cast
    rw [quantum_mul_top]
    exact (lt_zpow_expo_succ a).le
  have h2 : rne (a / quantum a) ≤ 16777216 := by
    have := rne_mono h1
    rwa [rne_intCast] at this
  have h3 : (rne (a / quantum a) : ℚ) ≤ 16777216 := by exact_mod_cast h2
  calc (rne (a / quantum a) : ℚ) * quantum a ≤ 16777216 * quantum a :=
        mul_le_mul_of_nonneg_right h3 hq.le
    _ = (2 : ℚ) ^ (expo a + 1) := quantum_mul_top a

theorem zpow_le_roundAbs {a : ℚ} (ha : 0 < a) (h : -126 < expo a) :
    (2 : ℚ) ^ expo a ≤ roundAbs a := by
  unfold roundAbs
  have hq := quantum_pos a
  have h1 : ((8388608 : ℤ) : ℚ) ≤ a / quantum a := by
    rw [le_div_iff₀ hq]
    push_cast
    rw [quantum_mul_bot]
    exact zpow_expo_le ha h
  have h2 : 8388608 ≤ rne (a / quantum a) := by
    have := rne_mono h1
    rwa [rne_intCast] at this
  have h3 : (8388608 : ℚ) ≤ (rne (a / quantum a) : ℚ) := by exact_mod_cast h2
  calc (2 : ℚ) ^ expo a = 8388608 * quantum a := (quantum_mul_bot a).symm
    _ ≤ (rne (a / quantum a) : ℚ) * quantum a := mul_le_mul_of_nonneg_right h3 hq.le

theorem roundAbs_mono {a b : ℚ} (ha : 0 ≤ a) (h : a ≤ b) : roundAbs a ≤ roundAbs b := by
  rcases eq_or_lt_of_le ha with h0 | hpos
  · rw [← h0, roundAbs_zero]
    exact roundAbs_nonneg (le_trans ha h)
  · have hexp := expo_mono hpos h
    rcases eq_or_lt_of_le hexp with he | hlt
    · unfold roundAbs quantum
      rw [he]
      have hq : (0 : ℚ) < (2 : ℚ) ^ (expo b - 23) := by positivity
      apply mul_le_mul_of_nonneg_right _ hq.le
      exact_mod_cast rne_mono (div_le_div_of_nonneg_right h hq.le)
    · have hb : 0 < b := lt_of_lt_of_le hpos h
      have h126 : -126 < expo b := lt_of_le_of_lt (expo_ge a) hlt
      calc roundAbs a ≤ (2 : ℚ) ^ (expo a + 1) := roundAbs_le_zpow
        _ ≤ (2 : ℚ) ^ expo b := zpow_le_zpow_right₀ (by norm_num) (by omega)
        _ ≤ roundAbs b := zpow_le_roundAbs hb h126

theorem rnd_of_nonneg {x : ℚ} (h : 0 ≤ x) : rnd x = roundAbs x := by
  unfold rnd
  rw [if_pos h]

theorem rnd_of_neg {x : ℚ} (h : x < 0) : rnd x = -roundAbs (-x) := by
  unfold rnd
  rw [if_neg (not_le.2 h)]

theorem rnd_zero : rnd 0 = 0 := by
  rw [rnd_of_nonneg le_rfl, roundAbs_zero]

theorem rnd_neg (x : ℚ) : rnd (-x) = -rnd x := by
  rcases lt_trichotomy x 0 with h | h | h
  · rw [rnd_of_neg h, rnd_of_nonneg (by linarith), neg_neg]
  · rw [h, neg_zero, rnd_zero, neg_zero]
  · rw [rnd_of_neg (by linarith : -x < 0), neg_neg, rnd_of_nonneg h.le]

theorem rnd_nonneg {x : ℚ} (h : 0 ≤ x) : 0 ≤ rnd x := by
  rw [rnd_of_nonneg h]
  exact roundAbs_nonneg h

theorem rnd_nonpos {x : ℚ} (h : x ≤ 0) : rnd x ≤ 0 := by
  have := rnd_nonneg (neg_nonneg.2 h)
  rw [rnd_neg] at this
  linarith

theorem rnd_mono {x y : ℚ} (h : x ≤ y) : rnd x ≤ rnd y := by
  rcases le_or_lt 0 x with hx | hx
  · rw [rnd_of_nonneg hx, rnd_of_nonneg (le_trans hx h)]
    exact roundAbs_mono hx h
  · rcases le_or_lt 0 y with hy | hy
    · exact le_trans (rnd_nonpos hx.le) (rnd_nonneg hy)
    · rw [rnd_of_neg hx, rnd_of_neg hy]
      have := roundAbs_mono (a := -y) (b := -x) (by linarith) (by linarith)
      linarith

theorem abs_roundAbs_sub_le {a : ℚ} {E : ℤ} (ha : 0 ≤ a) (hE : -126 ≤ E)
    (h : a < (2 : ℚ) ^ (E + 1)) : |roundAbs a - a| ≤ (2 : ℚ) ^ (E - 24) := by
  rcases eq_or_lt_of_le ha with h0 | hpos
  · rw [← h0, roundAbs_zero, sub_zero, abs_zero]
    positivity
  · have hexp : expo a ≤ E := expo_le_of_lt hpos hE h
    have hq := quantum_pos a
    have hr := abs_rne_sub_le (a / quantum a)
    have e : roundAbs a - a = ((rne (a / quantum a) : ℚ) - a / quantum a) * quantum a := by
      unfold roundAbs
      field_simp
    rw [e, abs_mul, abs_of_pos hq]
    have hq2 : quantum a ≤ (2 : ℚ) ^ (E - 23) := by
      unfold quantum
      exact zpow_le_zpow_right₀ (by norm_num) (by omega)
    have hsplit : (2 : ℚ) ^ (E - 24) = 1 / 2 * (2 : ℚ) ^ (E - 23) := by
      rw [show E - 23 = (E - 24) + 1 by ring, zpow_add₀ (by norm_num)]
      norm_num
      ring
    rw [hsplit]
    exact mul_le_mul hr hq2 hq.le (by norm_num)

/-- The rounding error is at most half a unit in the last place of the binade. -/
theorem abs_rnd_sub_le {x : ℚ} {E : ℤ} (hE : -126 ≤ E) (h : |x| < (2 : ℚ) ^ (E + 1)) :
    |rnd x - x| ≤ (2 : ℚ) ^ (E - 24) := by
  rcases le_or_lt 0 x with hx | hx
  · rw [rnd_of_nonneg hx]
    rw [abs_of_nonneg hx] at h
    exact abs_roundAbs_sub_le hx hE h
  · rw [rnd_of_neg hx]
    rw [abs_of_neg hx] at h
    have := abs_roundAbs_sub_le (a := -x) (by linarith) hE h
    rw [show -roundAbs (-x) - x = -(roundAbs (-x) - -x) by ring, abs_neg]
    exact this

theorem roundAbs_of_rep (M : ℕ) (k : ℤ) (hM : M < 16777216) (hk : -149 ≤ k) :
    roundAbs ((M : ℚ) * (2 : ℚ) ^ k) = (M : ℚ) * (2 : ℚ) ^ k := by
  rcases Nat.eq_zero_or_pos M with h0 | hpos
  · rw [h0]
    simp [roundAbs_zero]
  · have hMq : (0 : ℚ) < (M : ℚ) := by exact_mod_cast hpos
    have ha : (0 : ℚ) < (M : ℚ) * (2 : ℚ) ^ k := by positivity
    have hlt : (M : ℚ) * (2 : ℚ) ^ k < (2 : ℚ) ^ ((k + 23) + 1) := by
      rw [show (k + 23) + 1 = 24 + k by ring, zpow_add₀ (by norm_num)]
      have : (M : ℚ) < (2 : ℚ) ^ (24 : ℤ) := by
        norm_num
        exact_mod_cast hM
      exact mul_lt_mul_of_pos_right this (by positivity)
    have hexp : expo ((M : ℚ) * (2 : ℚ) ^ k) ≤ k + 23 := expo_le_of_lt ha (by omega) hlt
    obtain ⟨n, hn⟩ : ∃ n : ℕ, k - (expo ((M : ℚ) * (2 : ℚ) ^ k) - 23) = (n : ℤ) :=
      ⟨(k - (expo ((M : ℚ) * (2 : ℚ) ^ k) - 23)).toNat, by omega⟩
    have hdiv : (M : ℚ) * (2 : ℚ) ^ k / quantum ((M : ℚ) * (2 : ℚ) ^ k)
        = (((M * 2 ^ n : ℕ) : ℤ) : ℚ) := by
      unfold quantum
      rw [mul_div_assoc, ← zpow_sub₀ (by norm_num), hn]
      push_cast
      rw [zpow_natCast]
    unfold roundAbs
    rw [hdiv, rne_intCast, ← hdiv]
    field_simp [(quantum_pos _).ne']

/-- A number with a significand below `2^24` and an exponent in range is left unchanged. -/
theorem rnd_of_rep (M : ℤ) (k : ℤ) (hM : |M| < 16777216) (hk : -149 ≤ k) :
    rnd ((M : ℚ) * (2 : ℚ) ^ k) = (M : ℚ) * (2 : ℚ) ^ k := by
  rcases le_or_lt 0 M with h | h
  · obtain ⟨m, rfl⟩ := Int.eq_ofNat_of_zero_le h
    have hm : m < 16777216 := by
      rw [abs_of_nonneg h] at hM
      exact_mod_cast hM
    have hnn : (0 : ℚ) ≤ ((m : ℤ) : ℚ) * (2 : ℚ) ^ k := by positivity
    rw [rnd_of_nonneg hnn]
    exact_mod_cast roundAbs_of_rep m k hm hk
  · obtain ⟨m, hm⟩ := Int.eq_ofNat_of_zero_le (by omega : 0 ≤ -M)
    have hm2 : m < 16777216 := by
      rw [abs_of_neg h] at hM
      omega
    have e : (M : ℚ) * (2 : ℚ) ^ k = -((m : ℚ) * (2 : ℚ) ^ k) := by
      have : (M : ℚ) = -(m : ℚ) := by
        have : M = -(m : ℤ) := by omega
        rw [this]
        push_cast
        ring
      rw [this]
      ring
    have hnn : (0 : ℚ) ≤ (m : ℚ) * (2 : ℚ) ^ k := by positivity
    rw [e, rnd_neg, rnd_of_nonneg hnn, roundAbs_of_rep m k hm2 hk]

theorem rnd_intCast (n : ℤ) (h : |n| < 16777216) : rnd (n : ℚ) = n := by
  have := rnd_of_rep n 0 h (by norm_num)
  simpa using this

theorem rne_div_quantum_le (a : ℚ) : rne (a / quantum a) ≤ 16777216 := by
  have hq := quantum_pos a
  have h1 : a / quantum a ≤ ((16777216 : ℤ) : ℚ) := by
    rw [div_le_iff₀ hq]
    push_cast
    rw [quantum_mul_top]
    exact (lt_zpow_expo_succ a).le
  have := rne_mono h1
  rwa [rne_intCast] at this

theorem roundAbs_idem {a : ℚ} (ha : 0 ≤ a) : rnd (roundAbs a) = roundAbs a := by
  have hN0 : 0 ≤ rne (a / quantum a) := rne_nonneg (div_nonneg ha (quantum_pos a).le)
  have hN1 := rne_div_quantum_le a
  unfold roundAbs
  generalize rne (a / quantum a) = N at hN0 hN1
  unfold quantum
  rcases eq_or_lt_of_le hN1 with htop | hlt
  · have e : ((N : ℤ) : ℚ) * (2 : ℚ) ^ (expo a - 23)
        = ((8388608 : ℤ) : ℚ) * (2 : ℚ) ^ (expo a - 22) := by
      rw [htop, show expo a - 22 = 1 + (expo a - 23) by ring, zpow_add₀ (by norm_num)]
      push_cast
      ring
    rw [e]
    exact rnd_of_rep 8388608 (expo a - 22) (by norm_num) (by have := expo_ge a; omega)
  · exact rnd_of_rep N (expo a - 23) (by rw [abs_of_nonneg hN0]; exact hlt)
      (by have := expo_ge a; omega)

/-- Rounding a rounded value changes nothing. -/
theorem rnd_idem (x : ℚ) : rnd (rnd x) = rnd x := by
  rcases le_or_lt 0 x with hx | hx
  · rw [rnd_of_nonneg hx]
    exact roundAbs_idem hx
  · rw [rnd_of_neg hx, rnd_neg, roundAbs_idem (by linarith)]

/-- A positive binary32 number below `2^24` is `N / 2^j` with `N < 2^24`, and `2^-j`
is at least its rounding quantum. -/
theorem fixed_decomp {x : ℚ} (hx : 0 < x) (hfix : rnd x = x) (hlt : x < 16777216) :
    ∃ N j : ℕ, x = (N : ℚ) / 2 ^ j ∧ N < 16777216 ∧ expo x - 23 = -(j : ℤ) := by
  have hq := quantum_pos x
  have hE : expo x ≤ 23 :=
    expo_le_of_lt hx (by norm_num) (by norm_num; exact hlt)
  obtain ⟨j, hj⟩ : ∃ j : ℕ, expo x - 23 = -(j : ℤ) := ⟨(23 - expo x).toNat, by omega⟩
  have hr : roundAbs x = x := by
    rw [← rnd_of_nonneg hx.le]
    exact hfix
  have hN0 : 0 ≤ rne (x / quantum x) := rne_nonneg (div_nonneg hx.le hq.le)
  obtain ⟨N, hN⟩ := Int.eq_ofNat_of_zero_le hN0
  have hxN : x = (N : ℚ) * quantum x := by
    have := hr
    unfold roundAbs at this
    rw [hN] at this
    push_cast at this
    exact this.symm
  have hqj : quantum x = 1 / 2 ^ j := by
    unfold quantum
    rw [hj, zpow_neg, zpow_natCast]
    simp
  refine ⟨N, j, ?_, ?_, hj⟩
  · calc x = (N : ℚ) * quantum x := hxN
      _ = (N : ℚ) / 2 ^ j := by
        rw [hqj]
        ring
  · have h1 : (N : ℚ) * quantum x < 16777216 * quantum x := by
      rw [← hxN, quantum_mul_top]
      exact lt_zpow_expo_succ x
    have h2 : (N : ℚ) < 16777216 := lt_of_mul_lt_mul_right h1 hq.le
    exact_mod_cast h2

theorem rne_eq_of_lt {y : ℚ} {N : ℤ} (h1 : (N : ℚ) - 1 / 2 < y) (h2 : y < (N : ℚ) + 1 / 2) :
    rne y = N := by
  rcases le_or_lt (N : ℚ) y with h | h
  · have hf : ⌊y⌋ = N := by
      rw [Int.floor_eq_iff]
      constructor
      · exact h
      · linarith
    unfold rne
    rw [hf, if_pos (by linarith)]
  · have hf : ⌊y⌋ = N - 1 := by
      rw [Int.floor_eq_iff]
      push_cast
      constructor <;> linarith
    unfold rne
    rw [hf]
    push_cast
    rw [if_neg (by linarith), if_pos (by linarith)]
    ring

theorem rne_eq_of_tie {y : ℚ} {M : ℤ} (h : y = (M : ℚ) + 1 / 2) :
    rne y = if M % 2 = 0 then M else M + 1 := by
  have hf : ⌊y⌋ = M := by
    rw [Int.floor_eq_iff]
    constructor <;> linarith
  unfold rne
  rw [hf, if_neg (by linarith), if_neg (by linarith)]

/-- Evaluation of `rnd` at a positive number whose binade and rounded significand are
given. -/
theorem rnd_eq_of_pos {a : ℚ} (E N : ℤ) (ha : 0 < a) (hE : -126 ≤ E)
    (hlo : (2 : ℚ) ^ E ≤ a ∨ E = -126) (hhi : a < (2 : ℚ) ^ (E + 1))
    (hN : rne (a / (2 : ℚ) ^ (E - 23)) = N) :
    rnd a = (N : ℚ) * (2 : ℚ) ^ (E - 23) := by
  have hexp : expo a = E := by
    rcases hlo with hlo | hlo
    · exact expo_eq_of_bounds hE hlo hhi
    · exact le_antisymm (expo_le_of_lt ha hE hhi) (by rw [hlo]; exact expo_ge a)
  rw [rnd_of_nonneg ha.le]
  unfold roundAbs quantum
  rw [hexp, hN]

theorem rnd_half : rnd (1 / 2) = 1 / 2 := by
  have := rnd_of_rep 1 (-1) (by norm_num) (by norm_num)
  norm_num at this
  exact this

/-- For a binary32 `x` with `0 ≤ x < 2^24` the quotient `x / 7` rounds to a number with
the same floor, and `mod(x, 7)` is computed without any rounding error. -/
theorem mod_seven_exact {x : ℚ} (hfix : rnd x = x) (h0 : 0 ≤ x) (hlt : x < 16777216) :
    floor (div x 7) = ((⌊x / 7⌋ : ℤ) : ℚ) ∧ mod x 7 = x - 7 * ((⌊x / 7⌋ : ℤ) : ℚ) := by
  have hm0 : 0 ≤ ⌊x / 7⌋ := Int.floor_nonneg.2 (by positivity)
  have hm1 : ((⌊x / 7⌋ : ℤ) : ℚ) ≤ x / 7 := Int.floor_le _
  have hm2 : x / 7 < ((⌊x / 7⌋ : ℤ) : ℚ) + 1 := Int.lt_floor_add_one _
  generalize hm : ⌊x / 7⌋ = m at hm0 hm1 hm2
  have h7m : 7 * (m : ℚ) ≤ x := by linarith
  have hx7 : x < 7 * ((m : ℚ) + 1) := by linarith
  have hmq : (0 : ℚ) ≤ (m : ℚ) := by exact_mod_cast hm0
  have hmlt : |m| < 16777216 := by
    rw [abs_of_nonneg hm0]
    have : (m : ℚ) < 16777216 := by linarith
    exact_mod_cast this
  -- the floor of the rounded quotient
  have hlow : (m : ℚ) ≤ rnd (x / 7) := by
    have := rnd_mono hm1
    rwa [rnd_intCast m hmlt] at this
  have hup : rnd (x / 7) < (m : ℚ) + 1 := by
    rcases lt_or_le x 1 with hx1 | hx1
    · have hle : rnd (x / 7) ≤ 1 / 2 := by
        have := rnd_mono (show x / 7 ≤ 1 / 2 by linarith)
        rwa [rnd_half] at this
      linarith
    · have hxpos : 0 < x := by linarith
      obtain ⟨N, j, hxN, hN, hj⟩ := fixed_decomp hxpos hfix hlt
      have hpow : (0 : ℚ) < 2 ^ j := by positivity
      have hE0 : 0 ≤ expo x := by
        have : expo (1 : ℚ) ≤ expo x := expo_mono (by norm_num) hx1
        have e1 : expo (1 : ℚ) = 0 := expo_eq_of_bounds (by norm_num) (by norm_num) (by norm_num)
        omega
      -- the distance from `x` to the next multiple of 7 is at least one quantum
      have hint : (N : ℤ) + 1 ≤ 7 * (m + 1) * 2 ^ j := by
        have : (N : ℚ) < 7 * ((m : ℚ) + 1) * 2 ^ j := by
          have := hx7
          rw [hxN, div_lt_iff₀ hpow] at this
          exact this
        have : (N : ℤ) < 7 * (m + 1) * 2 ^ j := by exact_mod_cast this
        omega
      have hgap : x + 1 / 2 ^ j ≤ 7 * ((m : ℚ) + 1) := by
        have : ((N : ℤ) : ℚ) + 1 ≤ 7 * ((m : ℚ) + 1) * 2 ^ j := by exact_mod_cast hint
        rw [hxN]
        rw [div_add_div_same, div_le_iff₀ hpow]
        push_cast at this
        exact this
      -- the rounding error of the quotient is below that distance over 7
      have hq : (2 : ℚ) ^ (expo x - 23) = 1 / 2 ^ j := by
        rw [hj, zpow_neg, zpow_natCast]
        simp
      have hylt : |x / 7| < (2 : ℚ) ^ ((expo x - 2) + 1) := by
        rw [abs_of_nonneg (by positivity)]
        have h1 := lt_zpow_expo_succ x
        have e : (2 : ℚ) ^ (expo x + 1) = 4 * (2 : ℚ) ^ ((expo x - 2) + 1) := by
          rw [show expo x + 1 = 2 + ((expo x - 2) + 1) by ring, zpow_add₀ (by norm_num)]
          norm_num
        have hp : (0 : ℚ) < (2 : ℚ) ^ ((expo x - 2) + 1) := by positivity
        rw [e] at h1
        linarith
      have herr := abs_rnd_sub_le (x := x / 7) (E := expo x - 2) (by omega) hylt
      have e8 : (2 : ℚ) ^ (expo x - 2 - 24) = 1 / 8 * (1 / 2 ^ j) := by
        rw [← hq, show expo x - 2 - 24 = -3 + (expo x - 23) by ring, zpow_add₀ (by norm_num)]
        norm_num
      rw [e8] at herr
      have hb := (abs_le.1 herr).2
      have hjpos : (0 : ℚ) < 1 / 2 ^ j := by positivity
      linarith
  have hfloor : ⌊rnd (x / 7)⌋ = m := by
    rw [Int.floor_eq_iff]
    exact ⟨hlow, hup⟩
  have hdiv : floor (div x 7) = (m : ℚ) := by
    unfold floor div
    rw [hfloor]
  refine ⟨hdiv, ?_⟩
  unfold mod
  rw [hdiv]
  -- `7 * m` is an integer below `2^24`
  have hmul : mul 7 (m : ℚ) = 7 * (m : ℚ) := by
    unfold mul
    have h7 : |7 * m| < 16777216 := by
      rw [abs_of_nonneg (by omega)]
      have : ((7 * m : ℤ) : ℚ) < 16777216 := by
        push_cast
        linarith
      exact_mod_cast this
    have := rnd_intCast (7 * m) h7
    push_cast at this
    exact this
  rw [hmul]
  -- `x - 7 * m` is a multiple of the quantum of `x`, not larger than `x`
  unfold sub
  rcases eq_or_lt_of_le h0 with hx0 | hxpos
  · have hm0' : (m : ℚ) = 0 := by linarith
    rw [← hx0, hm0']
    norm_num
    exact rnd_zero
  · obtain ⟨N, j, hxN, hN, hj⟩ := fixed_decomp hxpos hfix hlt
    have hpow : (0 : ℚ) < 2 ^ j := by positivity
    have hK0 : 0 ≤ (N : ℤ) - 7 * m * 2 ^ j := by
      have : 7 * (m : ℚ) * 2 ^ j ≤ (N : ℚ) := by
        have := h7m
        rw [hxN, le_div_iff₀ hpow] at this
        exact this
      have : 7 * m * 2 ^ j ≤ (N : ℤ) := by exact_mod_cast this
      omega
    have hK1 : (N : ℤ) - 7 * m * 2 ^ j ≤ N := by
      have : 0 ≤ 7 * m * 2 ^ j := by positivity
      omega
    have e : x - 7 * (m : ℚ)
        = (((N : ℤ) - 7 * m * 2 ^ j : ℤ) : ℚ) * (2 : ℚ) ^ (-(j : ℤ)) := by
      rw [hxN, zpow_neg, zpow_natCast]
      push_cast
      field_simp
      ring
    rw [e]
    apply rnd_of_rep
    · rw [abs_of_nonneg hK0]
      omega
    · have := expo_ge x
      omega

end F32

/-! ## Evaluating roundings -/

namespace F32

theorem rnd_natCast (n : ℕ) (h : n < 16777216) : rnd (n : ℚ) = n := by
  have := rnd_intCast (n : ℤ) (by rw [abs_of_nonneg (by positivity)]; exact_mod_cast h)
  exact_mod_cast this

/-- Evaluation of `rnd` at a positive number, away from a tie: `E` is the binade and `N`
the rounded significand. -/
theorem rnd_eval {a v : ℚ} (E N : ℤ)
    (h : 0 < a ∧ -126 ≤ E ∧ ((2 : ℚ) ^ E ≤ a ∨ E = -126) ∧ a < (2 : ℚ) ^ (E + 1)
      ∧ (N : ℚ) - 1 / 2 < a / (2 : ℚ) ^ (E - 23)
      ∧ a / (2 : ℚ) ^ (E - 23) < (N : ℚ) + 1 / 2
      ∧ v = (N : ℚ) * (2 : ℚ) ^ (E - 23)) : rnd a = v := by
  obtain ⟨ha, hE, hlo, hhi, h1, h2, hv⟩ := h
  rw [hv]
  exact rnd_eq_of_pos E N ha hE hlo hhi (rne_eq_of_lt h1 h2)

/-- Evaluation of `rnd` at a positive number exactly half-way between two binary32
numbers `M` and `M + 1` (as significands): the even one is taken. -/
theorem rnd_eval_tie {a v : ℚ} (E M N : ℤ)
    (h : 0 < a ∧ -126 ≤ E ∧ ((2 : ℚ) ^ E ≤ a ∨ E = -126) ∧ a < (2 : ℚ) ^ (E + 1)
      ∧ a / (2 : ℚ) ^ (E - 23) = (M : ℚ) + 1 / 2
      ∧ v = (N : ℚ) * (2 : ℚ) ^ (E - 23))
    (hN : N = if M % 2 = 0 then M else M + 1) : rnd a = v := by
  obtain ⟨ha, hE, hlo, hhi, h1, hv⟩ := h
  rw [hv, hN]
  exact rnd_eq_of_pos E _ ha hE hlo hhi (rne_eq_of_tie h1)

theorem rnd_one : rnd 1 = 1 := by
  have := rnd_natCast 1 (by norm_num)
  exact_mod_cast this

theorem rnd_two : rnd 2 = 2 := by
  have := rnd_natCast 2 (by norm_num)
  exact_mod_cast this

theorem rnd_three : rnd 3 = 3 := by
  have := rnd_natCast 3 (by norm_num)
  exact_mod_cast this

theorem rnd_four : rnd 4 = 4 := by
  have := rnd_natCast 4 (by norm_num)
  exact_mod_cast this

theorem rnd_five : rnd 5 = 5 := by
  have := rnd_natCast 5 (by norm_num)
  exact_mod_cast this

theorem rnd_six : rnd 6 = 6 := by
  have := rnd_natCast 6 (by norm_num)
  exact_mod_cast this

theorem rnd_seven : rnd 7 = 7 := by
  have := rnd_natCast 7 (by norm_num)
  exact_mod_cast this

theorem rnd_fifty : rnd 50 = 50 := by
  have := rnd_natCast 50 (by norm_num)
  exact_mod_cast this

theorem rnd_three_halves : rnd (3 / 2) = 3 / 2 := by
  have := rnd_of_rep 3 (-1) (by norm_num) (by norm_num)
  norm_num at this
  exact this

theorem rnd_neg_one : rnd (-1) = -1 := by
  rw [rnd_neg, rnd_one]

theorem rnd_neg_two : rnd (-2) = -2 := by
  rw [rnd_neg, rnd_two]

theorem rnd_neg_three : rnd (-3) = -3 := by
  rw [rnd_neg, rnd_three]

theorem floor_intCast (n : ℤ) : floor (n : ℚ) = n := by
  unfold floor
  rw [Int.floor_intCast]

theorem sub_nonneg_of_le {a b : ℚ} (h : b ≤ a) : 0 ≤ sub a b := by
  unfold sub
  exact rnd_nonneg (by linarith)

theorem sub_fixed (a b : ℚ) : rnd (sub a b) = sub a b := rnd_idem _

theorem rnd_ofScientific_zero : rnd 0.0 = 0 := by
  norm_num
  exact rnd_zero

theorem rnd_le_of_le_fixed {x c : ℚ} (hc : rnd c = c) (h : x ≤ c) : rnd x ≤ c := by
  have := rnd_mono h
  rwa [hc] at this

theorem le_rnd_of_fixed_le {x c : ℚ} (hc : rnd c = c) (h : c ≤ x) : c ≤ rnd x := by
  have := rnd_mono h
  rwa [hc] at this

theorem fract_nonneg (a : ℚ) : 0 ≤ fract a := by
  unfold fract sub floor
  exact rnd_nonneg (by linarith [Int.floor_le a])

theorem fract_le_one (a : ℚ) : fract a ≤ 1 := by
  unfold fract sub floor
  exact rnd_le_of_le_fixed rnd_one (by linarith [Int.lt_floor_add_one a])

theorem mul_zero_left (b : ℚ) : mul 0 b = 0 := by
  unfold mul
  rw [zero_mul, rnd_zero]

theorem mul_zero_right (a : ℚ) : mul a 0 = 0 := by
  unfold mul
  rw [mul_zero, rnd_zero]

/-! ## Division by 7: floors and remainders in binary32 -/

theorem le_expo {a : ℚ} {E : ℤ} (ha : 0 < a) (h : (2 : ℚ) ^ E ≤ a) : E ≤ expo a := by
  have : E ≤ Int.log 2 a := by
    rw [← Int.zpow_le_iff_le_log (by norm_num) ha]
    exact_mod_cast h
  exact le_trans this (le_max_left _ _)

theorem fixed_multiple_pos {a : ℚ} (E : ℤ) (ha : rnd a = a) (h : (2 : ℚ) ^ E ≤ a) :
    ∃ n : ℤ, a = (n : ℚ) * (2 : ℚ) ^ (E - 23) := by
  have hpos : 0 < a := lt_of_lt_of_le (by positivity) h
  have hE := le_expo hpos h
  obtain ⟨k, hk⟩ : ∃ k : ℕ, expo a - E = (k : ℤ) := ⟨(expo a - E).toNat, by omega⟩
  have hr : roundAbs a = a := by
    rw [← rnd_of_nonneg hpos.le]
    exact ha
  have e : (2 : ℚ) ^ (expo a - 23) = (2 : ℚ) ^ k * (2 : ℚ) ^ (E - 23) := by
    rw [← zpow_natCast, ← zpow_add₀ (by norm_num)]
    congr 1
    omega
  refine ⟨rne (a / quantum a) * 2 ^ k, ?_⟩
  push_cast
  rw [mul_assoc, ← e]
  exact hr.symm

/-- A binary32 number of magnitude at least `2^E` is a whole multiple of `2^(E-23)`. -/
theorem fixed_multiple {z : ℚ} (E : ℤ) (hz : rnd z = z) (h : (2 : ℚ) ^ E ≤ |z|) :
    ∃ n : ℤ, z = (n : ℚ) * (2 : ℚ) ^ (E - 23) := by
  rcases le_or_lt 0 z with h0 | h0
  · rw [abs_of_nonneg h0] at h
    exact fixed_multiple_pos E hz h
  · rw [abs_of_neg h0] at h
    have hn : rnd (-z) = -z := by rw [rnd_neg, hz]
    obtain ⟨n, hn⟩ := fixed_multiple_pos E hn h
    refine ⟨-n, ?_⟩
    push_cast
    linarith

/-- A binary32 number of magnitude at least `2^23` is a whole number. -/
theorem fixed_int {z : ℚ} (hz : rnd z = z) (h : 8388608 ≤ |z|) : ∃ n : ℤ, z = (n : ℚ) := by
  obtain ⟨n, hn⟩ := fixed_multiple 23 hz (by norm_num; exact h)
  exact ⟨n, by simpa using hn⟩

/-- A binary32 number of magnitude at least `2^24` is an even whole number. -/
theorem fixed_even {z : ℚ} (hz : rnd z = z) (h : 16777216 ≤ |z|) :
    ∃ n : ℤ, z = 2 * (n : ℚ) := by
  obtain ⟨n, hn⟩ := fixed_multiple 24 hz (by norm_num; exact h)
  refine ⟨n, ?_⟩
  rw [hn]
  norm_num
  ring

/-- A binary32 number of magnitude at least 4 is a whole multiple of `2^-21`. -/
theorem fixed_fine {z : ℚ} (hz : rnd z = z) (h : 4 ≤ |z|) :
    ∃ n : ℤ, z = (n : ℚ) / 2097152 := by
  obtain ⟨n, hn⟩ := fixed_multiple 2 hz (by norm_num; exact h)
  refine ⟨n, ?_⟩
  rw [hn]
  norm_num
  ring

/-- The quotient by 7 of a whole number of magnitude below `7 * 2^22` rounds to a number
with the same floor. -/
theorem floor_div_seven_int (n : ℤ) (h : |n| < 29360128) :
    floor (div (n : ℚ) 7) = ((⌊(n : ℚ) / 7⌋ : ℤ) : ℚ) := by
  have hm1 : ((⌊(n : ℚ) / 7⌋ : ℤ) : ℚ) ≤ (n : ℚ) / 7 := Int.floor_le _
  have hm2 : (n : ℚ) / 7 < ((⌊(n : ℚ) / 7⌋ : ℤ) : ℚ) + 1 := Int.lt_floor_add_one _
  generalize ⌊(n : ℚ) / 7⌋ = m at hm1 hm2
  have hn := abs_lt.1 h
  have hnq1 : (-29360128 : ℚ) < (n : ℚ) := by exact_mod_cast hn.1
  have hnq2 : (n : ℚ) < 29360128 := by exact_mod_cast hn.2
  have hi1 : 7 * m ≤ n := by
    have : 7 * (m : ℚ) ≤ (n : ℚ) := by linarith
    exact_mod_cast this
  have hi2 : n < 7 * m + 7 := by
    have : (n : ℚ) < 7 * (m : ℚ) + 7 := by linarith
    exact_mod_cast this
  have hi3 : (n : ℚ) ≤ 7 * (m : ℚ) + 6 := by
    have : n ≤ 7 * m + 6 := by omega
    exact_mod_cast this
  have hmabs : |m| < 16777216 := by
    rw [abs_lt]
    constructor <;> omega
  have hlow : (m : ℚ) ≤ rnd ((n : ℚ) / 7) := by
    have := rnd_mono hm1
    rwa [rnd_intCast m hmabs] at this
  have herr := abs_rnd_sub_le (x := (n : ℚ) / 7) (E := 21) (by norm_num)
    (by
      rw [abs_lt]
      norm_num
      constructor <;> linarith)
  norm_num at herr
  have hup : rnd ((n : ℚ) / 7) < (m : ℚ) + 1 := by
    have := (abs_le.1 herr).2
    linarith
  unfold floor div
  have : ⌊rnd ((n : ℚ) / 7)⌋ = m := by
    rw [Int.floor_eq_iff]
    exact ⟨hlow, hup⟩
  rw [this]

/-- The quotient by 7 of a negative binary32 number above `-2^24` rounds to a number
with the same floor (the quotient does not underflow to zero). -/
theorem floor_div_seven_neg {z : ℚ} (hfix : rnd z = z) (hlo : -16777216 < z)
    (hhi : z ≤ -(1 / 2 ^ 100)) :
    floor (div z 7) = ((⌊z / 7⌋ : ℤ) : ℚ) := by
  have hsmall : (0 : ℚ) < 1 / 2 ^ 100 := by positivity
  have hz : z < 0 := by linarith
  have hm1 : ((⌊z / 7⌋ : ℤ) : ℚ) ≤ z / 7 := Int.floor_le _
  have hm2 : z / 7 < ((⌊z / 7⌋ : ℤ) : ℚ) + 1 := Int.lt_floor_add_one _
  generalize ⌊z / 7⌋ = m at hm1 hm2
  have hmneg : m < 0 := by
    have : (m : ℚ) < 0 := by linarith
    exact_mod_cast this
  have hmlo : -16777216 < m := by
    have : (-16777216 : ℚ) < (m : ℚ) := by linarith
    exact_mod_cast this
  have hmabs : |m| < 16777216 := by
    rw [abs_lt]
    constructor <;> omega
  have hlow : (m : ℚ) ≤ rnd (z / 7) := by
    have := rnd_mono hm1
    rwa [rnd_intCast m hmabs] at this
  have hy : rnd (-z) = -z := by rw [rnd_neg, hfix]
  have hneg : rnd (z / 7) = -rnd (-z / 7) := by
    rw [show z / 7 = -(-z / 7) by ring, rnd_neg]
  have hup : rnd (z / 7) < (m : ℚ) + 1 := by
    rw [hneg]
    rcases lt_or_le (-z) 7 with h7 | h7
    · -- the quotient is above -1 and rounds to a negative number
      have hm : (0 : ℚ) ≤ (m : ℚ) + 1 := by
        have : -1 < z / 7 := by linarith
        have h1 : (-1 : ℚ) < (m : ℚ) + 1 := by linarith
        have h2 : -1 < m + 1 := by exact_mod_cast h1
        have h3 : 0 ≤ m + 1 := by omega
        exact_mod_cast h3
      have hp : rnd (1 / 2 ^ 103) = 1 / 2 ^ 103 := by
        have := rnd_of_rep 1 (-103) (by norm_num) (by norm_num)
        norm_num at this ⊢
        exact this
      have hq : (1 : ℚ) / 2 ^ 103 ≤ rnd (-z / 7) :=
        le_rnd_of_fixed_le hp (by
          have : (1 : ℚ) / 2 ^ 103 = 1 / 2 ^ 100 / 8 := by norm_num
          rw [this]
          linarith)
      have : (0 : ℚ) < 1 / 2 ^ 103 := by positivity
      linarith
    · have hypos : 0 < -z := by linarith
      obtain ⟨N, j, hyN, hN, hj⟩ := fixed_decomp hypos hy (by linarith)
      have hpow : (0 : ℚ) < 2 ^ j := by positivity
      have hE2 : 2 ≤ expo (-z) := le_expo hypos (by norm_num; linarith)
      -- `-z` exceeds the multiple `7 * (-(m + 1))` of 7 by at least one quantum
      have hint : 7 * (-(m + 1)) * 2 ^ j + 1 ≤ (N : ℤ) := by
        have : 7 * (-((m : ℚ) + 1)) * 2 ^ j < (N : ℚ) := by
          have h1 : 7 * (-((m : ℚ) + 1)) < -z := by linarith
          rw [hyN, lt_div_iff₀ hpow] at h1
          exact h1
        have : 7 * (-(m + 1)) * 2 ^ j < (N : ℤ) := by exact_mod_cast this
        omega
      have hgap : 7 * (-((m : ℚ) + 1)) + 1 / 2 ^ j ≤ -z := by
        have : 7 * (-((m : ℚ) + 1)) * 2 ^ j + 1 ≤ ((N : ℤ) : ℚ) := by exact_mod_cast hint
        rw [hyN, le_div_iff₀ hpow]
        push_cast at this
        have e : (7 * (-((m : ℚ) + 1)) + 1 / 2 ^ j) * 2 ^ j
            = 7 * (-((m : ℚ) + 1)) * 2 ^ j + 1 := by
          field_simp
        rw [e]
        exact this
      have hq : (2 : ℚ) ^ (expo (-z) - 23) = 1 / 2 ^ j := by
        rw [hj, zpow_neg, zpow_natCast]
        simp
      have hylt : |-z / 7| < (2 : ℚ) ^ ((expo (-z) - 2) + 1) := by
        rw [abs_of_nonneg (by positivity)]
        have h1 := lt_zpow_expo_succ (-z)
        have e : (2 : ℚ) ^ (expo (-z) + 1) = 4 * (2 : ℚ) ^ ((expo (-z) - 2) + 1) := by
          rw [show expo (-z) + 1 = 2 + ((expo (-z) - 2) + 1) by ring,
            zpow_add₀ (by norm_num)]
          norm_num
        have hp : (0 : ℚ) < (2 : ℚ) ^ ((expo (-z) - 2) + 1) := by positivity
        rw [e] at h1
        linarith
      have herr := abs_rnd_sub_le (x := -z / 7) (E := expo (-z) - 2) (by omega) hylt
      have e8 : (2 : ℚ) ^ (expo (-z) - 2 - 24) = 1 / 8 * (1 / 2 ^ j) := by
        rw [← hq, show expo (-z) - 2 - 24 = -3 + (expo (-z) - 23) by ring,
          zpow_add₀ (by norm_num)]
        norm_num
      rw [e8] at herr
      have hb := (abs_le.1 herr).1
      have hjpos : (0 : ℚ) < 1 / 2 ^ j := by positivity
      linarith
  unfold floor div
  have : ⌊rnd (z / 7)⌋ = m := by
    rw [Int.floor_eq_iff]
    exact ⟨hlow, hup⟩
  rw [this]

/-- Rounding a non-negative number adds at most a relative `2^-24` plus half the
smallest subnormal. -/
theorem rnd_le_affine {x : ℚ} (hx : 0 ≤ x) :
    rnd x ≤ x * (1 + 1 / 16777216) + 1 / 2 ^ 150 := by
  rcases lt_or_le x ((2 : ℚ) ^ (-125 : ℤ)) with h | h
  · have herr := abs_rnd_sub_le (x := x) (E := -126) le_rfl
      (by rw [abs_of_nonneg hx]; norm_num at h ⊢; exact h)
    have e : (2 : ℚ) ^ ((-126 : ℤ) - 24) = 1 / 2 ^ 150 := by
      rw [show ((-126 : ℤ) - 24) = -(150 : ℕ) by norm_num, zpow_neg, zpow_natCast]
      simp
    rw [e] at herr
    have := (abs_le.1 herr).2
    have : 0 ≤ x * (1 / 16777216) := by positivity
    linarith
  · have hpos : 0 < x := lt_of_lt_of_le (by positivity) h
    have hE : -125 ≤ expo x := le_expo hpos h
    have herr := abs_rnd_sub_le (x := x) (E := expo x) (by omega)
      (by rw [abs_of_nonneg hx]; exact lt_zpow_expo_succ x)
    have hlo := zpow_expo_le hpos (by omega)
    have e : (2 : ℚ) ^ (expo x - 24) = (2 : ℚ) ^ expo x * (1 / 16777216) := by
      rw [show expo x - 24 = expo x + (-24) by ring, zpow_add₀ (by norm_num)]
      norm_num
    rw [e] at herr
    have := (abs_le.1 herr).2
    have h2 : (2 : ℚ) ^ expo x * (1 / 16777216) ≤ x * (1 / 16777216) :=
      mul_le_mul_of_nonneg_right hlo (by norm_num)
    have h3 : (0 : ℚ) < 1 / 2 ^ 150 := by positivity
    linarith

/-- A non-negative binary32 number below `2^-125` is a whole multiple of `2^-149`. -/
theorem fixed_subnormal {z : ℚ} (hz : rnd z = z) (h0 : 0 ≤ z)
    (h : z < (2 : ℚ) ^ (-125 : ℤ)) : ∃ n : ℤ, z = (n : ℚ) * (2 : ℚ) ^ (-149 : ℤ) := by
  rcases eq_or_lt_of_le h0 with h1 | h1
  · exact ⟨0, by rw [← h1]; simp⟩
  · have he := expo_eq_of_small h1 h
    have hr : roundAbs z = z := by
      rw [← rnd_of_nonneg h0]
      exact hz
    unfold roundAbs quantum at hr
    rw [he] at hr
    refine ⟨rne (z / (2 : ℚ) ^ ((-126 : ℤ) - 23)), ?_⟩
    rw [show (-149 : ℤ) = (-126 : ℤ) - 23 by norm_num]
    exact hr.symm

/-- For a binary32 `z` of magnitude below `2^24` the product `7 * floor(z / 7)` is a
whole number of magnitude below `2^24`, hence computed exactly. -/
theorem mul_seven_floor {z : ℚ} (hfix : rnd z = z) (hlo : -16777216 < z)
    (hhi : z < 16777216) :
    mul 7 ((⌊z / 7⌋ : ℤ) : ℚ) = 7 * ((⌊z / 7⌋ : ℤ) : ℚ) := by
  have hm1 : ((⌊z / 7⌋ : ℤ) : ℚ) ≤ z / 7 := Int.floor_le _
  have hm2 : z / 7 < ((⌊z / 7⌋ : ℤ) : ℚ) + 1 := Int.lt_floor_add_one _
  have hbig : (-2396745 : ℤ) ≤ ⌊z / 7⌋ := by
    rw [Int.le_floor]
    rcases le_or_lt (-16777209) z with h | h
    · push_cast
      linarith
    · obtain ⟨n, hn⟩ := fixed_int hfix (by rw [abs_of_neg (by linarith)]; linarith)
      have h1 : (-16777216 : ℚ) < (n : ℚ) := by rw [← hn]; exact hlo
      have h2 : -16777216 < n := by exact_mod_cast h1
      have h3 : (-16777215 : ℚ) ≤ (n : ℚ) := by
        have : -16777215 ≤ n := by omega
        exact_mod_cast this
      rw [hn]
      push_cast
      linarith
  generalize ⌊z / 7⌋ = m at hm1 hm2 hbig
  have h7 : |7 * m| < 16777216 := by
    have : (7 * (m : ℚ)) < 16777216 := by linarith
    have : 7 * m < 16777216 := by exact_mod_cast this
    rw [abs_lt]
    constructor <;> omega
  have := rnd_intCast (7 * m) h7
  push_cast at this
  unfold mul
  exact this

/-- For a binary32 `z` in `(-2^24, -7]` the difference `z - 7 * floor(z / 7)` is a
multiple of the quantum of `z` of smaller magnitude, hence computed exactly. -/
theorem sub_seven_floor_neg {z : ℚ} (hfix : rnd z = z) (hlo : -16777216 < z)
    (hhi : z ≤ -7) :
    rnd (z - 7 * ((⌊z / 7⌋ : ℤ) : ℚ)) = z - 7 * ((⌊z / 7⌋ : ℤ) : ℚ) := by
  have hm1 : ((⌊z / 7⌋ : ℤ) : ℚ) ≤ z / 7 := Int.floor_le _
  have hm2 : z / 7 < ((⌊z / 7⌋ : ℤ) : ℚ) + 1 := Int.lt_floor_add_one _
  generalize ⌊z / 7⌋ = m at hm1 hm2
  have hy : rnd (-z) = -z := by rw [rnd_neg, hfix]
  have hypos : 0 < -z := by linarith
  obtain ⟨N, j, hyN, hN, hj⟩ := fixed_decomp hypos hy (by linarith)
  have hpow : (0 : ℚ) < 2 ^ j := by positivity
  have hzN : z = -((N : ℚ) / 2 ^ j) := by linarith
  have hN7 : 7 * 2 ^ j ≤ (N : ℤ) := by
    have : (7 : ℚ) ≤ (N : ℚ) / 2 ^ j := by linarith
    rw [le_div_iff₀ hpow] at this
    exact_mod_cast this
  have hK0 : 0 ≤ -(N : ℤ) - 7 * m * 2 ^ j := by
    have h1 : 7 * (m : ℚ) ≤ -((N : ℚ) / 2 ^ j) := by rw [← hzN]; linarith
    have h2 : 7 * (m : ℚ) * 2 ^ j ≤ -(N : ℚ) := by
      have := mul_le_mul_of_nonneg_right h1 hpow.le
      rw [neg_mul, div_mul_cancel₀ _ hpow.ne'] at this
      exact this
    have : 7 * m * 2 ^ j ≤ -(N : ℤ) := by exact_mod_cast h2
    omega
  have hK1 : -(N : ℤ) - 7 * m * 2 ^ j < 7 * 2 ^ j := by
    have h1 : -((N : ℚ) / 2 ^ j) < 7 * (m : ℚ) + 7 := by rw [← hzN]; linarith
    have h2 : -(N : ℚ) < (7 * (m : ℚ) + 7) * 2 ^ j := by
      have := mul_lt_mul_of_pos_right h1 hpow
      rw [neg_mul, div_mul_cancel₀ _ hpow.ne'] at this
      exact this
    have : -(N : ℤ) < (7 * m + 7) * 2 ^ j := by exact_mod_cast h2
    have e : (7 * m + 7) * 2 ^ j = 7 * m * 2 ^ j + 7 * 2 ^ j := by ring
    omega
  have e : z - 7 * (m : ℚ)
      = ((-(N : ℤ) - 7 * m * 2 ^ j : ℤ) : ℚ) * (2 : ℚ) ^ (-(j : ℤ)) := by
    rw [hzN, zpow_neg, zpow_natCast]
    push_cast
    field_simp
    ring
  rw [e]
  apply rnd_of_rep
  · rw [abs_of_nonneg hK0]
    omega
  · have := expo_ge (-z)
    omega

/-- Two binary32 numbers that differ by exactly 7 are of magnitude below `2^24 + 7`. -/
theorem pair_bounds {x : ℚ} (hx : rnd x = x) (hx7 : rnd (x + 7) = x + 7) :
    x < 16777216 ∧ -16777216 < x + 7 := by
  constructor
  · by_contra h
    rw [not_lt] at h
    obtain ⟨n, hn⟩ := fixed_even hx (by rw [abs_of_nonneg (by linarith)]; exact h)
    obtain ⟨k, hk⟩ := fixed_even hx7 (by rw [abs_of_nonneg (by linarith)]; linarith)
    have : 2 * (n : ℚ) + 7 = 2 * (k : ℚ) := by rw [← hn, ← hk]
    have : 2 * n + 7 = 2 * k := by exact_mod_cast this
    omega
  · by_contra h
    rw [not_lt] at h
    obtain ⟨n, hn⟩ := fixed_even hx (by rw [abs_of_neg (by linarith)]; linarith)
    obtain ⟨k, hk⟩ := fixed_even hx7 (by rw [abs_of_neg (by linarith)]; linarith)
    have : 2 * (n : ℚ) + 7 = 2 * (k : ℚ) := by rw [← hn, ← hk]
    have : 2 * n + 7 = 2 * k := by exact_mod_cast this
    omega

/-- Two negative binary32 numbers `x`, or `x + 7` with `x` binary32, are not of tiny
magnitude. -/
theorem pair_not_tiny {x : ℚ} (hx : rnd x = x) (hx7 : rnd (x + 7) = x + 7) :
    (x < 0 → x ≤ -(1 / 2 ^ 100)) ∧ (x + 7 < 0 → x + 7 ≤ -(1 / 2 ^ 100)) := by
  have hs : (1 : ℚ) / 2 ^ 100 ≤ 1 / 2097152 := by norm_num
  constructor
  · intro h0
    rcases lt_or_le (x + 7) 4 with h4 | h4
    · linarith
    · obtain ⟨n, hn⟩ := fixed_fine hx7 (by rw [abs_of_nonneg (by linarith)]; exact h4)
      have h1 : (n : ℚ) < 14680064 := by
        have : (n : ℚ) / 2097152 < 7 := by rw [← hn]; linarith
        rw [div_lt_iff₀ (by norm_num)] at this
        linarith
      have h2 : n < 14680064 := by exact_mod_cast h1
      have h3 : (n : ℚ) ≤ 14680063 := by
        have : n ≤ 14680063 := by omega
        exact_mod_cast this
      have : x = (n : ℚ) / 2097152 - 7 := by linarith
      rw [this]
      have : (n : ℚ) / 2097152 ≤ 14680063 / 2097152 := by
        rw [div_le_div_iff_of_pos_right (by norm_num)]
        exact h3
      linarith
  · intro h0
    obtain ⟨n, hn⟩ := fixed_fine hx (by rw [abs_of_neg (by linarith)]; linarith)
    have h1 : (n : ℚ) < -14680064 := by
      have : (n : ℚ) / 2097152 < -7 := by rw [← hn]; linarith
      rw [div_lt_iff₀ (by norm_num)] at this
      linarith
    have h2 : n < -14680064 := by exact_mod_cast h1
    have h3 : (n : ℚ) ≤ -14680065 := by
      have : n ≤ -14680065 := by omega
      exact_mod_cast this
    rw [hn]
    have : (n : ℚ) / 2097152 ≤ -14680065 / 2097152 := by
      rw [div_le_div_iff_of_pos_right (by norm_num)]
      exact h3
    linarith

/-- Steps 2 and 3 on a binary32 `z` of magnitude below `2^24`: the floor of the rounded
quotient is the exact floor and the product `7 * floor` is exact. -/
theorem parts_core {z : ℚ} (hfix : rnd z = z) (hlo : -16777216 < z) (hhi : z < 16777216)
    (hnz : z < 0 → z ≤ -(1 / 2 ^ 100)) :
    floor (div z 7) = ((⌊z / 7⌋ : ℤ) : ℚ)
      ∧ mul 7 ((⌊z / 7⌋ : ℤ) : ℚ) = 7 * ((⌊z / 7⌋ : ℤ) : ℚ) := by
  refine ⟨?_, mul_seven_floor hfix hlo hhi⟩
  rcases le_or_lt 0 z with h0 | h0
  · exact (mod_seven_exact hfix h0 hhi).1
  · exact floor_div_seven_neg hfix hlo (hnz h0)

theorem rnd_top : rnd 16777222 = 16777222 := rnd_eval 24 8388611 (by norm_num)

/-- The same for the four binary32 numbers in `[2^24, 2^24 + 7)`. -/
theorem parts_top {z : ℚ} (hfix : rnd z = z) (h1 : 16777216 ≤ z) (h2 : z < 16777223) :
    floor (div z 7) = ((⌊z / 7⌋ : ℤ) : ℚ)
      ∧ mul 7 ((⌊z / 7⌋ : ℤ) : ℚ) = 7 * ((⌊z / 7⌋ : ℤ) : ℚ) := by
  obtain ⟨n, hn⟩ := fixed_even hfix (by rw [abs_of_nonneg (by linarith)]; exact h1)
  have hz : z = ((2 * n : ℤ) : ℚ) := by
    rw [hn]
    push_cast
    ring
  have hn1 : 8388608 ≤ n := by
    have : (16777216 : ℚ) ≤ 2 * (n : ℚ) := by rw [← hn]; exact h1
    have : (16777216 : ℤ) ≤ 2 * n := by exact_mod_cast this
    omega
  have hn2 : n ≤ 8388611 := by
    have : 2 * (n : ℚ) < 16777223 := by rw [← hn]; exact h2
    have : 2 * n < 16777223 := by exact_mod_cast this
    omega
  constructor
  · rw [hz]
    exact floor_div_seven_int (2 * n) (by rw [abs_lt]; constructor <;> omega)
  · rcases lt_or_le n 8388611 with h | h
    · have hf : ⌊z / 7⌋ = 2396745 := by
        rw [Int.floor_eq_iff]
        have : (n : ℚ) ≤ 8388610 := by
          have : n ≤ 8388610 := by omega
          exact_mod_cast this
        constructor
        · push_cast
          linarith
        · push_cast
          linarith
      rw [hf]
      unfold mul
      have := rnd_intCast 16777215 (by norm_num)
      push_cast at this ⊢
      norm_num
      exact this
    · have hn3 : n = 8388611 := by omega
      have hz2 : z = 16777222 := by
        rw [hn, hn3]
        norm_num
      have hf : ⌊z / 7⌋ = 2396746 := by
        rw [Int.floor_eq_iff, hz2]
        norm_num
      rw [hf]
      unfold mul
      norm_num
      exact rnd_top

/-- The same for the four binary32 numbers in `(-2^24 - 7, -2^24]`. -/
theorem parts_bottom {z : ℚ} (hfix : rnd z = z) (h1 : -16777223 < z) (h2 : z ≤ -16777216) :
    floor (div z 7) = ((⌊z / 7⌋ : ℤ) : ℚ)
      ∧ mul 7 ((⌊z / 7⌋ : ℤ) : ℚ) = 7 * ((⌊z / 7⌋ : ℤ) : ℚ) := by
  obtain ⟨n, hn⟩ := fixed_even hfix (by rw [abs_of_neg (by linarith)]; linarith)
  have hz : z = ((2 * n : ℤ) : ℚ) := by
    rw [hn]
    push_cast
    ring
  have hn1 : -8388611 ≤ n := by
    have : (-16777223 : ℚ) < 2 * (n : ℚ) := by rw [← hn]; exact h1
    have : (-16777223 : ℤ) < 2 * n := by exact_mod_cast this
    omega
  have hn2 : n ≤ -8388608 := by
    have : 2 * (n : ℚ) ≤ -16777216 := by rw [← hn]; exact h2
    have : 2 * n ≤ -16777216 := by exact_mod_cast this
    omega
  have hq1 : (-8388611 : ℚ) ≤ (n : ℚ) := by exact_mod_cast hn1
  constructor
  · rw [hz]
    exact floor_div_seven_int (2 * n) (by rw [abs_lt]; constructor <;> omega)
  · have hf : ⌊z / 7⌋ = -2396746 := by
      rw [Int.floor_eq_iff]
      constructor
      · push_cast
        linarith
      · push_cast
        linarith
    rw [hf]
    unfold mul
    have : rnd (-16777222) = -16777222 := by rw [rnd_neg, rnd_top]
    norm_num
    exact this

theorem parts_all {z : ℚ} (hfix : rnd z = z) (hlo : -16777223 < z) (hhi : z < 16777223)
    (hnz : z < 0 → z ≤ -(1 / 2 ^ 100)) :
    floor (div z 7) = ((⌊z / 7⌋ : ℤ) : ℚ)
      ∧ mul 7 ((⌊z / 7⌋ : ℤ) : ℚ) = 7 * ((⌊z / 7⌋ : ℤ) : ℚ) := by
  rcases le_or_lt 16777216 z with h | h
  · exact parts_top hfix h hhi
  rcases le_or_lt z (-16777216) with h' | h'
  · exact parts_bottom hfix hlo h'
  · exact parts_core hfix h' h hnz

theorem mod_eq_of_parts {z : ℚ}
    (h : floor (div z 7) = ((⌊z / 7⌋ : ℤ) : ℚ)
      ∧ mul 7 ((⌊z / 7⌋ : ℤ) : ℚ) = 7 * ((⌊z / 7⌋ : ℤ) : ℚ)) :
    mod z 7 = rnd (z - 7 * ((⌊z / 7⌋ : ℤ) : ℚ)) := by
  unfold mod
  rw [h.1, h.2]
  rfl

/-- The remainder `z - 7 * floor(z / 7)` of a whole number is a whole number in
`[0, 7)`, hence a binary32 number. -/
theorem sub_seven_floor_int (n : ℤ) :
    rnd ((n : ℚ) - 7 * ((⌊(n : ℚ) / 7⌋ : ℤ) : ℚ)) = (n : ℚ) - 7 * ((⌊(n : ℚ) / 7⌋ : ℤ) : ℚ) := by
  have hm1 : ((⌊(n : ℚ) / 7⌋ : ℤ) : ℚ) ≤ (n : ℚ) / 7 := Int.floor_le _
  have hm2 : (n : ℚ) / 7 < ((⌊(n : ℚ) / 7⌋ : ℤ) : ℚ) + 1 := Int.lt_floor_add_one _
  generalize ⌊(n : ℚ) / 7⌋ = m at hm1 hm2
  have hi1 : 7 * m ≤ n := by
    have : 7 * (m : ℚ) ≤ (n : ℚ) := by linarith
    exact_mod_cast this
  have hi2 : n < 7 * m + 7 := by
    have : (n : ℚ) < 7 * (m : ℚ) + 7 := by linarith
    exact_mod_cast this
  have := rnd_intCast (n - 7 * m) (by rw [abs_lt]; constructor <;> omega)
  push_cast at this
  exact this

/-- Loop rollover in binary32: when `x` and `x + 7` are both binary32 numbers, the loop
count of `x + 7` is one more than that of `x`, the local ages agree, and `x` is
`7 * loop count + local age` without rounding error. -/
theorem rollover_core {x : ℚ} (hx : rnd x = x) (hx7 : rnd (x + 7) = x + 7) :
    floor (div (x + 7) 7) = floor (div x 7) + 1
      ∧ mod (x + 7) 7 = mod x 7
      ∧ x = 7 * floor (div x 7) + mod x 7 := by
  obtain ⟨b1, b2⟩ := pair_bounds hx hx7
  obtain ⟨t1, t2⟩ := pair_not_tiny hx hx7
  have P := parts_all hx (by linarith) (by linarith) t1
  have P7 := parts_all hx7 (by linarith) (by linarith) t2
  have hfl : ⌊(x + 7) / 7⌋ = ⌊x / 7⌋ + 1 := by
    rw [show (x + 7) / 7 = x / 7 + 1 by ring, Int.floor_add_one]
  have hS : rnd (x - 7 * ((⌊x / 7⌋ : ℤ) : ℚ)) = x - 7 * ((⌊x / 7⌋ : ℤ) : ℚ) := by
    rcases le_or_lt 0 x with h0 | h0
    · rw [← mod_eq_of_parts P]
      exact (mod_seven_exact hx h0 b1).2
    rcases le_or_lt (-7) x with h7 | h7
    · have hf : ⌊x / 7⌋ = -1 := by
        rw [Int.floor_eq_iff]
        constructor
        · push_cast
          linarith
        · push_cast
          linarith
      rw [hf]
      push_cast
      rw [show x - 7 * (-1 : ℚ) = x + 7 by ring]
      exact hx7
    rcases lt_or_le (-16777216) x with hb | hb
    · exact sub_seven_floor_neg hx hb h7.le
    · obtain ⟨n, hn⟩ := fixed_int hx (by rw [abs_of_neg h0]; linarith)
      rw [hn]
      exact sub_seven_floor_int n
  refine ⟨?_, ?_, ?_⟩
  · rw [P7.1, P.1, hfl]
    push_cast
    ring
  · rw [mod_eq_of_parts P7, mod_eq_of_parts P, hfl]
    congr 1
    push_cast
    ring
  · rw [P.1, mod_eq_of_parts P, hS]
    ring

theorem mod_top_a : mod 29360128 7 = 0 := by
  have h1 : div 29360128 7 = 4194304 :=
    rnd_eval (22) 8388608 (by norm_num)
  have h2 : floor (4194304 : ℚ) = 4194304 := by
    unfold floor
    have : ⌊(4194304 : ℚ)⌋ = 4194304 := by
      rw [Int.floor_eq_iff]
      norm_num
    rw [this]
    norm_num
  have h3 : mul 7 4194304 = 29360128 :=
    rnd_eval (24) 14680064 (by norm_num)
  have h4 : sub 29360128 29360128 = 0 := by
    unfold sub
    rw [sub_self, rnd_zero]
  unfold mod
  rw [h1, h2, h3, h4]

theorem mod_top_b : mod 29360130 7 = 2 := by
  have h1 : div 29360130 7 = (8388609 / 2) :=
    rnd_eval (22) 8388609 (by norm_num)
  have h2 : floor ((8388609 / 2) : ℚ) = 4194304 := by
    unfold floor
    have : ⌊((8388609 / 2) : ℚ)⌋ = 4194304 := by
      rw [Int.floor_eq_iff]
      norm_num
    rw [this]
    norm_num
  have h3 : mul 7 4194304 = 29360128 :=
    rnd_eval (24) 14680064 (by norm_num)
  have h4 : sub 29360130 29360128 = 2 :=
    rnd_eval (1) 8388608 (by norm_num)
  unfold mod
  rw [h1, h2, h3, h4]

theorem mod_top_c : mod 29360132 7 = 4 := by
  have h1 : div 29360132 7 = (8388609 / 2) :=
    rnd_eval (22) 8388609 (by norm_num)
  have h2 : floor ((8388609 / 2) : ℚ) = 4194304 := by
    unfold floor
    have : ⌊((8388609 / 2) : ℚ)⌋ = 4194304 := by
      rw [Int.floor_eq_iff]
      norm_num
    rw [this]
    norm_num
  have h3 : mul 7 4194304 = 29360128 :=
    rnd_eval (24) 14680064 (by norm_num)
  have h4 : sub 29360132 29360128 = 4 :=
    rnd_eval (2) 8388608 (by norm_num)
  unfold mod
  rw [h1, h2, h3, h4]

/-- For an even whole number `x = 2 n` in `[2^24, 7 * 2^22)` the floor of step 2 is
exact, the product `7 * floor` is off by at most 1 and only when the remainder is odd,
so the local age stays in `[0, 6]`. -/
theorem mod_seven_range_even (n : ℤ) (h1 : 8388608 ≤ n) (h2 : n < 14680064) :
    0 ≤ mod ((2 * n : ℤ) : ℚ) 7 ∧ mod ((2 * n : ℤ) : ℚ) 7 ≤ 6 := by
  have hF := floor_div_seven_int (2 * n) (by rw [abs_lt]; constructor <;> omega)
  have hm1 : ((⌊((2 * n : ℤ) : ℚ) / 7⌋ : ℤ) : ℚ) ≤ ((2 * n : ℤ) : ℚ) / 7 := Int.floor_le _
  have hm2 : ((2 * n : ℤ) : ℚ) / 7 < ((⌊((2 * n : ℤ) : ℚ) / 7⌋ : ℤ) : ℚ) + 1 :=
    Int.lt_floor_add_one _
  unfold mod
  rw [hF]
  generalize ⌊((2 * n : ℤ) : ℚ) / 7⌋ = m at hm1 hm2
  have hi1 : 7 * m ≤ 2 * n := by
    have : 7 * (m : ℚ) ≤ ((2 * n : ℤ) : ℚ) := by linarith
    exact_mod_cast this
  have hi2 : 2 * n < 7 * m + 7 := by
    have : ((2 * n : ℤ) : ℚ) < 7 * (m : ℚ) + 7 := by linarith
    exact_mod_cast this
  rcases Int.even_or_odd m with ⟨k, hk⟩ | ⟨k, hk⟩
  · -- `7 * m` is even and below `2^25`: exact
    have hp : mul 7 (m : ℚ) = 7 * (m : ℚ) := by
      have := rnd_of_rep (7 * k) 1 (by rw [abs_lt]; constructor <;> omega) (by norm_num)
      unfold mul
      rw [hk]
      push_cast at this ⊢
      rw [show (7 : ℚ) * ((k : ℚ) + (k : ℚ)) = 7 * (k : ℚ) * 2 ^ (1 : ℤ) by norm_num; ring]
      exact this
    rw [hp]
    have := rnd_intCast (2 * n - 7 * m) (by rw [abs_lt]; constructor <;> omega)
    unfold sub
    push_cast at this ⊢
    rw [this]
    have a1 : (0 : ℚ) ≤ ((2 * n - 7 * m : ℤ) : ℚ) := by exact_mod_cast (by omega : 0 ≤ 2 * n - 7 * m)
    have a2 : ((2 * n - 7 * m : ℤ) : ℚ) ≤ 6 := by exact_mod_cast (by omega : 2 * n - 7 * m ≤ 6)
    push_cast at a1 a2
    exact ⟨a1, a2⟩
  · -- `7 * m` is odd, so the remainder is 1, 3 or 5
    have r1 : (1 : ℚ) ≤ ((2 * n - 7 * m : ℤ) : ℚ) := by exact_mod_cast (by omega : 1 ≤ 2 * n - 7 * m)
    have r2 : ((2 * n - 7 * m : ℤ) : ℚ) ≤ 5 := by exact_mod_cast (by omega : 2 * n - 7 * m ≤ 5)
    push_cast at r1 r2
    have hmq : (0 : ℚ) ≤ 7 * (m : ℚ) := by
      have : (0 : ℤ) ≤ 7 * m := by omega
      exact_mod_cast this
    have hmq2 : 7 * (m : ℚ) < 33554432 := by
      have : 7 * m < 33554432 := by omega
      exact_mod_cast this
    have herr := abs_rnd_sub_le (x := 7 * (m : ℚ)) (E := 24) (by norm_num)
      (by rw [abs_of_nonneg hmq]; norm_num; exact hmq2)
    norm_num at herr
    have hb := abs_le.1 herr
    unfold sub mul
    constructor
    · exact rnd_nonneg (by push_cast; linarith [hb.1, hb.2])
    · exact rnd_le_of_le_fixed rnd_six (by push_cast; linarith [hb.1, hb.2])

/-- For every binary32 `x` with `0 ≤ x < 29360134` the local age `mod(x, 7.0)` lies in
`[0, 7)`. -/
theorem mod_seven_range {x : ℚ} (hfix : rnd x = x) (h0 : 0 ≤ x) (hlt : x < 29360134) :
    0 ≤ mod x 7 ∧ mod x 7 < 7 := by
  rcases lt_or_le x 16777216 with h | h
  · rw [(mod_seven_exact hfix h0 h).2]
    have h1 := Int.floor_le (x / 7)
    have h2 := Int.lt_floor_add_one (x / 7)
    constructor <;> linarith
  · obtain ⟨n, hn⟩ := fixed_even hfix (by rw [abs_of_nonneg h0]; exact h)
    have hz : x = ((2 * n : ℤ) : ℚ) := by
      rw [hn]
      push_cast
      ring
    have hn1 : 8388608 ≤ n := by
      have : (16777216 : ℚ) ≤ 2 * (n : ℚ) := by rw [← hn]; exact h
      have : (16777216 : ℤ) ≤ 2 * n := by exact_mod_cast this
      omega
    have hn2 : n < 14680067 := by
      have : 2 * (n : ℚ) < 29360134 := by rw [← hn]; exact hlt
      have : 2 * n < 29360134 := by exact_mod_cast this
      omega
    rcases lt_or_le n 14680064 with c | c
    · rw [hz]
      have := mod_seven_range_even n hn1 c
      exact ⟨this.1, by linarith [this.2]⟩
    · have hc : n = 14680064 ∨ n = 14680065 ∨ n = 14680066 := by omega
      rcases hc with hc | hc | hc
      · rw [hn, hc]
        norm_num
        rw [mod_top_a]
        norm_num
      · rw [hn, hc]
        norm_num
        rw [mod_top_b]
        norm_num
      · rw [hn, hc]
        norm_num
        rw [mod_top_c]
        norm_num

/-- If `7 k` is a binary32 number, so is `k`. -/
theorem fixed_of_seven_mul (k : ℕ) (h : rnd (7 * (k : ℚ)) = 7 * (k : ℚ)) :
    rnd (k : ℚ) = (k : ℚ) := by
  rcases lt_or_le (7 * (k : ℚ)) 16777216 with hs | hs
  · apply rnd_natCast
    have : (k : ℚ) < 16777216 := by
      have : (0 : ℚ) ≤ (k : ℚ) := by positivity
      linarith
    exact_mod_cast this
  · have hpos : (0 : ℚ) < 7 * (k : ℚ) := by linarith
    have hE : 24 ≤ expo (7 * (k : ℚ)) := le_expo hpos (by norm_num; exact hs)
    obtain ⟨N, hN⟩ := fixed_multiple_pos (expo (7 * (k : ℚ))) h
      (zpow_expo_le hpos (by omega))
    obtain ⟨e, he⟩ : ∃ e : ℕ, expo (7 * (k : ℚ)) - 23 = (e : ℤ) :=
      ⟨(expo (7 * (k : ℚ)) - 23).toNat, by omega⟩
    rw [he, zpow_natCast] at hN
    have hpow : (0 : ℚ) < 2 ^ e := by positivity
    have hNpos : 0 < N := by
      have : (0 : ℚ) < (N : ℚ) * 2 ^ e := by rw [← hN]; exact hpos
      have : (0 : ℚ) < (N : ℚ) := by
        by_contra hc
        rw [not_lt] at hc
        have := mul_nonpos_of_nonpos_of_nonneg hc hpow.le
        linarith
      exact_mod_cast this
    have hNlt : N < 16777216 := by
      have h1 := lt_zpow_expo_succ (7 * (k : ℚ))
      have e1 : (2 : ℚ) ^ (expo (7 * (k : ℚ)) + 1) = 16777216 * 2 ^ e := by
        rw [show expo (7 * (k : ℚ)) + 1 = 24 + (expo (7 * (k : ℚ)) - 23) by ring,
          zpow_add₀ (by norm_num), he, zpow_natCast]
        norm_num
      rw [e1, hN] at h1
      have : (N : ℚ) < 16777216 := lt_of_mul_lt_mul_right h1 hpow.le
      exact_mod_cast this
    obtain ⟨M, hM⟩ := Int.eq_ofNat_of_zero_le hNpos.le
    have hnat : 7 * k = M * 2 ^ e := by
      have : (7 : ℚ) * (k : ℚ) = (M : ℚ) * 2 ^ e := by
        rw [hN, hM]
        push_cast
        ring
      exact_mod_cast this
    have hdvd : 7 ∣ M := by
      have hc : Nat.Coprime 7 (2 ^ e) := Nat.Coprime.pow_right e (by norm_num)
      exact hc.dvd_of_dvd_mul_right (Dvd.intro k hnat)
    obtain ⟨M', hM'⟩ := hdvd
    have hk : k = M' * 2 ^ e := by
      have : 7 * k = 7 * (M' * 2 ^ e) := by rw [hnat, hM']; ring
      omega
    have hM'lt : M' < 16777216 := by
      have : (M : ℤ) < 16777216 := by rw [← hM]; exact hNlt
      omega
    have := rnd_of_rep (M' : ℤ) (e : ℤ) (by rw [abs_lt]; constructor <;> omega) (by omega)
    rw [hk]
    push_cast at this ⊢
    rw [zpow_natCast] at this
    exact this

/-- At an elapsed time that is exactly `7 k` the loop count is `k` and the local age is
0, whatever the magnitude. -/
theorem birth_core (k : ℕ) (h : rnd (7 * (k : ℚ)) = 7 * (k : ℚ)) :
    floor (div (7 * (k : ℚ)) 7) = (k : ℚ) ∧ mod (7 * (k : ℚ)) 7 = 0 := by
  have hd : div (7 * (k : ℚ)) 7 = (k : ℚ) := by
    unfold div
    rw [mul_div_cancel_left₀ _ (by norm_num : (7 : ℚ) ≠ 0)]
    exact fixed_of_seven_mul k h
  have hf : floor ((k : ℚ)) = (k : ℚ) := by
    have := floor_intCast (k : ℤ)
    exact_mod_cast this
  refine ⟨by rw [hd, hf], ?_⟩
  unfold mod
  rw [hd, hf]
  unfold mul sub
  rw [h, sub_self, rnd_zero]

end F32

/-! ## The animator in binary32: the local age -/

namespace Binary32

namespace VertexShader

open F32

theorem TOTAL_LIFETIME_eq : TOTAL_LIFETIME = 7 := by
  unfold TOTAL_LIFETIME
  norm_num
  exact rnd_seven

theorem MAX_LIFETIME_eq : MAX_LIFETIME = 5 := by
  unfold MAX_LIFETIME
  norm_num
  exact rnd_five

theorem CAMERA_Z_eq : CAMERA_Z = 5 := by
  unfold CAMERA_Z
  norm_num
  exact rnd_five

theorem GRAVITY_DELAY_eq : GRAVITY_DELAY = 3 / 2 := by
  unfold GRAVITY_DELAY
  norm_num
  exact rnd_three_halves

theorem SPEED_eq : SPEED = 9227469 / 8388608 := by
  unfold SPEED
  exact rnd_eval 0 9227469 (by norm_num)

theorem GRAVITY_ACCEL_eq : GRAVITY_ACCEL = 13421773 / 16777216 := by
  unfold GRAVITY_ACCEL
  exact rnd_eval (-1) 13421773 (by norm_num)

theorem time_since_start_nonneg {s t : ℚ} (h : s ≤ t) : 0 ≤ time_since_start t s :=
  sub_nonneg_of_le h

/-- For an elapsed time in `[0, 2^24)` steps 2 and 3 are exact: `loop_count` is the floor
of `elapsed / 7` and `localTime` is `elapsed - 7 * loop_count`. -/
theorem loop_exact (s t : ℚ) (h0 : 0 ≤ time_since_start t s)
    (hlt : time_since_start t s < 16777216) :
    loop_count t s = ((⌊time_since_start t s / 7⌋ : ℤ) : ℚ)
      ∧ localTime t s
          = time_since_start t s - 7 * ((⌊time_since_start t s / 7⌋ : ℤ) : ℚ) := by
  unfold loop_count localTime
  rw [TOTAL_LIFETIME_eq]
  exact mod_seven_exact (sub_fixed t s) h0 hlt

/-- For an elapsed time in `[0, 29360134)` the local age lies in `[0, 7)`. -/
theorem localTime_range (s t : ℚ) (h0 : 0 ≤ time_since_start t s)
    (hlt : time_since_start t s < 29360134) :
    0 ≤ localTime t s ∧ localTime t s < 7 := by
  unfold localTime
  rw [TOTAL_LIFETIME_eq]
  exact mod_seven_range (sub_fixed t s) h0 hlt

/-- The frame at global time 29360134 of a group with start time 0: step 2 gives
4194305 and step 3 gives `-2`. -/
theorem late_frame :
    rnd 29360134 = 29360134 ∧ loop_count 29360134 0 = 4194305
      ∧ localTime 29360134 0 = -2 := by
  have hx : rnd 29360134 = 29360134 := rnd_eval 24 14680067 (by norm_num)
  have h1 : time_since_start 29360134 0 = 29360134 := by
    unfold time_since_start sub
    norm_num
    exact hx
  have h2 : div 29360134 7 = 4194305 := rnd_eval 22 8388610 (by norm_num)
  have h3 : floor (4194305 : ℚ) = 4194305 := by
    have := floor_intCast 4194305
    exact_mod_cast this
  have h4 : mul 7 4194305 = 29360136 := by
    unfold mul
    norm_num
    exact rnd_eval_tie 24 14680067 14680068 (by norm_num) (by decide)
  have h5 : sub 29360134 29360136 = -2 := by
    unfold sub
    norm_num
    exact rnd_neg_two
  have hlc : loop_count 29360134 0 = 4194305 := by
    unfold loop_count
    rw [h1, TOTAL_LIFETIME_eq, h2, h3]
  have hlt : localTime 29360134 0 = -2 := by
    unfold localTime mod
    rw [h1, TOTAL_LIFETIME_eq, h2, h3, h4, h5]
  exact ⟨hx, hlc, hlt⟩

/-- C1 as stated fails in binary32.  With start time 0 and global time 29360134 (both
binary32 numbers, `t ≥ s`): `t / 7` rounds up to 4194305, `7 * 4194305 = 29360135` is
half-way between two binary32 numbers and rounds to 29360136, so `localTime = -2`,
outside `[0, 7)`. -/
theorem C1_localTime_negative :
    rnd 29360134 = 29360134 ∧ (0 : ℚ) ≤ 29360134
      ∧ loop_count 29360134 0 = 4194305
      ∧ localTime 29360134 0 = -2
      ∧ ¬ (0 ≤ localTime 29360134 0) := by
  obtain ⟨hx, hlc, hlt⟩ := late_frame
  refine ⟨hx, by norm_num, hlc, hlt, ?_⟩
  rw [hlt]
  norm_num

/-- C1, amended: for every start time `s` and global time `t ≥ s` whose elapsed time,
as the shader computes it, is below 29360134 (the smallest elapsed time at which the
claim fails), the local age `localTime = mod(t - s, 7.0)`, computed as
`(t - s) - 7.0 * floor((t - s) / 7.0)`, satisfies `0 ≤ localTime < 7.0`, with
`7.0 = TOTAL_LIFETIME`; below `2^24` it is the exact remainder
`elapsed - 7 * floor(elapsed / 7)`. -/
theorem C1_localTime_range (s t : ℚ) (hst : s ≤ t) (hlt : time_since_start t s < 29360134) :
    localTime t s = mod (sub t s) (rnd 7.0)
      ∧ mod (sub t s) (rnd 7.0)
          = sub (sub t s) (mul (rnd 7.0) (floor (div (sub t s) (rnd 7.0))))
      ∧ 0 ≤ localTime t s ∧ localTime t s < 7
      ∧ TOTAL_LIFETIME = 7
      ∧ (time_since_start t s < 16777216 →
          localTime t s = sub t s - 7 * ((⌊sub t s / 7⌋ : ℤ) : ℚ)) :=
  ⟨rfl, rfl, (localTime_range s t (time_since_start_nonneg hst) hlt).1,
    (localTime_range s t (time_since_start_nonneg hst) hlt).2, TOTAL_LIFETIME_eq,
    fun h => (loop_exact s t (time_since_start_nonneg hst) h).2⟩

/-- C1, amended, at start time 2 and global time 12.5: the elapsed time is 10.5 and the
local age is 3.5. -/
theorem C1_localTime_range_witness :
    (2 : ℚ) ≤ 12.5 ∧ time_since_start 12.5 2 < 29360134
      ∧ localTime 12.5 2 = 3.5 := by
  have h1 : time_since_start 12.5 2 = 21 / 2 := by
    unfold time_since_start sub
    norm_num
    have := rnd_of_rep 21 (-1) (by norm_num) (by norm_num)
    norm_num at this
    exact this
  have hst : (2 : ℚ) ≤ 12.5 := by norm_num
  have hlt : time_since_start 12.5 2 < 29360134 := by
    rw [h1]
    norm_num
  have h := C1_localTime_range 2 12.5 hst hlt
  have hfl : ⌊(21 / 2 : ℚ) / 7⌋ = 1 := by
    rw [Int.floor_eq_iff]
    norm_num
  have h1' : sub 12.5 2 = 21 / 2 := h1
  refine ⟨hst, hlt, ?_⟩
  rw [h.2.2.2.2.2 (by rw [h1]; norm_num), h1', hfl]
  norm_num

/-! ## The animator in binary32: the hash and the re-seeded origin -/

theorem isHidden_main_iff (sin : ℚ → ℚ) (m : mat4 ℚ)
    (a : FireworkDance.VertexShader.Attribs ℚ) (t : ℚ) :
    isHidden (main sin m a t) ↔ localTime t a.a_startTime > MAX_LIFETIME := by
  unfold main
  by_cases h : localTime t a.a_startTime > MAX_LIFETIME
  · simp [h, isHidden]
  · simp [h, isHidden]

theorem main_v_alpha (sin : ℚ → ℚ) (m : mat4 ℚ) (a : FireworkDance.VertexShader.Attribs ℚ)
    (t : ℚ) (h : localTime t a.a_startTime ≤ MAX_LIFETIME) :
    (main sin m a t).v_alpha = some (alpha (localTime t a.a_startTime)) := by
  unfold main
  simp [not_lt.2 h]

theorem main_v_color (sin : ℚ → ℚ) (m : mat4 ℚ) (a : FireworkDance.VertexShader.Attribs ℚ)
    (t : ℚ) (h : localTime t a.a_startTime ≤ MAX_LIFETIME) :
    (main sin m a t).v_color
      = some (new_color sin a.a_color (loop_count t a.a_startTime)) := by
  unfold main
  simp [not_lt.2 h]

theorem main_gl_PointSize (sin : ℚ → ℚ) (m : mat4 ℚ)
    (a : FireworkDance.VertexShader.Attribs ℚ) (t : ℚ)
    (h : localTime t a.a_startTime ≤ MAX_LIFETIME) :
    (main sin m a t).gl_PointSize
      = some (pointSize (localTime t a.a_startTime) (position sin a t)) := by
  unfold main
  simp [not_lt.2 h]

theorem hash3_range (sin : ℚ → ℚ) (v : Vec3 ℚ) :
    (0 ≤ (hash3 sin v).x ∧ (hash3 sin v).x ≤ 1)
      ∧ (0 ≤ (hash3 sin v).y ∧ (hash3 sin v).y ≤ 1)
      ∧ (0 ≤ (hash3 sin v).z ∧ (hash3 sin v).z ≤ 1) := by
  simp only [hash3]
  exact ⟨⟨fract_nonneg _, fract_le_one _⟩, ⟨fract_nonneg _, fract_le_one _⟩,
    ⟨fract_nonneg _, fract_le_one _⟩⟩

/-- The remap `h * c - d` of a hash channel `h ∈ [0,1]`, for binary32 constants
`c ≥ 0`, `d` and binary32 bounds. -/
theorem remap_range {h c d lo hi : ℚ} (h0 : 0 ≤ h) (h1 : h ≤ 1) (hc : 0 ≤ c)
    (hlo : rnd lo = lo) (hhi : rnd hi = hi) (hmul : rnd c = c)
    (elo : lo = -d) (ehi : hi = c - d) :
    lo ≤ sub (mul h c) d ∧ sub (mul h c) d ≤ hi := by
  have hm0 : 0 ≤ mul h c := rnd_nonneg (mul_nonneg h0 hc)
  have hm1 : mul h c ≤ c := rnd_le_of_le_fixed hmul (by nlinarith)
  unfold sub
  constructor
  · exact le_rnd_of_fixed_le hlo (by linarith)
  · exact rnd_le_of_le_fixed hhi (by linarith)

theorem new_origin_range (sin : ℚ → ℚ) (o : Vec3 ℚ) (k : ℚ) :
    (-3 ≤ (new_origin sin o k).x ∧ (new_origin sin o k).x ≤ 3)
      ∧ (-2 ≤ (new_origin sin o k).y ∧ (new_origin sin o k).y ≤ 2)
      ∧ (-5 ≤ (new_origin sin o k).z ∧ (new_origin sin o k).z ≤ -2) := by
  obtain ⟨⟨hx0, hx1⟩, ⟨hy0, hy1⟩, ⟨hz0, hz1⟩⟩ := hash3_range sin (loop_seed o k)
  have e6 : rnd 6.0 = 6 := by norm_num; exact rnd_six
  have e4 : rnd 4.0 = 4 := by norm_num; exact rnd_four
  have e3 : rnd 3.0 = 3 := by norm_num; exact rnd_three
  have e2 : rnd 2.0 = 2 := by norm_num; exact rnd_two
  have em3 : rnd (-3.0) = -3 := by norm_num; exact rnd_neg_three
  have r5 : rnd (-5) = -5 := by
    rw [rnd_neg, rnd_five]
  simp only [new_origin, e6, e4, e3, e2, em3]
  refine ⟨remap_range hx0 hx1 (by norm_num) rnd_neg_three rnd_three rnd_six (by norm_num)
      (by norm_num),
    remap_range hy0 hy1 (by norm_num) rnd_neg_two rnd_two rnd_four (by norm_num)
      (by norm_num), ?_⟩
  -- the z channel is scaled by the negative constant -3
  have hm0 : mul (hash3 sin (loop_seed o k)).z (-3) ≤ 0 :=
    rnd_nonpos (by nlinarith)
  have hm1 : -3 ≤ mul (hash3 sin (loop_seed o k)).z (-3) :=
    le_rnd_of_fixed_le rnd_neg_three (by nlinarith)
  unfold sub
  constructor
  · exact le_rnd_of_fixed_le r5 (by linarith)
  · exact rnd_le_of_le_fixed rnd_neg_two (by linarith)

theorem fract_tiny_neg {a : ℚ} (h1 : -(1 / 2 ^ 26) ≤ a) (h2 : a < 0) : fract a = 1 := by
  have hf : ⌊a⌋ = -1 := by
    rw [Int.floor_eq_iff]
    push_cast
    constructor
    · have : (0 : ℚ) < 1 / 2 ^ 26 := by positivity
      have : (1 : ℚ) / 2 ^ 26 ≤ 1 := by norm_num
      linarith
    · linarith
  have hlow : rnd (1 - 1 / 2 ^ 26) = 1 := rnd_eval (-1) 16777216 (by norm_num)
  unfold fract sub floor
  rw [hf]
  apply le_antisymm
  · exact rnd_le_of_le_fixed rnd_one (by push_cast; linarith)
  · have := rnd_mono (show (1 : ℚ) - 1 / 2 ^ 26 ≤ a - ((-1 : ℤ) : ℚ) by push_cast; linarith)
    rwa [hlow] at this

theorem hash_channel_tiny (sin : ℚ → ℚ)
    (hsin : ∀ x : ℚ, -(1 / 2 ^ 61) ≤ x → x ≤ -(1 / 2 ^ 70) → sin x = x)
    (c cy cz : ℚ) (hc1 : 1 ≤ c) (hc2 : c ≤ 512) :
    fract (mul (sin (dot ⟨-(1 / 2 ^ 70), 0, 0⟩ ⟨c, cy, cz⟩))
        (rnd 43758.5453123)) = 1 := by
  have r70 : rnd (-(1 / 2 ^ 70)) = -(1 / 2 ^ 70) := by
    have := rnd_of_rep (-1) (-70) (by norm_num) (by norm_num)
    norm_num at this ⊢
    exact this
  have r61 : rnd (-(1 / 2 ^ 61)) = -(1 / 2 ^ 61) := by
    have := rnd_of_rep (-1) (-61) (by norm_num) (by norm_num)
    norm_num at this ⊢
    exact this
  have r45 : rnd (-(1 / 2 ^ 45)) = -(1 / 2 ^ 45) := by
    have := rnd_of_rep (-1) (-45) (by norm_num) (by norm_num)
    norm_num at this ⊢
    exact this
  have hK : rnd 43758.5453123 = 2800547 / 64 := rnd_eval 15 11202188 (by norm_num)
  -- the dot product is the first product, the other two terms are zero
  have hd : dot ⟨-(1 / 2 ^ 70), 0, 0⟩ ⟨c, cy, cz⟩ = mul (-(1 / 2 ^ 70)) c := by
    simp only [dot, mul_zero_left]
    unfold add
    rw [add_zero, add_zero]
    unfold mul
    rw [rnd_idem, rnd_idem]
  have hp1 : mul (-(1 / 2 ^ 70)) c ≤ -(1 / 2 ^ 70) := by
    unfold mul
    apply rnd_le_of_le_fixed r70
    have : (0 : ℚ) < 1 / 2 ^ 70 := by positivity
    nlinarith
  have hp2 : -(1 / 2 ^ 61) ≤ mul (-(1 / 2 ^ 70)) c := by
    unfold mul
    apply le_rnd_of_fixed_le r61
    have e : (1 : ℚ) / 2 ^ 61 = 512 * (1 / 2 ^ 70) := by norm_num
    have : (0 : ℚ) < 1 / 2 ^ 70 := by positivity
    rw [e]
    nlinarith
  rw [hd, hsin _ hp2 hp1, hK]
  apply fract_tiny_neg
  · unfold mul
    have h45 : -(1 / 2 ^ 45) ≤ rnd (rnd (-(1 / 2 ^ 70) * c) * (2800547 / 64)) := by
      apply le_rnd_of_fixed_le r45
      have e : (1 : ℚ) / 2 ^ 45 = 65536 * (1 / 2 ^ 61) := by norm_num
      have hp2' : -(1 / 2 ^ 61) ≤ rnd (-(1 / 2 ^ 70) * c) := hp2
      have : (0 : ℚ) < 1 / 2 ^ 61 := by positivity
      rw [e]
      nlinarith
    have : (1 : ℚ) / 2 ^ 45 ≤ 1 / 2 ^ 26 := by norm_num
    linarith
  · unfold mul
    have h70 : rnd (rnd (-(1 / 2 ^ 70) * c) * (2800547 / 64)) ≤ -(1 / 2 ^ 70) := by
      apply rnd_le_of_le_fixed r70
      have hp1' : rnd (-(1 / 2 ^ 70) * c) ≤ -(1 / 2 ^ 70) := hp1
      have : (0 : ℚ) < 1 / 2 ^ 70 := by positivity
      nlinarith
    have : (0 : ℚ) < 1 / 2 ^ 70 := by positivity
    linarith

theorem rnd_bounds_of_bounds {x lo hi : ℚ} (hlo : rnd lo = lo) (hhi : rnd hi = hi)
    (h1 : lo ≤ x) (h2 : x ≤ hi) : lo ≤ rnd x ∧ rnd x ≤ hi :=
  ⟨le_rnd_of_fixed_le hlo h1, rnd_le_of_le_fixed hhi h2⟩

/-- C5 as stated fails in binary32: `fract` of a negative number of tiny magnitude is
`1 + x` rounded, which is exactly 1.  For the seed `(-2^-70, 0, 0)` the three dot
products lie in `[-2^-61, -2^-70]`; for every `sin` that returns its argument there (the
binary32 sine of a number that small is that number), in particular for the identity,
every channel of `hash3` is exactly 1, not below 1. -/
theorem C5_hash_reaches_one :
    (∀ sin : ℚ → ℚ, (∀ x : ℚ, -(1 / 2 ^ 61) ≤ x → x ≤ -(1 / 2 ^ 70) → sin x = x) →
        hash3 sin ⟨-(1 / 2 ^ 70), 0, 0⟩ = ⟨1, 1, 1⟩)
      ∧ hash3 (fun x => x) ⟨-(1 / 2 ^ 70), 0, 0⟩ = ⟨1, 1, 1⟩
      ∧ ¬ ((hash3 (fun x => x) ⟨-(1 / 2 ^ 70), 0, 0⟩).x < 1) := by
  have r512 : rnd 512 = 512 := by
    have := rnd_natCast 512 (by norm_num)
    exact_mod_cast this
  have b1 := rnd_bounds_of_bounds (x := 127.1) rnd_one r512 (by norm_num) (by norm_num)
  have b2 := rnd_bounds_of_bounds (x := 269.5) rnd_one r512 (by norm_num) (by norm_num)
  have b3 := rnd_bounds_of_bounds (x := 113.5) rnd_one r512 (by norm_num) (by norm_num)
  have hall : ∀ sin : ℚ → ℚ,
      (∀ x : ℚ, -(1 / 2 ^ 61) ≤ x → x ≤ -(1 / 2 ^ 70) → sin x = x) →
        hash3 sin ⟨-(1 / 2 ^ 70), 0, 0⟩ = ⟨1, 1, 1⟩ := by
    intro sin hsin
    unfold hash3
    rw [hash_channel_tiny sin hsin _ _ _ b1.1 b1.2, hash_channel_tiny sin hsin _ _ _ b2.1 b2.2,
      hash_channel_tiny sin hsin _ _ _ b3.1 b3.2]
  have h := hall (fun x => x) (fun _ _ _ => rfl)
  refine ⟨hall, h, ?_⟩
  rw [h]
  norm_num

/-- C5, amended: for every seed origin, seed colour and loop count, and every value the
built-in `sin` returns, every channel of `hash3` lies in the closed interval `[0,1]`;
the re-seeded origin has `x ∈ [-3,3]`, `y ∈ [-2,2]`, `z ∈ [-5,-2]` with
`z = hash.z * -3 - 2`, and every channel of the re-seeded colour lies in `[0,1]`. -/
theorem C5_reseed_ranges (sin : ℚ → ℚ) (v a_origin a_color : Vec3 ℚ) (loops : ℚ) :
    ((0 ≤ (hash3 sin v).x ∧ (hash3 sin v).x ≤ 1)
        ∧ (0 ≤ (hash3 sin v).y ∧ (hash3 sin v).y ≤ 1)
        ∧ (0 ≤ (hash3 sin v).z ∧ (hash3 sin v).z ≤ 1))
      ∧ (-3 ≤ (new_origin sin a_origin loops).x ∧ (new_origin sin a_origin loops).x ≤ 3)
      ∧ (-2 ≤ (new_origin sin a_origin loops).y ∧ (new_origin sin a_origin loops).y ≤ 2)
      ∧ (-5 ≤ (new_origin sin a_origin loops).z ∧ (new_origin sin a_origin loops).z ≤ -2)
      ∧ (new_origin sin a_origin loops).z
          = sub (mul (hash3 sin (loop_seed a_origin loops)).z (rnd (-3.0))) (rnd 2.0)
      ∧ (0 ≤ (new_color sin a_color loops).x ∧ (new_color sin a_color loops).x ≤ 1)
      ∧ (0 ≤ (new_color sin a_color loops).y ∧ (new_color sin a_color loops).y ≤ 1)
      ∧ (0 ≤ (new_color sin a_color loops).z ∧ (new_color sin a_color loops).z ≤ 1) := by
  obtain ⟨hx, hy, hz⟩ := new_origin_range sin a_origin loops
  obtain ⟨cx, cy, cz⟩ := hash3_range sin (loop_seed a_color loops)
  exact ⟨hash3_range sin v, hx, hy, hz, rfl, cx, cy, cz⟩

/-! ## The animator in binary32: loop rollover -/

/-- C14 as stated fails in binary32.  With `s = 13421871/2^27` (about 0.1) and
`t = 3722445/2^19` (about 7.1), `t + 7` is again a binary32 number; `t - s` rounds to
`6.9999995..`, so `loop_count(t) = 0`, while `(t + 7) - s` rounds to exactly 14, so
`loop_count(t + 7) = 2`, not `loop_count(t) + 1 = 1`. -/
theorem C14_rollover_fails :
    rnd (13421871 / 134217728) = 13421871 / 134217728
      ∧ rnd (3722445 / 524288) = 3722445 / 524288
      ∧ rnd (3722445 / 524288 + 7) = 3722445 / 524288 + 7
      ∧ loop_count (3722445 / 524288 + 7) (13421871 / 134217728) = 2
      ∧ loop_count (3722445 / 524288) (13421871 / 134217728) + 1 = 1
      ∧ loop_count (3722445 / 524288 + 7) (13421871 / 134217728)
          ≠ loop_count (3722445 / 524288) (13421871 / 134217728) + 1 := by
  have hs : rnd (13421871 / 134217728) = 13421871 / 134217728 :=
    rnd_eval (-4) 13421871 (by norm_num)
  have ht : rnd (3722445 / 524288) = 3722445 / 524288 := rnd_eval 2 14889780 (by norm_num)
  have ht7 : rnd (3722445 / 524288 + 7) = 3722445 / 524288 + 7 :=
    rnd_eval 3 14784922 (by norm_num)
  have h1 : time_since_start (3722445 / 524288) (13421871 / 134217728)
      = 14680063 / 2097152 := by
    unfold time_since_start sub
    exact rnd_eval 2 14680063 (by norm_num)
  have h2 : div (14680063 / 2097152) 7 = 16777215 / 16777216 :=
    rnd_eval (-1) 16777215 (by norm_num)
  have h3 : time_since_start (3722445 / 524288 + 7) (13421871 / 134217728) = 14 := by
    unfold time_since_start sub
    exact rnd_eval 3 14680064 (by norm_num)
  have h4 : div 14 7 = 2 := by
    unfold div
    norm_num
    exact rnd_two
  have hl7 : loop_count (3722445 / 524288 + 7) (13421871 / 134217728) = 2 := by
    unfold loop_count
    rw [h3, TOTAL_LIFETIME_eq, h4]
    unfold floor
    norm_num
  have hl : loop_count (3722445 / 524288) (13421871 / 134217728) + 1 = 1 := by
    unfold loop_count
    rw [h1, TOTAL_LIFETIME_eq, h2]
    unfold floor
    norm_num
  refine ⟨hs, ht, ht7, hl7, hl, ?_⟩
  rw [hl7, hl]
  norm_num

theorem loop_zero : loop_count 0 0 = 0 ∧ localTime 0 0 = 0 := by
  have h1 : time_since_start 0 0 = 0 := by
    unfold time_since_start sub
    rw [sub_zero, rnd_zero]
  have h := loop_exact 0 0 (by rw [h1]) (by rw [h1]; norm_num)
  rw [h1] at h
  norm_num at h
  exact h

theorem loop_seven : loop_count 7 0 = 1 ∧ localTime 7 0 = 0 := by
  have h1 : time_since_start 7 0 = 7 := by
    unfold time_since_start sub
    rw [sub_zero, rnd_seven]
  have h := loop_exact 0 7 (by rw [h1]; norm_num) (by rw [h1]; norm_num)
  rw [h1] at h
  norm_num at h
  exact h

/-- Steps 1 to 3 on two frames whose computed elapsed times differ by exactly 7. -/
theorem rollover (s t : ℚ)
    (hshift : time_since_start (t + 7) s = time_since_start t s + 7) :
    loop_count (t + 7) s = loop_count t s + 1
      ∧ localTime (t + 7) s = localTime t s
      ∧ time_since_start t s = 7 * loop_count t s + localTime t s := by
  have hx : rnd (time_since_start t s) = time_since_start t s := sub_fixed t s
  have hx7 : rnd (time_since_start t s + 7) = time_since_start t s + 7 := by
    rw [← hshift]
    exact sub_fixed (t + 7) s
  have h := rollover_core hx hx7
  unfold loop_count localTime
  rw [TOTAL_LIFETIME_eq, hshift]
  exact h

/-- C14, amended: loop rollover holds whenever the shader's subtraction commits no
rounding error across the shift.  For every start time `s` and global time `t` whose
elapsed times, as computed, satisfy `elapsed(t + 7.0) = elapsed(t) + 7`:
`loop_count(t + 7.0) = loop_count(t) + 1`, `localTime(t + 7.0) = localTime(t)` and
`elapsed(t) = 7.0 * loop_count + localTime`; the last equation also holds whenever
`0 ≤ elapsed(t) < 2^24`; with `s = 0` the evaluation at `t = 7.0` has `loop_count = 1`,
`localTime = 0`, and the one at `t = 0` has both 0. -/
theorem C14_loop_rollover (s t : ℚ) :
    (time_since_start (t + 7) s = time_since_start t s + 7 →
        loop_count (t + 7) s = loop_count t s + 1
          ∧ localTime (t + 7) s = localTime t s
          ∧ time_since_start t s = 7 * loop_count t s + localTime t s)
      ∧ (0 ≤ time_since_start t s → time_since_start t s < 16777216 →
          time_since_start t s = 7 * loop_count t s + localTime t s)
      ∧ loop_count 7 0 = 1 ∧ localTime 7 0 = 0
      ∧ loop_count 0 0 = 0 ∧ localTime 0 0 = 0 := by
  refine ⟨rollover s t, ?_, loop_seven.1, loop_seven.2, loop_zero.1, loop_zero.2⟩
  intro h0 hlt
  obtain ⟨hc, hl⟩ := loop_exact s t h0 hlt
  rw [hc, hl]
  ring

/-- C14, amended, at start time 1 and global time 3: the elapsed times are 2 and 9. -/
theorem C14_loop_rollover_witness :
    time_since_start (3 + 7) 1 = time_since_start 3 1 + 7
      ∧ loop_count (3 + 7) 1 = loop_count 3 1 + 1
      ∧ localTime (3 + 7) 1 = localTime 3 1 := by
  have h1 : time_since_start 3 1 = 2 := by
    unfold time_since_start sub
    norm_num
    exact rnd_two
  have h2 : time_since_start (3 + 7) 1 = 9 := by
    unfold time_since_start sub
    norm_num
    have := rnd_natCast 9 (by norm_num)
    exact_mod_cast this
  have a1 : time_since_start (3 + 7) 1 = time_since_start 3 1 + 7 := by
    rw [h1, h2]
    norm_num
  have h := (C14_loop_rollover 1 3).1 a1
  exact ⟨a1, h.1, h.2.1⟩

end VertexShader

end Binary32

/-! ## The animator in binary32: birth instants -/

namespace F32

theorem add_zero_fixed {x : ℚ} (h : rnd x = x) : add x 0 = x := by
  unfold add
  rw [add_zero, h]

theorem sub_zero_fixed {x : ℚ} (h : rnd x = x) : sub x 0 = x := by
  unfold sub
  rw [sub_zero, h]

theorem rnd_fifth : rnd (1 / 5) = 13421773 / 67108864 :=
  rnd_eval (-3) 13421773 (by norm_num)

theorem rnd_seven_halves : rnd (7 / 2) = 7 / 2 := by
  have := rnd_of_rep 7 (-1) (by norm_num) (by norm_num)
  norm_num at this
  exact this

theorem rnd_eleven_halves : rnd (11 / 2) = 11 / 2 := by
  have := rnd_of_rep 11 (-1) (by norm_num) (by norm_num)
  norm_num at this
  exact this

end F32

namespace Binary32

namespace VertexShader

open F32

/-- The frame at global time 16777230 of a group with start time 1: the elapsed time
16777229 rounds to 16777228, step 2 gives 2396746 and step 3 gives 6. -/
theorem birth_frame :
    rnd 16777230 = 16777230 ∧ loop_count 16777230 1 = 2396746
      ∧ localTime 16777230 1 = 6 := by
  have hx : rnd 16777230 = 16777230 := rnd_eval 24 8388615 (by norm_num)
  have h1 : time_since_start 16777230 1 = 16777228 := by
    unfold time_since_start sub
    norm_num
    exact rnd_eval_tie 24 8388614 8388614 (by norm_num) (by decide)
  have h2 : div 16777228 7 = 9586987 / 4 := rnd_eval 21 9586987 (by norm_num)
  have h3 : floor (9586987 / 4 : ℚ) = 2396746 := by
    unfold floor
    have : ⌊(9586987 / 4 : ℚ)⌋ = 2396746 := by
      rw [Int.floor_eq_iff]
      norm_num
    rw [this]
    norm_num
  have h4 : mul 7 2396746 = 16777222 := by
    unfold mul
    norm_num
    exact rnd_eval 24 8388611 (by norm_num)
  have h5 : sub 16777228 16777222 = 6 := by
    unfold sub
    norm_num
    exact rnd_six
  have hlc : loop_count 16777230 1 = 2396746 := by
    unfold loop_count
    rw [h1, TOTAL_LIFETIME_eq, h2, h3]
  have hlt : localTime 16777230 1 = 6 := by
    unfold localTime mod
    rw [h1, TOTAL_LIFETIME_eq, h2, h3, h4, h5]
  exact ⟨hx, hlc, hlt⟩

theorem new_origin_fixed (sin : ℚ → ℚ) (o : Vec3 ℚ) (k : ℚ) :
    rnd (new_origin sin o k).x = (new_origin sin o k).x
      ∧ rnd (new_origin sin o k).y = (new_origin sin o k).y
      ∧ rnd (new_origin sin o k).z = (new_origin sin o k).z := by
  simp only [new_origin]
  exact ⟨sub_fixed _ _, sub_fixed _ _, sub_fixed _ _⟩

theorem gravity_offset_zero : gravity_offset 0 = 0 := by
  unfold gravity_offset
  rw [GRAVITY_DELAY_eq, if_neg (by norm_num)]
  exact rnd_ofScientific_zero

theorem alpha_zero : alpha 0 = 1 := by
  have one : rnd 1.0 = 1 := by norm_num; exact rnd_one
  unfold alpha div sub
  rw [MAX_LIFETIME_eq, one, zero_div, rnd_zero, sub_zero, rnd_one]

theorem alpha_five : alpha 5 = 0 := by
  have one : rnd 1.0 = 1 := by norm_num; exact rnd_one
  unfold alpha div sub
  rw [MAX_LIFETIME_eq, one, div_self (by norm_num), rnd_one, sub_self, rnd_zero]

theorem alpha_antitone {x y : ℚ} (h : x ≤ y) : alpha y ≤ alpha x := by
  unfold alpha div sub
  rw [MAX_LIFETIME_eq]
  apply rnd_mono
  have : rnd (x / 5) ≤ rnd (y / 5) := rnd_mono (by linarith)
  linarith

theorem alpha_range {x : ℚ} (h0 : 0 ≤ x) (h5 : x ≤ 5) : 0 ≤ alpha x ∧ alpha x ≤ 1 := by
  have a := alpha_antitone h0
  have b := alpha_antitone h5
  rw [alpha_zero] at a
  rw [alpha_five] at b
  exact ⟨b, a⟩

theorem alpha_error {x : ℚ} (h0 : 0 ≤ x) (h5 : x ≤ 5) :
    |alpha x - (1 - x / 5)| ≤ 1 / 8388608 := by
  have hq0 : 0 ≤ x / 5 := by positivity
  have hq1 : x / 5 ≤ 1 := by linarith
  have e1 : |rnd (x / 5) - x / 5| ≤ (2 : ℚ) ^ ((0 : ℤ) - 24) :=
    abs_rnd_sub_le (by norm_num) (by rw [abs_of_nonneg hq0]; norm_num; linarith)
  have hd0 : 0 ≤ rnd (x / 5) := rnd_nonneg hq0
  have hd1 : rnd (x / 5) ≤ 1 := rnd_le_of_le_fixed rnd_one hq1
  have e2 : |rnd (1 - rnd (x / 5)) - (1 - rnd (x / 5))| ≤ (2 : ℚ) ^ ((0 : ℤ) - 24) :=
    abs_rnd_sub_le (by norm_num)
      (by rw [abs_of_nonneg (by linarith)]; norm_num; linarith)
  have hp : (2 : ℚ) ^ ((0 : ℤ) - 24) = 1 / 16777216 := by norm_num
  rw [hp] at e1 e2
  have one : rnd 1.0 = 1 := by norm_num; exact rnd_one
  unfold alpha div sub
  rw [MAX_LIFETIME_eq, one]
  rw [abs_le] at e1 e2 ⊢
  constructor <;> linarith [e1.1, e1.2, e2.1, e2.2]

theorem position_at_birth (sin : ℚ → ℚ) (a : FireworkDance.VertexShader.Attribs ℚ) (t : ℚ)
    (h : localTime t a.a_startTime = 0) :
    position sin a t = new_origin sin a.a_origin (loop_count t a.a_startTime) := by
  obtain ⟨fx, fy, fz⟩ := new_origin_fixed sin a.a_origin (loop_count t a.a_startTime)
  simp only [position, h, combine, explosion_pos, explosion_distance, mul_zero_left,
    mul_zero_right, gravity_offset_zero, rnd_ofScientific_zero, add_zero_fixed fx,
    add_zero_fixed fy, add_zero_fixed fz, sub_zero_fixed fx, sub_zero_fixed fy,
    sub_zero_fixed fz]

theorem pointSize_zero (p : Vec3 ℚ) : pointSize 0 p = 0 := by
  unfold pointSize pointSizeNumerator
  rw [mul_zero_left, mul_zero_right]
  unfold div
  rw [zero_div, rnd_zero]

theorem camera_dist_ge {p : Vec3 ℚ} {c : ℚ} (hc : rnd (5 - c) = 5 - c) (h : p.z ≤ c) :
    5 - c ≤ camera_dist p := by
  unfold camera_dist sub
  rw [CAMERA_Z_eq]
  exact le_rnd_of_fixed_le hc (by linarith)

/-- C15 as stated fails in binary32.  For every seed with start time 1 (for instance
with direction `(0, 1, 0)`) and loop `k = 2396747`, the birth instant
`1 + 7 * k = 16777230` is a binary32 number, but the elapsed time `16777229` rounds to
`16777228`; step 2 gives loop `2396746`, step 3 gives local age 6 and the particle is
hidden, whatever `sin` returns. -/
theorem C15_birth_hidden :
    rnd 16777230 = 16777230 ∧ (16777230 : ℚ) = 1 + 7 * 2396747
      ∧ loop_count 16777230 1 = 2396746
      ∧ localTime 16777230 1 = 6
      ∧ (∀ (sin : ℚ → ℚ) (m : mat4 ℚ) (o d c : Vec3 ℚ),
          isHidden (main sin m ⟨o, d, c, 1⟩ 16777230)
            ∧ (main sin m ⟨o, d, c, 1⟩ 16777230).v_alpha ≠ some 1)
      ∧ isHidden (main (fun _ => 0) create_identity ⟨⟨0, 0, 0⟩, ⟨0, 1, 0⟩, ⟨0, 0, 0⟩, 1⟩
          16777230) := by
  obtain ⟨hx, hlc, hlt⟩ := birth_frame
  have hh : ∀ (sin : ℚ → ℚ) (m : mat4 ℚ) (o d c : Vec3 ℚ),
      isHidden (main sin m ⟨o, d, c, 1⟩ 16777230) := by
    intro sin m o d c
    rw [isHidden_main_iff]
    show localTime 16777230 1 > MAX_LIFETIME
    rw [hlt, MAX_LIFETIME_eq]
    norm_num
  refine ⟨hx, by norm_num, hlc, hlt, ?_, hh _ _ _ _ _⟩
  intro sin m o d c
  refine ⟨hh sin m o d c, ?_⟩
  rw [(hh sin m o d c).2.2.2]
  simp

/-- C15, amended: at every frame whose elapsed time, as the shader computes it, is
exactly `7.0 * k` for an integer `k ≥ 0` (with start time 0 every global time `7 k`
below `2^24` is such a frame), for every seed and every direction: the local age is 0
and the loop count `k`, the particle is visible with alpha 1, gravity offset 0 and point
size 0 (the divisor `camera_dist` is at least 7), and its world position equals the
re-seeded origin of loop `k`, in particular `position.y = new_origin.y`. -/
theorem C15_birth_instant (sin : ℚ → ℚ) (m : mat4 ℚ)
    (a : FireworkDance.VertexShader.Attribs ℚ) (t : ℚ) (k : ℕ)
    (hel : time_since_start t a.a_startTime = 7 * (k : ℚ)) :
    localTime t a.a_startTime = 0
      ∧ loop_count t a.a_startTime = k
      ∧ ¬ isHidden (main sin m a t)
      ∧ (main sin m a t).v_alpha = some 1
      ∧ gravity_offset (localTime t a.a_startTime) = 0
      ∧ (main sin m a t).gl_PointSize = some 0
      ∧ 7 ≤ camera_dist (position sin a t)
      ∧ position sin a t = new_origin sin a.a_origin k
      ∧ (position sin a t).y = (new_origin sin a.a_origin k).y
      ∧ (7 * k < 16777216 → time_since_start (7 * (k : ℚ)) 0 = 7 * (k : ℚ)) := by
  have hfix : rnd (7 * (k : ℚ)) = 7 * (k : ℚ) := by
    rw [← hel]
    exact sub_fixed t a.a_startTime
  obtain ⟨hc, hl⟩ := birth_core k hfix
  have hlt : localTime t a.a_startTime = 0 := by
    unfold localTime
    rw [TOTAL_LIFETIME_eq, hel]
    exact hl
  have hlc : loop_count t a.a_startTime = k := by
    unfold loop_count
    rw [TOTAL_LIFETIME_eq, hel]
    exact hc
  have hvis : localTime t a.a_startTime ≤ MAX_LIFETIME := by
    rw [hlt, MAX_LIFETIME_eq]
    norm_num
  have hpos : position sin a t = new_origin sin a.a_origin k := by
    rw [position_at_birth sin a t hlt, hlc]
  have hz := (new_origin_range sin a.a_origin k).2.2.2
  have hcd : 7 ≤ camera_dist (position sin a t) := by
    rw [hpos]
    have := camera_dist_ge (p := new_origin sin a.a_origin k) (c := -2)
      (by norm_num; exact rnd_seven) hz
    norm_num at this
    exact this
  refine ⟨hlt, hlc, ?_, ?_, ?_, ?_, hcd, hpos, by rw [hpos], ?_⟩
  · rw [isHidden_main_iff]
    exact not_lt.2 hvis
  · rw [main_v_alpha sin m a t hvis, hlt, alpha_zero]
  · rw [hlt, gravity_offset_zero]
  · rw [main_gl_PointSize sin m a t hvis, hlt, pointSize_zero]
  · intro hk
    unfold time_since_start sub
    rw [sub_zero]
    have := rnd_natCast (7 * k) hk
    push_cast at this
    exact this

/-- C15, amended, at start time 0, direction `(0, 1, 0)` and global time 0 (`k = 0`). -/
theorem C15_birth_instant_witness :
    time_since_start 0 (0 : ℚ) = 7 * ((0 : ℕ) : ℚ)
      ∧ ¬ isHidden (main (fun _ => 0) create_identity
            ⟨⟨0, 0, 0⟩, ⟨0, 1, 0⟩, ⟨0, 0, 0⟩, 0⟩ 0)
      ∧ (main (fun _ => 0) create_identity
            ⟨⟨0, 0, 0⟩, ⟨0, 1, 0⟩, ⟨0, 0, 0⟩, 0⟩ 0).v_alpha = some 1
      ∧ (position (fun _ => 0) ⟨⟨0, 0, 0⟩, ⟨0, 1, 0⟩, ⟨0, 0, 0⟩, 0⟩ 0).y
          = (new_origin (fun _ => 0) ⟨0, 0, 0⟩ ((0 : ℕ) : ℚ)).y := by
  have hel : time_since_start 0 (0 : ℚ) = 7 * ((0 : ℕ) : ℚ) := by
    unfold time_since_start sub
    norm_num
    exact rnd_zero
  have h := C15_birth_instant (fun _ => 0) create_identity
    ⟨⟨0, 0, 0⟩, ⟨0, 1, 0⟩, ⟨0, 0, 0⟩, 0⟩ 0 0 hel
  exact ⟨hel, h.2.2.1, h.2.2.2.1, h.2.2.2.2.2.2.2.2.1⟩

/-! ## The animator in binary32: alpha -/

theorem hash3_sin_zero (v : Vec3 ℚ) : hash3 (fun _ => 0) v = ⟨0, 0, 0⟩ := by
  have h : fract (mul 0 (rnd 43758.5453123)) = 0 := by
    rw [mul_zero_left]
    unfold fract sub floor
    norm_num
    exact rnd_zero
  simp only [hash3, h]

theorem new_origin_sin_zero (o : Vec3 ℚ) (k : ℚ) :
    new_origin (fun _ => 0) o k = ⟨-3, -2, -2⟩ := by
  have e3 : rnd 3.0 = 3 := by norm_num; exact rnd_three
  have e2 : rnd 2.0 = 2 := by norm_num; exact rnd_two
  have a3 : sub 0 3 = -3 := by
    unfold sub
    norm_num
    exact rnd_neg_three
  have a2 : sub 0 2 = -2 := by
    unfold sub
    norm_num
    exact rnd_neg_two
  simp only [new_origin, hash3_sin_zero, mul_zero_left, e3, e2, a3, a2]

theorem alpha_neg_two : alpha (-2) = 11744051 / 8388608 := by
  have one : rnd 1.0 = 1 := by norm_num; exact rnd_one
  have hd : div (-2) 5 = -(13421773 / 33554432) := by
    unfold div
    rw [show (-2 : ℚ) / 5 = -(2 / 5) by norm_num, rnd_neg]
    congr 1
    exact rnd_eval (-2) 13421773 (by norm_num)
  unfold alpha
  rw [MAX_LIFETIME_eq, one, hd]
  unfold sub
  exact rnd_eval 0 11744051 (by norm_num)

/-- C4 as stated fails in binary32.  For every seed with start time 0, at global time
29360134 (a binary32 number, `t ≥ s`) the local age is `-2`, the evaluation is visible
and the alpha written is `11744051 / 8388608`, about 1.4, greater than 1, whatever `sin`
returns. -/
theorem C4_alpha_above_one :
    rnd 29360134 = 29360134 ∧ (0 : ℚ) ≤ 29360134
      ∧ localTime 29360134 0 ≤ MAX_LIFETIME
      ∧ (∀ (sin : ℚ → ℚ) (m : mat4 ℚ) (o d c : Vec3 ℚ),
          (main sin m ⟨o, d, c, 0⟩ 29360134).v_alpha = some (11744051 / 8388608))
      ∧ (1 : ℚ) < 11744051 / 8388608 := by
  obtain ⟨hx, -, hlt⟩ := late_frame
  have hvis : localTime 29360134 0 ≤ MAX_LIFETIME := by
    rw [hlt, MAX_LIFETIME_eq]
    norm_num
  refine ⟨hx, by norm_num, hvis, ?_, by norm_num⟩
  intro sin m o d c
  have hm := main_v_alpha sin m ⟨o, d, c, 0⟩ 29360134 hvis
  simp only [hlt, alpha_neg_two] at hm
  exact hm

/-- C4, amended: on every visible evaluation (`localTime ≤ 5.0`) whose local age is not
negative (as it is when `start time ≤ global time` and the elapsed time is below
29360134), the alpha written is `1.0 - localTime / 5.0` as binary32 computes it, within
`2^-23` of the exact value, and lies in `[0, 1]`; the function is 1 at 0, 0 at 5.0 and
monotonically non-increasing. -/
theorem C4_alpha (sin : ℚ → ℚ) (m : mat4 ℚ) (a : FireworkDance.VertexShader.Attribs ℚ)
    (t : ℚ) (hvis : localTime t a.a_startTime ≤ MAX_LIFETIME)
    (h0 : 0 ≤ localTime t a.a_startTime) :
    (main sin m a t).v_alpha = some (alpha (localTime t a.a_startTime))
      ∧ alpha (localTime t a.a_startTime)
          = sub (rnd 1.0) (div (localTime t a.a_startTime) (rnd 5.0))
      ∧ |alpha (localTime t a.a_startTime) - (1 - localTime t a.a_startTime / 5)|
          ≤ 1 / 8388608
      ∧ 0 ≤ alpha (localTime t a.a_startTime)
      ∧ alpha (localTime t a.a_startTime) ≤ 1
      ∧ alpha 0 = 1
      ∧ alpha 5 = 0
      ∧ (∀ x y : ℚ, x ≤ y → alpha y ≤ alpha x)
      ∧ (∀ s u : ℚ, s ≤ u → time_since_start u s < 29360134 → 0 ≤ localTime u s) := by
  have h5 : localTime t a.a_startTime ≤ 5 := by
    rw [← MAX_LIFETIME_eq]
    exact hvis
  exact ⟨main_v_alpha sin m a t hvis, rfl, alpha_error h0 h5, (alpha_range h0 h5).1,
    (alpha_range h0 h5).2, alpha_zero, alpha_five, fun _ _ h => alpha_antitone h,
    fun s u hsu hlt => (localTime_range s u (time_since_start_nonneg hsu) hlt).1⟩

/-- C4, amended, at start time 0 and global time 2.5: alpha is 0.5. -/
theorem C4_alpha_witness :
    localTime (5 / 2) 0 ≤ MAX_LIFETIME ∧ 0 ≤ localTime (5 / 2) 0
      ∧ (main (fun _ => 0) create_identity ⟨⟨0, 0, 0⟩, ⟨0, 1, 0⟩, ⟨0, 0, 0⟩, 0⟩
          (5 / 2)).v_alpha = some (1 / 2) := by
  have r52 : rnd (5 / 2) = 5 / 2 := by
    have := rnd_of_rep 5 (-1) (by norm_num) (by norm_num)
    norm_num at this
    exact this
  have h1 : time_since_start (5 / 2) 0 = 5 / 2 := by
    unfold time_since_start sub
    rw [sub_zero, r52]
  have hl := (loop_exact 0 (5 / 2) (by rw [h1]; norm_num) (by rw [h1]; norm_num)).2
  have hfl : ⌊(5 / 2 : ℚ) / 7⌋ = 0 := by
    rw [Int.floor_eq_iff]
    norm_num
  rw [h1, hfl] at hl
  norm_num at hl
  have hvis : localTime (5 / 2) 0 ≤ MAX_LIFETIME := by
    rw [MAX_LIFETIME_eq, hl]
    norm_num
  have h0 : 0 ≤ localTime (5 / 2) 0 := by
    rw [hl]
    norm_num
  have ha : alpha (5 / 2) = 1 / 2 := by
    have one : rnd 1.0 = 1 := by norm_num; exact rnd_one
    unfold alpha div sub
    rw [MAX_LIFETIME_eq, one]
    norm_num
    rw [rnd_half]
    norm_num
    exact rnd_half
  have hm := (C4_alpha (fun _ => 0) create_identity
    ⟨⟨0, 0, 0⟩, ⟨0, 1, 0⟩, ⟨0, 0, 0⟩, 0⟩ (5 / 2) hvis h0).1
  simp only [hl, ha] at hm
  exact ⟨hvis, h0, hm⟩

/-! ## The animator in binary32: the point size -/

theorem five_speed : mul 5 SPEED = 11 / 2 := by
  unfold mul
  rw [SPEED_eq]
  exact rnd_eval 2 11534336 (by norm_num)

theorem explosion_distance_range {lt : ℚ} (h0 : 0 ≤ lt) (h5 : lt ≤ 5) :
    0 ≤ explosion_distance lt ∧ explosion_distance lt ≤ 11 / 2 := by
  have hs : (0 : ℚ) ≤ SPEED := by
    rw [SPEED_eq]
    norm_num
  unfold explosion_distance
  constructor
  · exact rnd_nonneg (mul_nonneg h0 hs)
  · rw [← five_speed]
    exact rnd_mono (mul_le_mul_of_nonneg_right h5 hs)

theorem scaled_range {d e : ℚ} (hd : |d| ≤ 1) (h0 : 0 ≤ e) (h1 : e ≤ 11 / 2) :
    -(11 / 2) ≤ mul d e ∧ mul d e ≤ 11 / 2 := by
  rw [abs_le] at hd
  have r1 : rnd (-(11 / 2)) = -(11 / 2) := by
    rw [rnd_neg, rnd_eleven_halves]
  unfold mul
  constructor
  · exact le_rnd_of_fixed_le r1 (by nlinarith)
  · exact rnd_le_of_le_fixed rnd_eleven_halves (by nlinarith)

theorem position_z_le (sin : ℚ → ℚ) (a : FireworkDance.VertexShader.Attribs ℚ) (t : ℚ)
    (hd : |a.a_direction.z| ≤ 1) (h0 : 0 ≤ localTime t a.a_startTime)
    (h5 : localTime t a.a_startTime ≤ 5) : (position sin a t).z ≤ 7 / 2 := by
  obtain ⟨e0, e1⟩ := explosion_distance_range h0 h5
  have hm := (scaled_range hd e0 e1).2
  have hz := (new_origin_range sin a.a_origin (loop_count t a.a_startTime)).2.2.2
  simp only [position, combine, explosion_pos, rnd_ofScientific_zero]
  unfold sub add
  rw [sub_zero]
  apply rnd_le_of_le_fixed rnd_seven_halves
  exact rnd_le_of_le_fixed rnd_seven_halves (by linarith)

theorem pointSizeNumerator_range {lt : ℚ} (h0 : 0 ≤ lt) (h5 : lt ≤ 5) :
    0 ≤ pointSizeNumerator lt ∧ pointSizeNumerator lt ≤ 50 := by
  have e50 : rnd 50.0 = 50 := by norm_num; exact rnd_fifty
  have e02 : rnd 0.2 = 13421773 / 67108864 := by norm_num; exact rnd_fifth
  have top : rnd (5 * (13421773 / 67108864)) = 1 := rnd_eval 0 8388608 (by norm_num)
  have i0 : 0 ≤ mul lt (13421773 / 67108864) := rnd_nonneg (by positivity)
  have i1 : mul lt (13421773 / 67108864) ≤ 1 := by
    unfold mul
    rw [← top]
    exact rnd_mono (by linarith)
  unfold pointSizeNumerator
  rw [e50, e02]
  constructor
  · exact rnd_nonneg (by positivity)
  · exact rnd_le_of_le_fixed rnd_fifty (by linarith)

theorem pointSizeNumerator_neg_two : pointSizeNumerator (-2) = -20 := by
  have e50 : rnd 50.0 = 50 := by norm_num; exact rnd_fifty
  have e02 : rnd 0.2 = 13421773 / 67108864 := by norm_num; exact rnd_fifth
  unfold pointSizeNumerator
  rw [e50, e02]
  have i1 : mul (-2) (13421773 / 67108864) = -(13421773 / 33554432) := by
    unfold mul
    rw [show (-2 : ℚ) * (13421773 / 67108864) = -(13421773 / 33554432) by norm_num, rnd_neg]
    congr 1
    exact rnd_eval (-2) 13421773 (by norm_num)
  rw [i1]
  unfold mul
  rw [show (50 : ℚ) * -(13421773 / 33554432) = -(50 * (13421773 / 33554432)) by ring,
    rnd_neg]
  congr 1
  exact rnd_eval 4 10485760 (by norm_num)

/-- With direction `(0, 0, 0)` the z coordinate of the position is the re-seeded
origin's. -/
theorem position_z_still (sin : ℚ → ℚ) (o c : Vec3 ℚ) (s t : ℚ) :
    (position sin ⟨o, ⟨0, 0, 0⟩, c, s⟩ t).z = (new_origin sin o (loop_count t s)).z := by
  obtain ⟨-, -, fz⟩ := new_origin_fixed sin o (loop_count t s)
  simp only [position, combine, explosion_pos, mul_zero_left, rnd_ofScientific_zero,
    add_zero_fixed fz, sub_zero_fixed fz]

theorem localTime_fixed (t s : ℚ) : rnd (localTime t s) = localTime t s := by
  unfold localTime mod
  exact sub_fixed _ _

theorem explosion_distance_fixed (lt : ℚ) :
    rnd (explosion_distance lt) = explosion_distance lt := by
  unfold explosion_distance mul
  exact rnd_idem _

/-- The z coordinate of the position is at most the one of a particle that starts at
origin z `-2` and flies straight at the camera. -/
theorem position_z_le_flight (sin : ℚ → ℚ) (a : FireworkDance.VertexShader.Attribs ℚ)
    (t : ℚ) (hd : |a.a_direction.z| ≤ 1) (h0 : 0 ≤ localTime t a.a_startTime) :
    (position sin a t).z ≤ rnd (-2 + explosion_distance (localTime t a.a_startTime)) := by
  have hs : (0 : ℚ) ≤ SPEED := by
    rw [SPEED_eq]
    norm_num
  have e0 : 0 ≤ explosion_distance (localTime t a.a_startTime) :=
    rnd_nonneg (mul_nonneg h0 hs)
  have hz := (new_origin_range sin a.a_origin (loop_count t a.a_startTime)).2.2.2
  have hm : mul a.a_direction.z (explosion_distance (localTime t a.a_startTime))
      ≤ explosion_distance (localTime t a.a_startTime) := by
    apply rnd_le_of_le_fixed (explosion_distance_fixed _)
    have := (abs_le.1 hd).2
    nlinarith
  simp only [position, combine, explosion_pos, rnd_ofScientific_zero]
  unfold sub add
  rw [sub_zero, rnd_idem]
  exact rnd_mono (by linarith)

theorem camera_dist_ge_flight (sin : ℚ → ℚ) (a : FireworkDance.VertexShader.Attribs ℚ)
    (t : ℚ) (hd : |a.a_direction.z| ≤ 1) (h0 : 0 ≤ localTime t a.a_startTime) :
    rnd (5 - rnd (-2 + explosion_distance (localTime t a.a_startTime)))
      ≤ camera_dist (position sin a t) := by
  unfold camera_dist sub
  rw [CAMERA_Z_eq]
  exact rnd_mono (by linarith [position_z_le_flight sin a t hd h0])

/-- Up to local age 4 the flight bound on `camera_dist` is at least 2.5. -/
theorem flight_far {lt : ℚ} (h4 : lt ≤ 4) :
    5 / 2 ≤ rnd (5 - rnd (-2 + explosion_distance lt)) := by
  have r52 : rnd (5 / 2) = 5 / 2 := by
    have := rnd_of_rep 5 (-1) (by norm_num) (by norm_num)
    norm_num at this
    exact this
  have r92 : rnd (9 / 2) = 9 / 2 := by
    have := rnd_of_rep 9 (-1) (by norm_num) (by norm_num)
    norm_num at this
    exact this
  have he : explosion_distance lt ≤ 9 / 2 := by
    unfold explosion_distance mul
    rw [SPEED_eq]
    exact rnd_le_of_le_fixed r92 (by linarith)
  have h1 : rnd (-2 + explosion_distance lt) ≤ 5 / 2 :=
    rnd_le_of_le_fixed r52 (by linarith)
  exact le_rnd_of_fixed_le r52 (by linarith)

/-- From local age 4 on the flight bound on `camera_dist` is computed without
rounding: it is `7 - explosion_distance`. -/
theorem flight_near {lt : ℚ} (h4 : 4 ≤ lt) (h5 : lt ≤ 5) :
    rnd (5 - rnd (-2 + explosion_distance lt)) = 7 - explosion_distance lt := by
  have hlo : 4 ≤ explosion_distance lt := by
    unfold explosion_distance mul
    rw [SPEED_eq]
    exact le_rnd_of_fixed_le rnd_four (by linarith)
  have hhi := (explosion_distance_range (le_trans (by norm_num) h4) h5).2
  obtain ⟨m, hm⟩ := fixed_fine (explosion_distance_fixed lt)
    (by rw [abs_of_nonneg (by linarith)]; exact hlo)
  rw [hm] at hlo hhi ⊢
  have m0 : (8388608 : ℤ) ≤ m := by
    have : (8388608 : ℚ) ≤ (m : ℚ) := by linarith
    exact_mod_cast this
  have m1 : m ≤ (11534336 : ℤ) := by
    have : (m : ℚ) ≤ 11534336 := by linarith
    exact_mod_cast this
  have s1 : rnd (-2 + (m : ℚ) / 2097152) = ((m - 4194304 : ℤ) : ℚ) / 2097152 := by
    have := rnd_of_rep (m - 4194304) (-21) (by rw [abs_lt]; constructor <;> omega)
      (by norm_num)
    have e : (((m - 4194304 : ℤ) : ℚ)) * (2 : ℚ) ^ (-21 : ℤ) = -2 + (m : ℚ) / 2097152 := by
      push_cast
      norm_num
      ring
    rw [e] at this
    rw [this]
    push_cast
    ring
  have s2 : rnd (5 - ((m - 4194304 : ℤ) : ℚ) / 2097152)
      = ((14680064 - m : ℤ) : ℚ) / 2097152 := by
    have := rnd_of_rep (14680064 - m) (-21) (by rw [abs_lt]; constructor <;> omega)
      (by norm_num)
    have e : (((14680064 - m : ℤ) : ℚ)) * (2 : ℚ) ^ (-21 : ℤ)
        = 5 - ((m - 4194304 : ℤ) : ℚ) / 2097152 := by
      push_cast
      norm_num
      ring
    rw [e] at this
    rw [this]
    push_cast
    ring
  rw [s1, s2]
  push_cast
  ring

/-- A camera distance of at least 2.5 keeps the point size within `10 * localTime / 1.5`,
also for the smallest subnormal ages. -/
theorem pointSize_le_far {L : ℚ} {p : Vec3 ℚ} (hL : rnd L = L) (h0 : 0 ≤ L)
    (hcd : 5 / 2 ≤ camera_dist p) : pointSize L p ≤ 10 * L / (3 / 2) := by
  have e50 : rnd 50.0 = 50 := by norm_num; exact rnd_fifty
  have e02 : rnd 0.2 = 13421773 / 67108864 := by norm_num; exact rnd_fifth
  unfold pointSize pointSizeNumerator div mul
  rw [e50, e02]
  have hi0 : 0 ≤ rnd (L * (13421773 / 67108864)) := rnd_nonneg (by positivity)
  have hn0 : 0 ≤ rnd (50 * rnd (L * (13421773 / 67108864))) := rnd_nonneg (by positivity)
  have hq : rnd (50 * rnd (L * (13421773 / 67108864))) / camera_dist p
      ≤ rnd (50 * rnd (L * (13421773 / 67108864))) * (2 / 5) := by
    rw [div_le_iff₀ (by linarith)]
    nlinarith
  have hp := rnd_mono hq
  rcases le_or_lt (5 * (2 : ℚ) ^ (-149 : ℤ)) L with hbig | hsmall
  · have hi := rnd_le_affine (x := L * (13421773 / 67108864)) (by positivity)
    have hn := rnd_le_affine (x := 50 * rnd (L * (13421773 / 67108864))) (by positivity)
    have hr := rnd_le_affine
      (x := rnd (50 * rnd (L * (13421773 / 67108864))) * (2 / 5)) (by positivity)
    norm_num at hbig hi hn hr ⊢
    linarith
  · obtain ⟨n, hn⟩ := fixed_subnormal hL h0 (lt_trans hsmall (by norm_num))
    have n0 : (0 : ℤ) ≤ n := by
      have : (0 : ℚ) ≤ (n : ℚ) := by
        rw [hn] at h0
        exact nonneg_of_mul_nonneg_left h0 (by positivity)
      exact_mod_cast this
    have n5 : n < (5 : ℤ) := by
      have : (n : ℚ) < 5 := by
        rw [hn] at hsmall
        exact lt_of_mul_lt_mul_right hsmall (by positivity)
      exact_mod_cast this
    have r50 : rnd (50 * (2 : ℚ) ^ (-149 : ℤ)) = 50 * (2 : ℚ) ^ (-149 : ℤ) := by
      have := rnd_of_rep 50 (-149) (by norm_num) (by norm_num)
      exact_mod_cast this
    have r20 : rnd (20 * (2 : ℚ) ^ (-149 : ℤ)) = 20 * (2 : ℚ) ^ (-149 : ℤ) := by
      have := rnd_of_rep 20 (-149) (by norm_num) (by norm_num)
      exact_mod_cast this
    have hcase : rnd (L * (13421773 / 67108864)) = 0
        ∨ (rnd (L * (13421773 / 67108864)) = (2 : ℚ) ^ (-149 : ℤ)
            ∧ 3 * (2 : ℚ) ^ (-149 : ℤ) ≤ L) := by
      rw [hn]
      interval_cases n
      · left
        norm_num
        exact rnd_zero
      · left
        exact rnd_eval (-126) 0 (by norm_num)
      · left
        exact rnd_eval (-126) 0 (by norm_num)
      · right
        exact ⟨rnd_eval (-126) 1 (by norm_num), by norm_num⟩
      · right
        exact ⟨rnd_eval (-126) 1 (by norm_num), by norm_num⟩
    rcases hcase with hi | ⟨hi, h3⟩
    · rw [hi, mul_zero, rnd_zero, zero_div, rnd_zero]
      positivity
    · rw [hi, r50] at hp ⊢
      rw [show 50 * (2 : ℚ) ^ (-149 : ℤ) * (2 / 5) = 20 * (2 : ℚ) ^ (-149 : ℤ) by ring,
        r20] at hp
      have : 20 * (2 : ℚ) ^ (-149 : ℤ) ≤ 10 * L / (3 / 2) := by
        rw [le_div_iff₀ (by norm_num)]
        generalize (2 : ℚ) ^ (-149 : ℤ) = u at h3
        linarith
      linarith

/-- The two binary32 ages just below and at 5, where the error bounds are too coarse
and the point size is evaluated step by step. -/
theorem pointSize_le_last {L : ℚ} {p : Vec3 ℚ}
    (hL : L = 10485759 / 2097152 ∨ L = 5)
    (hcd : 7 - explosion_distance L ≤ camera_dist p) :
    pointSize L p ≤ 10 * L / (3 / 2) := by
  have e50 : rnd 50.0 = 50 := by norm_num; exact rnd_fifty
  have e02 : rnd 0.2 = 13421773 / 67108864 := by norm_num; exact rnd_fifth
  unfold explosion_distance mul at hcd
  rw [SPEED_eq] at hcd
  unfold pointSize pointSizeNumerator div mul
  rw [e50, e02]
  rcases hL with rfl | rfl
  · have he : rnd (10485759 / 2097152 * (9227469 / 8388608)) = 11534335 / 2097152 :=
      rnd_eval 2 11534335 (by norm_num)
    have hi : rnd (10485759 / 2097152 * (13421773 / 67108864)) = 16777215 / 16777216 :=
      rnd_eval (-1) 16777215 (by norm_num)
    have hn : rnd (50 * (16777215 / 16777216)) = 13107199 / 262144 :=
      rnd_eval 5 13107199 (by norm_num)
    have hv : rnd (13107199 / 262144 / (3145729 / 2097152)) = 4369065 / 131072 :=
      rnd_eval 5 8738130 (by norm_num)
    rw [he] at hcd
    rw [hi, hn]
    have hq : (13107199 / 262144 : ℚ) / camera_dist p
        ≤ 13107199 / 262144 / (3145729 / 2097152) :=
      div_le_div_of_nonneg_left (by norm_num) (by norm_num) (by linarith)
    have := rnd_mono hq
    rw [hv] at this
    refine le_trans this ?_
    norm_num
  · have he : rnd (5 * (9227469 / 8388608)) = 11 / 2 :=
      rnd_eval 2 11534336 (by norm_num)
    have hi : rnd (5 * (13421773 / 67108864)) = 1 := rnd_eval 0 8388608 (by norm_num)
    have hv : rnd (50 / (3 / 2)) = 8738133 / 262144 := rnd_eval 5 8738133 (by norm_num)
    rw [he] at hcd
    rw [hi, mul_one, rnd_fifty]
    have hq : (50 : ℚ) / camera_dist p ≤ 50 / (3 / 2) :=
      div_le_div_of_nonneg_left (by norm_num) (by norm_num) (by linarith)
    have := rnd_mono hq
    rw [hv] at this
    refine le_trans this ?_
    norm_num

/-- From local age 4 to 5 the flight bound on `camera_dist` keeps the point size within
`10 * localTime / 1.5`. -/
theorem pointSize_le_near {L : ℚ} {p : Vec3 ℚ} (hL : rnd L = L) (h4 : 4 ≤ L) (h5 : L ≤ 5)
    (hcd : 7 - explosion_distance L ≤ camera_dist p) :
    pointSize L p ≤ 10 * L / (3 / 2) := by
  rcases le_or_lt L (5242879 / 1048576) with hmax | hmax
  · have e50 : rnd 50.0 = 50 := by norm_num; exact rnd_fifty
    have e02 : rnd 0.2 = 13421773 / 67108864 := by norm_num; exact rnd_fifth
    obtain ⟨n0, n1⟩ := pointSizeNumerator_range (le_trans (by norm_num) h4) h5
    have ehi := (explosion_distance_range (le_trans (by norm_num) h4) h5).2
    have herr : explosion_distance L ≤ L * (9227469 / 8388608) + 1 / 4194304 := by
      unfold explosion_distance mul
      rw [SPEED_eq]
      have := abs_rnd_sub_le (x := L * (9227469 / 8388608)) (E := 2) (by norm_num)
        (by rw [abs_of_nonneg (by positivity)]; norm_num; linarith)
      have := (abs_le.1 this).2
      norm_num at this
      linarith
    have hi : mul L (13421773 / 67108864) ≤ L * (13421773 / 67108864) + 1 / 16777216 := by
      unfold mul
      have := abs_rnd_sub_le (x := L * (13421773 / 67108864)) (E := 0) (by norm_num)
        (by rw [abs_of_nonneg (by positivity)]; norm_num; linarith)
      have := (abs_le.1 this).2
      norm_num at this
      linarith
    have hi0 : 0 ≤ mul L (13421773 / 67108864) := rnd_nonneg (by positivity)
    have hn : pointSizeNumerator L ≤ 50 * mul L (13421773 / 67108864) + 1 / 524288 := by
      unfold pointSizeNumerator
      rw [e50, e02]
      unfold mul at hi hi0 ⊢
      have := abs_rnd_sub_le (x := 50 * rnd (L * (13421773 / 67108864))) (E := 5)
        (by norm_num) (by rw [abs_of_nonneg (by positivity)]; norm_num; linarith)
      have := (abs_le.1 this).2
      norm_num at this
      linarith
    have hc0 : 3 / 2 ≤ camera_dist p := by linarith
    have hcpos : 0 < camera_dist p := by linarith
    have hquot : pointSizeNumerator L / camera_dist p ≤ 100 / 3 := by
      rw [div_le_iff₀ hcpos]
      linarith
    have hps : pointSize L p ≤ pointSizeNumerator L / camera_dist p + 1 / 524288 := by
      unfold pointSize div
      have := abs_rnd_sub_le (x := pointSizeNumerator L / camera_dist p) (E := 5)
        (by norm_num)
        (by rw [abs_of_nonneg (div_nonneg n0 hcpos.le)]; norm_num; linarith)
      have := (abs_le.1 this).2
      norm_num at this
      linarith
    have key : pointSizeNumerator L ≤ (10 * L / (3 / 2) - 1 / 524288) * camera_dist p := by
      have hD : 7 - L * (9227469 / 8388608) - 1 / 4194304 ≤ camera_dist p := by linarith
      have hA : 0 ≤ 10 * L / (3 / 2) - 1 / 524288 := by
        rw [sub_nonneg, le_div_iff₀ (by norm_num)]
        linarith
      have h1 := mul_nonneg hA (sub_nonneg.2 hD)
      have h2 := mul_nonneg (sub_nonneg.2 h4) (sub_nonneg.2 hmax)
      have hN : pointSizeNumerator L
          ≤ 50 * (L * (13421773 / 67108864) + 1 / 16777216) + 1 / 524288 := by linarith
      nlinarith
    have : pointSizeNumerator L / camera_dist p ≤ 10 * L / (3 / 2) - 1 / 524288 := by
      rw [div_le_iff₀ hcpos]
      exact key
    linarith
  · obtain ⟨n, hn⟩ := fixed_fine hL (by rw [abs_of_nonneg (by linarith)]; exact h4)
    apply pointSize_le_last ?_ hcd
    rw [hn] at hmax h5 ⊢
    have a0 : (10485758 : ℤ) < n := by
      have : (10485758 : ℚ) < (n : ℚ) := by linarith
      exact_mod_cast this
    have a1 : n ≤ (10485760 : ℤ) := by
      have : (n : ℚ) ≤ 10485760 := by linarith
      exact_mod_cast this
    have : n = 10485759 ∨ n = 10485760 := by omega
    rcases this with rfl | rfl
    · left
      norm_num
    · right
      norm_num

/-- The point size of a visible particle with a local age that is not negative is at
most `10 * localTime / 1.5`. -/
theorem pointSize_le (sin : ℚ → ℚ) (a : FireworkDance.VertexShader.Attribs ℚ) (t : ℚ)
    (hd : |a.a_direction.z| ≤ 1) (h0 : 0 ≤ localTime t a.a_startTime)
    (h5 : localTime t a.a_startTime ≤ 5) :
    pointSize (localTime t a.a_startTime) (position sin a t)
      ≤ 10 * localTime t a.a_startTime / (3 / 2) := by
  have hf := camera_dist_ge_flight sin a t hd h0
  rcases le_total (localTime t a.a_startTime) 4 with h4 | h4
  · exact pointSize_le_far (localTime_fixed t a.a_startTime) h0
      (le_trans (flight_far h4) hf)
  · rw [flight_near h4 h5] at hf
    exact pointSize_le_near (localTime_fixed t a.a_startTime) h4 h5 hf

/-- C19 as stated fails in binary32.  For every seed with start time 0 and direction
`(0, 0, 0)` (so `|direction.z| ≤ 1`) at global time 29360134 the local age is `-2`, the
particle is visible, `camera_dist` is between 7 and 10 and the point size written is at
most `-2`, whatever `sin` returns; when `sin` returns 0 it is `-5991863 / 2097152`,
about `-2.857`. -/
theorem C19_point_size_negative :
    rnd 29360134 = 29360134 ∧ |(0 : ℚ)| ≤ 1
      ∧ localTime 29360134 0 = -2
      ∧ (∀ (sin : ℚ → ℚ) (m : mat4 ℚ) (o c : Vec3 ℚ),
          ¬ isHidden (main sin m ⟨o, ⟨0, 0, 0⟩, c, 0⟩ 29360134)
            ∧ 7 ≤ camera_dist (position sin ⟨o, ⟨0, 0, 0⟩, c, 0⟩ 29360134)
            ∧ (main sin m ⟨o, ⟨0, 0, 0⟩, c, 0⟩ 29360134).gl_PointSize
                = some (pointSize (-2) (position sin ⟨o, ⟨0, 0, 0⟩, c, 0⟩ 29360134))
            ∧ pointSize (-2) (position sin ⟨o, ⟨0, 0, 0⟩, c, 0⟩ 29360134) ≤ -2)
      ∧ (main (fun _ => 0) create_identity ⟨⟨0, 0, 0⟩, ⟨0, 0, 0⟩, ⟨0, 0, 0⟩, 0⟩
          29360134).gl_PointSize = some (-(5991863 / 2097152))
      ∧ -(5991863 / 2097152) < (0 : ℚ) := by
  obtain ⟨hx, -, hlt⟩ := late_frame
  have hvis : localTime 29360134 0 ≤ MAX_LIFETIME := by
    rw [hlt, MAX_LIFETIME_eq]
    norm_num
  have hgen : ∀ (sin : ℚ → ℚ) (m : mat4 ℚ) (o c : Vec3 ℚ),
      (main sin m ⟨o, ⟨0, 0, 0⟩, c, 0⟩ 29360134).gl_PointSize
        = some (pointSize (-2) (position sin ⟨o, ⟨0, 0, 0⟩, c, 0⟩ 29360134)) := by
    intro sin m o c
    have hm := main_gl_PointSize sin m ⟨o, ⟨0, 0, 0⟩, c, 0⟩ 29360134 hvis
    simp only [hlt] at hm
    exact hm
  refine ⟨hx, by norm_num, hlt, ?_, ?_, by norm_num⟩
  · intro sin m o c
    obtain ⟨z0, z1⟩ := (new_origin_range sin o (loop_count 29360134 0)).2.2
    have hz := position_z_still sin o c 0 29360134
    have hlo : 7 ≤ camera_dist (position sin ⟨o, ⟨0, 0, 0⟩, c, 0⟩ 29360134) := by
      have := camera_dist_ge (p := position sin ⟨o, ⟨0, 0, 0⟩, c, 0⟩ 29360134) (c := -2)
        (by norm_num; exact rnd_seven) (by rw [hz]; exact z1)
      norm_num at this
      exact this
    have hhi : camera_dist (position sin ⟨o, ⟨0, 0, 0⟩, c, 0⟩ 29360134) ≤ 10 := by
      have r10 : rnd 10 = 10 := by
        have := rnd_natCast 10 (by norm_num)
        exact_mod_cast this
      unfold camera_dist sub
      rw [CAMERA_Z_eq, hz]
      exact rnd_le_of_le_fixed r10 (by linarith)
    refine ⟨?_, hlo, hgen sin m o c, ?_⟩
    · rw [isHidden_main_iff]
      exact not_lt.2 hvis
    · unfold pointSize div
      rw [pointSizeNumerator_neg_two]
      apply rnd_le_of_le_fixed rnd_neg_two
      rw [div_le_iff₀ (by linarith)]
      linarith
  · have hpz : (position (fun _ => 0) ⟨⟨0, 0, 0⟩, ⟨0, 0, 0⟩, ⟨0, 0, 0⟩, 0⟩ 29360134).z
        = -2 := by
      rw [position_z_still, new_origin_sin_zero]
    have hcd : camera_dist
        (position (fun _ => 0) ⟨⟨0, 0, 0⟩, ⟨0, 0, 0⟩, ⟨0, 0, 0⟩, 0⟩ 29360134) = 7 := by
      unfold camera_dist sub
      rw [CAMERA_Z_eq, hpz]
      norm_num
      exact rnd_seven
    rw [hgen]
    unfold pointSize div
    rw [pointSizeNumerator_neg_two, hcd,
      show (-20 : ℚ) / 7 = -(20 / 7) by norm_num, rnd_neg]
    congr 2
    exact rnd_eval 1 11983726 (by norm_num)

/-- C19, amended: for every seed whose direction has z-component of absolute value at
most 1 and every global time at which the particle is visible with a local age that is
not negative (as it is when `start time ≤ global time` and the elapsed time is below
29360134): the re-seeded origin z is at most `-2`, the radial offset in z is at most
`5.0 * 1.1 = 5.5` in absolute value, `camera_dist = 5.0 - position.z` is at least 1.5,
so the division in `gl_PointSize` is not by zero, and the point size lies in
`[0, 10 * localTime / 1.5]`. -/
theorem C19_point_size_bounds (sin : ℚ → ℚ) (m : mat4 ℚ)
    (a : FireworkDance.VertexShader.Attribs ℚ) (t : ℚ) (hd : |a.a_direction.z| ≤ 1)
    (hvis : localTime t a.a_startTime ≤ MAX_LIFETIME)
    (h0 : 0 ≤ localTime t a.a_startTime) :
    (new_origin sin a.a_origin (loop_count t a.a_startTime)).z ≤ -2
      ∧ |(explosion_pos a.a_direction (localTime t a.a_startTime)).z| ≤ 11 / 2
      ∧ mul 5 SPEED = 11 / 2
      ∧ 3 / 2 ≤ camera_dist (position sin a t)
      ∧ camera_dist (position sin a t) ≠ 0
      ∧ (main sin m a t).gl_PointSize
          = some (pointSize (localTime t a.a_startTime) (position sin a t))
      ∧ 0 ≤ pointSize (localTime t a.a_startTime) (position sin a t)
      ∧ pointSize (localTime t a.a_startTime) (position sin a t)
          ≤ 10 * localTime t a.a_startTime / (3 / 2)
      ∧ (∀ s u : ℚ, s ≤ u → time_since_start u s < 29360134 → 0 ≤ localTime u s) := by
  have h5 : localTime t a.a_startTime ≤ 5 := by
    rw [← MAX_LIFETIME_eq]
    exact hvis
  obtain ⟨e0, e1⟩ := explosion_distance_range h0 h5
  obtain ⟨m0, m1⟩ := scaled_range hd e0 e1
  obtain ⟨n0, -⟩ := pointSizeNumerator_range h0 h5
  have hcd : 3 / 2 ≤ camera_dist (position sin a t) := by
    have := camera_dist_ge (p := position sin a t) (c := 7 / 2)
      (by norm_num; exact rnd_three_halves) (position_z_le sin a t hd h0 h5)
    norm_num at this
    linarith
  have hpos : 0 < camera_dist (position sin a t) := by linarith
  refine ⟨(new_origin_range sin a.a_origin (loop_count t a.a_startTime)).2.2.2, ?_,
    five_speed, hcd, ne_of_gt hpos, main_gl_PointSize sin m a t hvis, ?_,
    pointSize_le sin a t hd h0 h5,
    fun s u hsu hlt => (localTime_range s u (time_since_start_nonneg hsu) hlt).1⟩
  · simp only [explosion_pos]
    rw [abs_le]
    exact ⟨m0, m1⟩
  · unfold pointSize div
    exact rnd_nonneg (div_nonneg n0 (le_of_lt hpos))

theorem mid_frame : localTime (5 / 2) 0 = 5 / 2 := by
  have r52 : rnd (5 / 2) = 5 / 2 := by
    have := rnd_of_rep 5 (-1) (by norm_num) (by norm_num)
    norm_num at this
    exact this
  have h1 : time_since_start (5 / 2) 0 = 5 / 2 := by
    unfold time_since_start sub
    rw [sub_zero, r52]
  have hl := (loop_exact 0 (5 / 2) (by rw [h1]; norm_num) (by rw [h1]; norm_num)).2
  have hfl : ⌊(5 / 2 : ℚ) / 7⌋ = 0 := by
    rw [Int.floor_eq_iff]
    norm_num
  rw [h1, hfl] at hl
  norm_num at hl
  exact hl

/-- C19, amended, for the seed with start time 0 and direction `(0, 1, 0)` at global
time 2.5. -/
theorem C19_point_size_bounds_witness :
    |(0 : ℚ)| ≤ 1 ∧ localTime (5 / 2) 0 ≤ MAX_LIFETIME ∧ 0 ≤ localTime (5 / 2) 0
      ∧ 3 / 2 ≤ camera_dist
          (position (fun _ => 0) ⟨⟨0, 0, 0⟩, ⟨0, 1, 0⟩, ⟨0, 0, 0⟩, 0⟩ (5 / 2))
      ∧ 0 ≤ pointSize (localTime (5 / 2) 0)
          (position (fun _ => 0) ⟨⟨0, 0, 0⟩, ⟨0, 1, 0⟩, ⟨0, 0, 0⟩, 0⟩ (5 / 2))
      ∧ pointSize (localTime (5 / 2) 0)
          (position (fun _ => 0) ⟨⟨0, 0, 0⟩, ⟨0, 1, 0⟩, ⟨0, 0, 0⟩, 0⟩ (5 / 2))
          ≤ 10 * localTime (5 / 2) 0 / (3 / 2) := by
  have hd : |(0 : ℚ)| ≤ 1 := by norm_num
  have hvis : localTime (5 / 2) 0 ≤ MAX_LIFETIME := by
    rw [MAX_LIFETIME_eq, mid_frame]
    norm_num
  have h0 : 0 ≤ localTime (5 / 2) 0 := by
    rw [mid_frame]
    norm_num
  have h := C19_point_size_bounds (fun _ => 0) create_identity
    ⟨⟨0, 0, 0⟩, ⟨0, 1, 0⟩, ⟨0, 0, 0⟩, 0⟩ (5 / 2) hd hvis h0
  exact ⟨hd, hvis, h0, h.2.2.2.1, h.2.2.2.2.2.2.1, h.2.2.2.2.2.2.2.1⟩

/-! ## The animator in binary32: particles of one group -/

theorem gravity_offset_range {lt : ℚ} (h5 : lt ≤ 5) :
    0 ≤ gravity_offset lt ∧ gravity_offset lt ≤ 7 := by
  unfold gravity_offset
  rw [GRAVITY_DELAY_eq]
  by_cases h : lt > 3 / 2
  · rw [if_pos h]
    have e05 : rnd 0.5 = 1 / 2 := by norm_num; exact rnd_half
    have g0 : 0 ≤ sub lt (3 / 2) := rnd_nonneg (by linarith)
    have g1 : sub lt (3 / 2) ≤ 7 / 2 := rnd_le_of_le_fixed rnd_seven_halves (by linarith)
    have r49 : rnd (49 / 4) = 49 / 4 := by
      have := rnd_of_rep 49 (-2) (by norm_num) (by norm_num)
      norm_num at this
      exact this
    have s0 : 0 ≤ mul (sub lt (3 / 2)) (sub lt (3 / 2)) := rnd_nonneg (mul_self_nonneg _)
    have s1 : mul (sub lt (3 / 2)) (sub lt (3 / 2)) ≤ 49 / 4 :=
      rnd_le_of_le_fixed r49 (by nlinarith)
    have c0 : 0 ≤ mul (rnd 0.5) GRAVITY_ACCEL := by
      rw [e05, GRAVITY_ACCEL_eq]
      exact rnd_nonneg (by norm_num)
    have c1 : mul (rnd 0.5) GRAVITY_ACCEL ≤ 1 / 2 := by
      rw [e05, GRAVITY_ACCEL_eq]
      exact rnd_le_of_le_fixed rnd_half (by norm_num)
    constructor
    · exact rnd_nonneg (mul_nonneg c0 s0)
    · apply rnd_le_of_le_fixed rnd_seven
      nlinarith
  · rw [if_neg h, rnd_ofScientific_zero]
    norm_num

theorem explosion_distance_error {lt : ℚ} (h0 : 0 ≤ lt) (h5 : lt ≤ 5) :
    |explosion_distance lt - lt * (11 / 10)| ≤ 3 / 8388608 := by
  have hs : SPEED - 11 / 10 = 1 / 41943040 := by
    rw [SPEED_eq]
    norm_num
  have hS : (0 : ℚ) ≤ SPEED := by
    rw [SPEED_eq]
    norm_num
  have hb : |lt * SPEED| < (2 : ℚ) ^ ((2 : ℤ) + 1) := by
    rw [abs_of_nonneg (mul_nonneg h0 hS)]
    norm_num
    nlinarith
  have herr := abs_rnd_sub_le (x := lt * SPEED) (E := 2) (by norm_num) hb
  norm_num at herr
  unfold explosion_distance mul
  rw [abs_le] at herr ⊢
  constructor <;> nlinarith [herr.1, herr.2]

/-- One coordinate of step 10, `(o + d * e) - g`, is within `5 * 2^-22` of the exact
value. -/
theorem axis_error {o d e g : ℚ} (hd : |d| ≤ 1) (he0 : 0 ≤ e) (he1 : e ≤ 11 / 2)
    (hg0 : 0 ≤ g) (hog : |o| + g ≤ 10) :
    |sub (add o (mul d e)) g - (o + d * e - g)| ≤ 5 / 4194304 := by
  obtain ⟨m0, m1⟩ := scaled_range hd he0 he1
  have hde : |d * e| ≤ 11 / 2 := by
    rw [abs_mul, abs_of_nonneg he0]
    calc |d| * e ≤ 1 * e := mul_le_mul_of_nonneg_right hd he0
      _ ≤ 11 / 2 := by linarith
  have e1 : |mul d e - d * e| ≤ 1 / 4194304 := by
    have := abs_rnd_sub_le (x := d * e) (E := 2) (by norm_num)
      (by norm_num; linarith)
    norm_num at this
    exact this
  have hm : |mul d e| ≤ 11 / 2 := abs_le.2 ⟨m0, m1⟩
  have hom : |o + mul d e| ≤ |o| + 11 / 2 :=
    le_trans (abs_add _ _) (by linarith)
  have ho : |o| ≤ 10 := by linarith
  have e2 : |add o (mul d e) - (o + mul d e)| ≤ 1 / 2097152 := by
    have := abs_rnd_sub_le (x := o + mul d e) (E := 3) (by norm_num)
      (by norm_num; linarith)
    norm_num at this
    exact this
  have hA : |add o (mul d e)| ≤ |o| + 11 / 2 + 1 / 2097152 := by
    have := abs_sub_abs_le_abs_sub (add o (mul d e)) (o + mul d e)
    linarith
  have hAg : |add o (mul d e) - g| ≤ |o| + 11 / 2 + 1 / 2097152 + g := by
    have := abs_sub (add o (mul d e)) g
    rw [abs_of_nonneg hg0] at this
    linarith
  have e3 : |sub (add o (mul d e)) g - (add o (mul d e) - g)| ≤ 1 / 2097152 := by
    have := abs_rnd_sub_le (x := add o (mul d e) - g) (E := 3) (by norm_num)
      (by norm_num; linarith)
    norm_num at this
    exact this
  rw [abs_le] at e1 e2 e3 ⊢
  constructor <;> linarith [e1.1, e1.2, e2.1, e2.2, e3.1, e3.2]

/-- Two coordinates computed from the same origin, distance and gravity offset differ
by `(d1 - d2) * L` up to `2^-18`. -/
theorem axis_pair {o d1 d2 e g L : ℚ} (hd1 : |d1| ≤ 1) (hd2 : |d2| ≤ 1) (he0 : 0 ≤ e)
    (he1 : e ≤ 11 / 2) (hg0 : 0 ≤ g) (hog : |o| + g ≤ 10) (hL : |e - L| ≤ 3 / 8388608) :
    |(sub (add o (mul d1 e)) g - sub (add o (mul d2 e)) g) - (d1 - d2) * L|
      ≤ 1 / 262144 := by
  have a1 := axis_error (o := o) hd1 he0 he1 hg0 hog
  have a2 := axis_error (o := o) hd2 he0 he1 hg0 hog
  have hd : |d1 - d2| ≤ 2 := le_trans (abs_sub _ _) (by linarith)
  have hp : |(d1 - d2) * (e - L)| ≤ 2 * (3 / 8388608) := by
    rw [abs_mul]
    exact mul_le_mul hd hL (abs_nonneg _) (by norm_num)
  rw [abs_le] at a1 a2 hp ⊢
  constructor <;> nlinarith [a1.1, a1.2, a2.1, a2.2, hp.1, hp.2]

theorem position_x (sin : ℚ → ℚ) (a : FireworkDance.VertexShader.Attribs ℚ) (t : ℚ) :
    (position sin a t).x
      = sub (add (new_origin sin a.a_origin (loop_count t a.a_startTime)).x
          (mul a.a_direction.x (explosion_distance (localTime t a.a_startTime)))) 0 := by
  simp only [position, combine, explosion_pos, rnd_ofScientific_zero]

theorem position_y (sin : ℚ → ℚ) (a : FireworkDance.VertexShader.Attribs ℚ) (t : ℚ) :
    (position sin a t).y
      = sub (add (new_origin sin a.a_origin (loop_count t a.a_startTime)).y
          (mul a.a_direction.y (explosion_distance (localTime t a.a_startTime))))
          (gravity_offset (localTime t a.a_startTime)) := by
  simp only [position, combine, explosion_pos]

theorem position_z (sin : ℚ → ℚ) (a : FireworkDance.VertexShader.Attribs ℚ) (t : ℚ) :
    (position sin a t).z
      = sub (add (new_origin sin a.a_origin (loop_count t a.a_startTime)).z
          (mul a.a_direction.z (explosion_distance (localTime t a.a_startTime)))) 0 := by
  simp only [position, combine, explosion_pos, rnd_ofScientific_zero]

theorem first_second : loop_count 1 0 = 0 ∧ localTime 1 0 = 1 := by
  have h1 : time_since_start 1 0 = 1 := by
    unfold time_since_start sub
    rw [sub_zero, rnd_one]
  have h := loop_exact 0 1 (by rw [h1]; norm_num) (by rw [h1]; norm_num)
  have hfl : ⌊(1 : ℚ) / 7⌋ = 0 := by
    rw [Int.floor_eq_iff]
    norm_num
  rw [h1, hfl] at h
  norm_num at h
  exact h

/-- The re-seeded origin of the seed origin `(0, 0, 0)` in loop 0: the hash is taken
at `(0, 0, 0)`, where every dot product is 0. -/
theorem new_origin_at_zero (sin : ℚ → ℚ) (h : sin 0 = 0) :
    new_origin sin ⟨0, 0, 0⟩ 0 = ⟨-3, -2, -2⟩ := by
  have e3 : rnd 3.0 = 3 := by norm_num; exact rnd_three
  have e2 : rnd 2.0 = 2 := by norm_num; exact rnd_two
  have a3 : sub 0 3 = -3 := by
    unfold sub
    norm_num
    exact rnd_neg_three
  have a2 : sub 0 2 = -2 := by
    unfold sub
    norm_num
    exact rnd_neg_two
  have z : add 0 0 = 0 := add_zero_fixed rnd_zero
  have f0 : fract 0 = 0 := by
    unfold fract sub floor
    norm_num
    exact rnd_zero
  simp only [new_origin, loop_seed, hash3, dot, z, mul_zero_left, h, f0, e3, e2, a3, a2]

/-- C6 as stated fails in binary32.  Two seeds of one group (origin `(0, 0, 0)`, start
time 0) with directions `(0.3f, 0, 0)` and `(0, 0, 0)` at global time 1, local age 1:
for every `sin` with `sin(0) = 0` the x coordinates of the two positions differ by
`173015 / 524288 = 0.32999992`, while `(d1 - d2) * localTime * 1.1` is
`11072963 / 33554432 = 0.33000001`. -/
theorem C6_position_difference_inexact :
    rnd (5033165 / 16777216) = 5033165 / 16777216
      ∧ localTime 1 0 = 1
      ∧ (∀ (sin : ℚ → ℚ) (c : Vec3 ℚ), sin 0 = 0 →
          (position sin ⟨⟨0, 0, 0⟩, ⟨5033165 / 16777216, 0, 0⟩, c, 0⟩ 1).x
            - (position sin ⟨⟨0, 0, 0⟩, ⟨0, 0, 0⟩, c, 0⟩ 1).x = 173015 / 524288)
      ∧ ((5033165 : ℚ) / 16777216 - 0) * localTime 1 0 * (11 / 10) = 11072963 / 33554432
      ∧ (173015 : ℚ) / 524288 ≠ 11072963 / 33554432 := by
  obtain ⟨hlc, hlt⟩ := first_second
  have hfix : rnd (5033165 / 16777216) = 5033165 / 16777216 :=
    rnd_eval (-2) 10066330 (by norm_num)
  have he : explosion_distance 1 = 9227469 / 8388608 := by
    unfold explosion_distance mul
    rw [SPEED_eq, one_mul]
    exact rnd_eval 0 9227469 (by norm_num)
  have hm : mul (5033165 / 16777216) (9227469 / 8388608) = 11072963 / 33554432 :=
    rnd_eval (-2) 11072963 (by norm_num)
  have ha : add (-3) (11072963 / 33554432) = -(1399849 / 524288) := by
    unfold add
    rw [show (-3 : ℚ) + 11072963 / 33554432 = -(89590333 / 33554432) by norm_num, rnd_neg]
    congr 1
    exact rnd_eval 1 11198792 (by norm_num)
  have hs : sub (-(1399849 / 524288)) 0 = -(1399849 / 524288) := by
    unfold sub
    rw [sub_zero, ← ha]
    exact rnd_idem _
  have hs3 : sub (add (-3) 0) 0 = -3 := by
    rw [add_zero_fixed rnd_neg_three, sub_zero_fixed rnd_neg_three]
  refine ⟨hfix, hlt, ?_, ?_, by norm_num⟩
  · intro sin c h0
    have p1 : (position sin
        ⟨⟨0, 0, 0⟩, ⟨5033165 / 16777216, 0, 0⟩, c, 0⟩ 1).x = -(1399849 / 524288) := by
      rw [position_x]
      simp only [hlc, hlt, new_origin_at_zero sin h0, he, hm, ha, hs]
    have p2 : (position sin ⟨⟨0, 0, 0⟩, ⟨0, 0, 0⟩, c, 0⟩ 1).x = -3 := by
      rw [position_x]
      simp only [hlc, new_origin_at_zero sin h0, mul_zero_left, hs3]
    rw [p1, p2]
    norm_num
  · rw [hlt]
    norm_num

/-- C6, amended: two particle seeds that agree on origin, colour and start time, with
arbitrary directions `d1` and `d2`, get at every global time the same loop count, local
age, visibility, re-seeded origin, re-seeded colour and alpha, and equal directions give
equal positions; on a visible frame whose local age is not negative, for directions with
components in `[-1, 1]`, each coordinate of the difference of their world positions is
within `2^-18` of the same coordinate of `(d1 - d2) * localTime * 1.1`. -/
theorem C6_group_coherence (sin : ℚ → ℚ) (m : mat4 ℚ)
    (a1 a2 : FireworkDance.VertexShader.Attribs ℚ) (t : ℚ)
    (ho : a1.a_origin = a2.a_origin) (hc : a1.a_color = a2.a_color)
    (hs : a1.a_startTime = a2.a_startTime) :
    loop_count t a1.a_startTime = loop_count t a2.a_startTime
      ∧ localTime t a1.a_startTime = localTime t a2.a_startTime
      ∧ (isHidden (main sin m a1 t) ↔ isHidden (main sin m a2 t))
      ∧ new_origin sin a1.a_origin (loop_count t a1.a_startTime)
          = new_origin sin a2.a_origin (loop_count t a2.a_startTime)
      ∧ new_color sin a1.a_color (loop_count t a1.a_startTime)
          = new_color sin a2.a_color (loop_count t a2.a_startTime)
      ∧ (main sin m a1 t).v_color = (main sin m a2 t).v_color
      ∧ (main sin m a1 t).v_alpha = (main sin m a2 t).v_alpha
      ∧ (a1.a_direction = a2.a_direction → position sin a1 t = position sin a2 t)
      ∧ (localTime t a1.a_startTime ≤ MAX_LIFETIME → 0 ≤ localTime t a1.a_startTime →
          (|a1.a_direction.x| ≤ 1 ∧ |a1.a_direction.y| ≤ 1 ∧ |a1.a_direction.z| ≤ 1) →
          (|a2.a_direction.x| ≤ 1 ∧ |a2.a_direction.y| ≤ 1 ∧ |a2.a_direction.z| ≤ 1) →
          |((position sin a1 t).x - (position sin a2 t).x)
              - (a1.a_direction.x - a2.a_direction.x) * localTime t a1.a_startTime
                * (11 / 10)| ≤ 1 / 262144
            ∧ |((position sin a1 t).y - (position sin a2 t).y)
              - (a1.a_direction.y - a2.a_direction.y) * localTime t a1.a_startTime
                * (11 / 10)| ≤ 1 / 262144
            ∧ |((position sin a1 t).z - (position sin a2 t).z)
              - (a1.a_direction.z - a2.a_direction.z) * localTime t a1.a_startTime
                * (11 / 10)| ≤ 1 / 262144) := by
  refine ⟨by rw [hs], by rw [hs], ?_, by rw [ho, hs], by rw [hc, hs], ?_, ?_, ?_, ?_⟩
  · rw [isHidden_main_iff, isHidden_main_iff, hs]
  · unfold main
    rw [hs, hc]
    by_cases h : localTime t a2.a_startTime > MAX_LIFETIME
    · simp [h]
    · simp [h]
  · unfold main
    rw [hs]
    by_cases h : localTime t a2.a_startTime > MAX_LIFETIME
    · simp [h]
    · simp [h]
  · intro hd
    simp only [position, ho, hs, hd]
  · intro hvis h0 hd1 hd2
    have h5 : localTime t a1.a_startTime ≤ 5 := by
      rw [← MAX_LIFETIME_eq]
      exact hvis
    obtain ⟨e0, e1⟩ := explosion_distance_range h0 h5
    obtain ⟨g0, g1⟩ := gravity_offset_range h5
    have hL := explosion_distance_error h0 h5
    obtain ⟨⟨x0, x1⟩, ⟨y0, y1⟩, ⟨z0, z1⟩⟩ :=
      new_origin_range sin a1.a_origin (loop_count t a1.a_startTime)
    have ax : |(new_origin sin a1.a_origin (loop_count t a1.a_startTime)).x| ≤ 3 :=
      abs_le.2 ⟨x0, x1⟩
    have ay : |(new_origin sin a1.a_origin (loop_count t a1.a_startTime)).y| ≤ 2 :=
      abs_le.2 ⟨y0, y1⟩
    have az : |(new_origin sin a1.a_origin (loop_count t a1.a_startTime)).z| ≤ 5 :=
      abs_le.2 ⟨z0, by linarith⟩
    rw [position_x, position_y, position_z, position_x, position_y, position_z, ← ho, ← hs,
      mul_assoc, mul_assoc, mul_assoc]
    exact ⟨axis_pair hd1.1 hd2.1 e0 e1 le_rfl (by linarith) hL,
      axis_pair hd1.2.1 hd2.2.1 e0 e1 g0 (by linarith) hL,
      axis_pair hd1.2.2 hd2.2.2 e0 e1 le_rfl (by linarith) hL⟩

/-- C6, amended, on two seeds of one group (start time 0) with directions `(0, 1, 0)`
and `(1, 0, 0)` at global time 1, local age 1. -/
theorem C6_group_coherence_witness :
    localTime 1 0 ≤ MAX_LIFETIME ∧ 0 ≤ localTime 1 0
      ∧ |((position (fun _ => 0) ⟨⟨0, 0, 0⟩, ⟨0, 1, 0⟩, ⟨0, 0, 0⟩, 0⟩ 1).x
            - (position (fun _ => 0) ⟨⟨0, 0, 0⟩, ⟨1, 0, 0⟩, ⟨0, 0, 0⟩, 0⟩ 1).x)
          - (0 - 1) * localTime 1 0 * (11 / 10)| ≤ 1 / 262144 := by
  have hvis : localTime 1 0 ≤ MAX_LIFETIME := by
    rw [first_second.2, MAX_LIFETIME_eq]
    norm_num
  have h0 : 0 ≤ localTime 1 0 := by
    rw [first_second.2]
    norm_num
  have h := (C6_group_coherence (fun _ => 0) create_identity
    ⟨⟨0, 0, 0⟩, ⟨0, 1, 0⟩, ⟨0, 0, 0⟩, 0⟩ ⟨⟨0, 0, 0⟩, ⟨1, 0, 0⟩, ⟨0, 0, 0⟩, 0⟩ 1
    rfl rfl rfl).2.2.2.2.2.2.2.2 hvis h0
    ⟨by norm_num, by norm_num, by norm_num⟩ ⟨by norm_num, by norm_num, by norm_num⟩
  exact ⟨hvis, h0, h.1⟩

end VertexShader

end Binary32

/-! ## The seed generator in binary32 -/

namespace Binary32

namespace SeedGenerator

open F32

theorem frand_range (RAND_MAX r : ℕ) (hpos : 0 < RAND_MAX) (hr : r ≤ RAND_MAX) :
    0 ≤ frand RAND_MAX r ∧ frand RAND_MAX r ≤ 1 := by
  have h1 : (1 : ℚ) ≤ rnd (RAND_MAX : ℚ) :=
    le_rnd_of_fixed_le rnd_one (by exact_mod_cast hpos)
  have h2 : 0 ≤ rnd (r : ℚ) := rnd_nonneg (by positivity)
  have h3 : rnd (r : ℚ) ≤ rnd (RAND_MAX : ℚ) := rnd_mono (by exact_mod_cast hr)
  unfold frand div
  constructor
  · exact rnd_nonneg (div_nonneg h2 (by linarith))
  · exact rnd_le_of_le_fixed rnd_one ((div_le_one (by linarith)).2 h3)

theorem glibc_top : rnd 2147483647 = 2147483648 ∧ rnd 2147483646 = 2147483648 :=
  ⟨rnd_eval 30 16777216 (by norm_num), rnd_eval 30 16777216 (by norm_num)⟩

/-- C9 as stated fails.  With glibc's `RAND_MAX = 2147483647`, a generator that returns
`RAND_MAX`, and likewise one that returns `RAND_MAX - 1 = 2147483646`, gives a group
with start time exactly 5 and colour channels exactly 1: both draws and `RAND_MAX`
convert to the binary32 number `2^31`. -/
theorem C9_upper_ends_reached :
    (groupSeed 2147483647 (fun _ => 2147483647) 0).startTime = 5
      ∧ (groupSeed 2147483647 (fun _ => 2147483647) 0).r_seed = 1
      ∧ (groupSeed 2147483647 (fun _ => 2147483646) 0).startTime = 5
      ∧ (groupSeed 2147483647 (fun _ => 2147483646) 0).r_seed = 1
      ∧ (groupSeed 2147483647 (fun _ => 2147483646) 0).g_seed = 1
      ∧ (groupSeed 2147483647 (fun _ => 2147483646) 0).b_seed = 1
      ∧ ¬ ((groupSeed 2147483647 (fun _ => 2147483646) 0).startTime < 5)
      ∧ ¬ ((groupSeed 2147483647 (fun _ => 2147483646) 0).r_seed < 1) := by
  have f1 : frand 2147483647 2147483647 = 1 := by
    unfold frand div
    push_cast
    rw [glibc_top.1, div_self (by norm_num), rnd_one]
  have f2 : frand 2147483647 2147483646 = 1 := by
    unfold frand div
    push_cast
    rw [glibc_top.1, glibc_top.2, div_self (by norm_num), rnd_one]
  have e5 : rnd 5.0 = 5 := by norm_num; exact rnd_five
  have m5 : mul 1 5 = 5 := by
    unfold mul
    rw [one_mul, rnd_five]
  simp only [groupSeed, f1, f2, e5, m5]
  norm_num

/-- C9, amended: for every sequence of `rand()` results in `0..RAND_MAX`, each group
drawn by the seed generator has origin.x in `[-3,3]`, origin.y in `[-2,2]`, origin.z in
`[-5,-2]`, start time in the closed interval `[0,5]` and every colour channel in the
closed interval `[0,1]`. -/
theorem C9_group_ranges (RAND_MAX : ℕ) (rand : ℕ → ℕ) (n : ℕ) (hpos : 0 < RAND_MAX)
    (hrand : ∀ k, rand k ≤ RAND_MAX) :
    (-3 ≤ (groupSeed RAND_MAX rand n).originX ∧ (groupSeed RAND_MAX rand n).originX ≤ 3)
      ∧ (-2 ≤ (groupSeed RAND_MAX rand n).originY ∧ (groupSeed RAND_MAX rand n).originY ≤ 2)
      ∧ (-5 ≤ (groupSeed RAND_MAX rand n).originZ
          ∧ (groupSeed RAND_MAX rand n).originZ ≤ -2)
      ∧ (0 ≤ (groupSeed RAND_MAX rand n).startTime
          ∧ (groupSeed RAND_MAX rand n).startTime ≤ 5)
      ∧ (0 ≤ (groupSeed RAND_MAX rand n).r_seed ∧ (groupSeed RAND_MAX rand n).r_seed ≤ 1)
      ∧ (0 ≤ (groupSeed RAND_MAX rand n).g_seed ∧ (groupSeed RAND_MAX rand n).g_seed ≤ 1)
      ∧ (0 ≤ (groupSeed RAND_MAX rand n).b_seed ∧ (groupSeed RAND_MAX rand n).b_seed ≤ 1) := by
  have fr : ∀ k, 0 ≤ frand RAND_MAX (rand k) ∧ frand RAND_MAX (rand k) ≤ 1 :=
    fun k => frand_range RAND_MAX (rand k) hpos (hrand k)
  have e6 : rnd 6.0 = 6 := by norm_num; exact rnd_six
  have e5 : rnd 5.0 = 5 := by norm_num; exact rnd_five
  have e4 : rnd 4.0 = 4 := by norm_num; exact rnd_four
  have e3 : rnd 3.0 = 3 := by norm_num; exact rnd_three
  have e2 : rnd 2.0 = 2 := by norm_num; exact rnd_two
  have em3 : rnd (-3.0) = -3 := by norm_num; exact rnd_neg_three
  have r5 : rnd (-5) = -5 := by
    rw [rnd_neg, rnd_five]
  simp only [groupSeed, e6, e5, e4, e3, e2, em3]
  refine ⟨VertexShader.remap_range (fr n).1 (fr n).2 (by norm_num) rnd_neg_three rnd_three
      rnd_six (by norm_num) (by norm_num),
    VertexShader.remap_range (fr (n + 1)).1 (fr (n + 1)).2 (by norm_num) rnd_neg_two rnd_two
      rnd_four (by norm_num) (by norm_num), ?_, ?_, fr (n + 4), fr (n + 5), fr (n + 6)⟩
  · have hm0 : mul (frand RAND_MAX (rand (n + 2))) (-3) ≤ 0 :=
      rnd_nonpos (by nlinarith [(fr (n + 2)).1])
    have hm1 : -3 ≤ mul (frand RAND_MAX (rand (n + 2))) (-3) :=
      le_rnd_of_fixed_le rnd_neg_three (by nlinarith [(fr (n + 2)).2])
    unfold sub
    constructor
    · exact le_rnd_of_fixed_le r5 (by linarith)
    · exact rnd_le_of_le_fixed rnd_neg_two (by linarith)
  · unfold mul
    constructor
    · exact rnd_nonneg (by nlinarith [(fr (n + 3)).1])
    · exact rnd_le_of_le_fixed rnd_five (by nlinarith [(fr (n + 3)).2])

/-- C9, amended, for `RAND_MAX = 32767` and a generator that always returns 16384. -/
theorem C9_group_ranges_witness :
    0 < 32767 ∧ (∀ k : ℕ, (fun _ => 16384) k ≤ 32767)
      ∧ (0 ≤ (groupSeed 32767 (fun _ => 16384) 0).startTime
          ∧ (groupSeed 32767 (fun _ => 16384) 0).startTime ≤ 5) :=
  ⟨by norm_num, fun _ => by norm_num,
    (C9_group_ranges 32767 (fun _ => 16384) 0 (by norm_num) (fun _ => by norm_num)).2.2.2.1⟩

end SeedGenerator

end Binary32

/-! ## The fragment shader in binary32 -/

namespace F32

end F32

namespace Binary32

namespace FragmentShader

open F32

end FragmentShader

end Binary32

end FireworkDance
